import Mathlib

/-!
# View/session topology of the multi-terminal Konsole `ViewManager`

A shallow embedding of `src/src/ViewManager.cpp`.

Pointers are natural numbers handed out by one allocation counter
(`ViewManager.nextPtr`); a pointer that may be null is an `Option`.
An operation that would dereference a null pointer has no defined result
and returns `none`.

`ViewSplitter`, `ViewContainer`, `MultiTerminalDisplayManager`, `Session`
and `SessionManager` are used by `ViewManager.cpp` but their sources are not
part of `src/`; the small parts of them the manager calls are modelled from
the specification and marked as such.  Rendering (profiles, colours, sizes)
is left out: it never feeds back into the topology.
-/

namespace Konsole

/-! ## Data model -/

/-- The two values of `Qt::Orientation`. -/
inductive Orientation where
  | Horizontal
  | Vertical
deriving DecidableEq, Repr

/-- Modelled from the spec: the pane tree of one tab (`MultiTerminalDisplay`),
a leaf bound to one terminal display (with the session the display was
registered for) or a split with ordered children. -/
inductive PaneTreeNode where
  | Leaf (view : Nat) (sessionId : Nat)
  | Split (orientation : Orientation) (children : List PaneTreeNode) (focusedChildIndex : Nat)
deriving Repr

/-- The member `_sessionMap`, a `QHash<TerminalDisplay*, Session*>`: a finite
map from display pointers to session pointers, the latter possibly null. -/
structure SessionMap where
  entries : List (Nat × Option Nat)
deriving DecidableEq, Repr

/-- The signals of `ViewManager` that the modelled operations emit. -/
inductive Signal where
  | viewDetached (session : Option Nat)
  | unplugController (controller : Nat)
  | activeViewChanged (controller : Nat)
  | splitViewToggle (multipleViews : Bool)
  | updateWindowIcon
deriving DecidableEq, Repr

/-- The enumeration `ViewManager::NewTabBehavior`. -/
inductive NewTabBehavior where
  | PutNewTabAtTheEnd
  | PutNewTabAfterCurrentTab
deriving DecidableEq, Repr

/-- Modelled from the spec: a `ViewContainer`, the ordered tabs (widget
pointers) of one tab group and the tab that is active. -/
structure ViewContainer where
  ptr : Nat
  views : List Nat
  activeView : Option Nat
deriving DecidableEq, Repr

/-- Modelled from the spec: the `ViewSplitter`, the ordered containers it
holds (by pointer), the position of the active one, and its focus proxy. -/
structure ViewSplitter where
  containers : List Nat
  activeContainerIndex : Nat
  focusProxy : Option Nat
deriving DecidableEq, Repr

/-- A `SessionController`, created for one session/display pair. -/
structure SessionController where
  ptr : Nat
  session : Nat
  view : Nat
deriving DecidableEq, Repr

/-- The `KActionCollection` as far as the manager reads it back: whether the
action `detach-view` exists and, if so, whether it is enabled. -/
structure ActionCollection where
  detachView : Option Bool
deriving DecidableEq, Repr

/-- The state of one `ViewManager` together with the parts of its
collaborators that its operations read or write. -/
structure ViewManager where
  /-- Member `_viewSplitter`, a guarded pointer: `none` once the widget is destroyed. -/
  viewSplitter : Option ViewSplitter
  /-- Every container object made by `createContainer`, in the splitter or not. -/
  containers : List ViewContainer
  /-- Member `_mtdManager`: the pane tree of every root `MultiTerminalDisplay`. -/
  mtdTrees : List (Nat × PaneTreeNode)
  /-- Member `_sessionMap`. -/
  sessionMap : SessionMap
  /-- The controllers made by `createController`. -/
  controllers : List SessionController
  /-- Member `_pluggedController`. -/
  pluggedController : Option Nat
  /-- Member `_newTabBehavior`. -/
  newTabBehavior : NewTabBehavior
  /-- Member `_actionCollection`, possibly null. -/
  actionCollection : Option ActionCollection
  /-- Whether `ENABLE_DETACHING` is defined in `config-konsole.h`. -/
  enableDetaching : Bool
  /-- Value of `ProfileManager::instance()->defaultProfile()`. -/
  defaultProfile : Nat
  /-- Every pointer returned by `new TerminalDisplay`. -/
  terminalDisplays : List Nat
  /-- Value of `Session::views()` of every session, as pairs (session, display). -/
  sessionViews : List (Nat × Nat)
  /-- The profile each session was created from. -/
  sessionProfiles : List (Nat × Nat)
  /-- The sessions on which `run()` has been called. -/
  running : List Nat
  /-- The sessions whose `finished` signal is connected to `sessionFinished`. -/
  finishedConnections : List Nat
  /-- The widget that was last given the keyboard focus by the manager. -/
  focus : Option Nat
  /-- The objects on which `deleteLater()` has been called. -/
  deleteLater : List Nat
  /-- The signals emitted so far, oldest first. -/
  emitted : List Signal
  /-- The calls of `Session::close()` made by the manager, oldest first, each
  with the value of `views()` of that session when the call was made. -/
  closeCalls : List (Nat × List Nat)
  /-- The next pointer the allocator hands out. -/
  nextPtr : Nat

/-- The group read and written by `restoreSessions` / `saveSessions`. -/
structure KConfigGroup where
  sessions : Option (List Int)
  active : Option Int
deriving DecidableEq, Repr

/-! ## Pane trees -/

mutual
/-- Modelled from the spec: the terminal displays of a pane tree, left to right. -/
def PaneTreeNode.leaves : PaneTreeNode → List Nat
  | .Leaf v _ => [v]
  | .Split _ cs _ => PaneTreeNode.leavesOfList cs
/-- The terminal displays of a sequence of pane trees. -/
def PaneTreeNode.leavesOfList : List PaneTreeNode → List Nat
  | [] => []
  | c :: cs => c.leaves ++ PaneTreeNode.leavesOfList cs
end

/-! ## The view/session map -/

namespace SessionMap

/-- The entry of key `k`: `none` when the map has no such key. -/
def find? (m : SessionMap) (k : Nat) : Option (Option Nat) :=
  List.lookup k m.entries

/-- Method `QHash::contains`. -/
def contains (m : SessionMap) (k : Nat) : Bool :=
  (m.find? k).isSome

/-- Method `QHash::remove`: every entry of key `k` goes. -/
def remove (m : SessionMap) (k : Nat) : SessionMap :=
  ⟨m.entries.filter (fun e => e.1 != k)⟩

/-- Assignment `_sessionMap[k] = v`: the entry of `k` is replaced or added. -/
def insert (m : SessionMap) (k : Nat) (v : Option Nat) : SessionMap :=
  ⟨(k, v) :: (m.remove k).entries⟩

/-- Expression `_sessionMap[k]` read through the non-const `operator[]`: when the key is
absent, an entry with the default value (a null session) is inserted.  The
result is the value read and the map afterwards. -/
def index (m : SessionMap) (k : Nat) : Option Nat × SessionMap :=
  match m.find? k with
  | some v => (v, m)
  | none => (none, ⟨(k, none) :: m.entries⟩)

/-- The keys of the map. -/
def keys (m : SessionMap) : List Nat :=
  m.entries.map Prod.fst

end SessionMap

/-- The value of key `k` read without inserting (`QHash::value`): a null
session when the key is absent. -/
def SessionMap.value (m : SessionMap) (k : Nat) : Option Nat :=
  (m.find? k).getD none

/-! ## Containers and the splitter -/

/-- The result of `QList::indexOf`: the first position of `w`, or `-1`. -/
def qIndexOf (w : Nat) (l : List Nat) : Int :=
  if w ∈ l then (l.indexOf w : Int) else -1

/-- Modelled from the spec: the tab list after a tab is inserted at `index`,
appended when `index < 0`; an index past the end also appends, as
`QList::insert` does. -/
def qInsert (l : List Nat) (index : Int) (w : Nat) : List Nat :=
  if index < 0 then l ++ [w]
  else l.take index.toNat ++ w :: l.drop index.toNat

namespace ViewContainer

/-- Modelled from the spec: `addView(view, properties, index)` of the absent
`ViewContainer`.  The tab is inserted at `index`, appended when `index < 0`;
it becomes the active tab when the container was empty. -/
def addView (c : ViewContainer) (view : Nat) (index : Int) : ViewContainer :=
  { c with
    views := qInsert c.views index view
    activeView := if c.views.isEmpty then some view else c.activeView }

/-- Modelled from the spec: `removeView(view)` of the absent `ViewContainer`.
The tab is removed; if it was the active one, the tab now at the same index
becomes active, or the previous one if that index is out of range, or none
if the container is empty. -/
def removeView (c : ViewContainer) (view : Nat) : ViewContainer :=
  let idx := c.views.indexOf view
  let rest := c.views.filter (fun w => w != view)
  { c with
    views := rest
    activeView :=
      if c.activeView = some view then
        (if idx < rest.length then rest[idx]? else rest[idx - 1]?)
      else c.activeView }

/-- Modelled from the spec: `setActiveView(view)` of the absent
`ViewContainer`; a widget that is not a tab of the container is ignored. -/
def setActiveView (c : ViewContainer) (view : Nat) : ViewContainer :=
  if view ∈ c.views then { c with activeView := some view } else c

end ViewContainer

namespace ViewSplitter

/-- Modelled from the spec: `activeContainer()` of the absent `ViewSplitter`,
the container at `activeContainerIndex`, null when there is none. -/
def activeContainer (sp : ViewSplitter) : Option Nat :=
  sp.containers[sp.activeContainerIndex]?

/-- Modelled from the spec: `addContainer(container, orientation)` of the
absent `ViewSplitter`; the orientation only lays the regions out. -/
def addContainer (sp : ViewSplitter) (container : Nat) (_orientation : Orientation) :
    ViewSplitter :=
  { sp with containers := sp.containers ++ [container] }

/-- Modelled from the spec: `activateNextContainer()` of the absent
`ViewSplitter`, cyclic over the containers. -/
def activateNextContainer (sp : ViewSplitter) : ViewSplitter :=
  if sp.containers.length = 0 then sp
  else { sp with activeContainerIndex := (sp.activeContainerIndex + 1) % sp.containers.length }

/-- Modelled from the spec: the effect on the absent `ViewSplitter` of giving
the focus to the widget of `container`: that container becomes the active one. -/
def focusContainer (sp : ViewSplitter) (container : Nat) : ViewSplitter :=
  if container ∈ sp.containers then
    { sp with activeContainerIndex := sp.containers.indexOf container }
  else sp

end ViewSplitter

/-! ## The manager -/

namespace ViewManager

/-- The constructor `ViewManager(parent, collection)` for a non-null action
collection: a fresh `ViewSplitter` holding no container, an empty map, no
plugged controller, new tabs put at the end.  The action `detach-view` is
registered by `setupActions` only under `ENABLE_DETACHING`. -/
def new (enableDetaching : Bool) (defaultProfile : Nat) (nextPtr : Nat) : ViewManager :=
  { viewSplitter := some { containers := [], activeContainerIndex := 0, focusProxy := none }
    containers := []
    mtdTrees := []
    sessionMap := ⟨[]⟩
    controllers := []
    pluggedController := none
    newTabBehavior := .PutNewTabAtTheEnd
    actionCollection := some ⟨if enableDetaching then some true else none⟩
    enableDetaching := enableDetaching
    defaultProfile := defaultProfile
    terminalDisplays := []
    sessionViews := []
    sessionProfiles := []
    running := []
    finishedConnections := []
    focus := none
    deleteLater := []
    emitted := []
    closeCalls := []
    nextPtr := nextPtr }

/-- The container object behind a container pointer. -/
def findContainer (st : ViewManager) (ptr : Nat) : Option ViewContainer :=
  st.containers.find? (fun c => c.ptr == ptr)

/-- Apply a `ViewContainer` method to the container object at `ptr`. -/
def modifyContainer (st : ViewManager) (ptr : Nat) (f : ViewContainer → ViewContainer) :
    ViewManager :=
  { st with containers := st.containers.map (fun c => if c.ptr = ptr then f c else c) }

/-- The tabs of the container at `ptr` (`container->views()`), empty when
there is no such container. -/
def viewsOf (st : ViewManager) (ptr : Nat) : List Nat :=
  match st.findContainer ptr with
  | some c => c.views
  | none => []

/-- The value of `session->views()`. -/
def viewsOfSession (st : ViewManager) (session : Nat) : List Nat :=
  (st.sessionViews.filter (fun e => e.1 == session)).map Prod.snd

/-- The pane tree of a widget, `none` when
`qobject_cast<MultiTerminalDisplay*>` gives null. -/
def mtdOf (st : ViewManager) (widget : Nat) : Option PaneTreeNode :=
  List.lookup widget st.mtdTrees

/-- The terminal displays found below one tab widget: the leaves of its pane
tree, or the widget itself when it is a terminal display. -/
def tabDisplays (st : ViewManager) (widget : Nat) : List Nat :=
  match st.mtdOf widget with
  | some t => t.leaves
  | none => if widget ∈ st.terminalDisplays then [widget] else []

/-- Modelled from the spec: `_viewSplitter->findChildren<TerminalDisplay*>()`,
the displays owned by the pane trees of the tabs of the containers the
splitter holds, each object once. -/
def findChildren (st : ViewManager) (sp : ViewSplitter) : List Nat :=
  (sp.containers.flatMap (fun c => (st.viewsOf c).flatMap st.tabDisplays)).dedup

/-- Append a signal to the record of emitted signals. -/
def emit (st : ViewManager) (s : Signal) : ViewManager :=
  { st with emitted := st.emitted ++ [s] }

/-- The method `activeView()`: the active tab of the active container, null
when there is no active container. -/
def activeView (st : ViewManager) : Option (Option Nat) := do
  let sp ← st.viewSplitter
  match sp.activeContainer with
  | none => pure none
  | some c => do
    let cont ← st.findContainer c
    pure cont.activeView

/-- The method `updateDetachViewState()`. -/
def updateDetachViewState (st : ViewManager) : Option ViewManager :=
  match st.actionCollection with
  | none => some st
  | some coll => do
    let sp ← st.viewSplitter
    let splitView : Bool := decide (2 ≤ sp.containers.length)
    let shouldEnable : Bool :=
      splitView ||
        (match sp.activeContainer with
         | some c => decide (2 ≤ (st.viewsOf c).length)
         | none => false)
    match coll.detachView with
    | some enabled =>
      if shouldEnable != enabled then
        some { st with actionCollection := some ⟨some shouldEnable⟩ }
      else some st
    | none => some st

/-- The method `controllerChanged(controller)`. -/
def controllerChanged (st : ViewManager) (controller : Nat) : Option ViewManager :=
  if st.pluggedController = some controller then some st
  else do
    let sp ← st.viewSplitter
    let c ← st.controllers.find? (fun c => c.ptr == controller)
    some (emit
      { st with
        viewSplitter := some { sp with focusProxy := some c.view }
        pluggedController := some controller }
      (.activeViewChanged controller))

/-- The method `createController(session, view)`: a new controller, made the
plugged one when none is plugged.  Returns the controller and the state. -/
def createController (st : ViewManager) (session view : Nat) : Option (Nat × ViewManager) :=
  let controller := st.nextPtr
  let st1 : ViewManager :=
    { st with
      nextPtr := st.nextPtr + 1
      controllers := st.controllers ++ [⟨controller, session, view⟩] }
  if st1.pluggedController.isNone then
    (controllerChanged st1 controller).map (fun st2 => (controller, st2))
  else some (controller, st1)

/-- The method `createTerminalDisplay(session)`: a new display; the session is
dereferenced for its id. -/
def createTerminalDisplay (st : ViewManager) (session : Option Nat) :
    Option (Nat × ViewManager) := do
  let _ ← session
  let display := st.nextPtr
  some (display,
    { st with nextPtr := st.nextPtr + 1, terminalDisplays := st.terminalDisplays ++ [display] })

/-- The method `applyProfileToView(view, profile)`, without the rendering
settings it copies to the view. -/
def applyProfileToView (st : ViewManager) (_view : Nat) : ViewManager :=
  emit st .updateWindowIcon

/-- The call `session->addView(display)`. -/
def sessionAddView (st : ViewManager) (session display : Nat) : ViewManager :=
  { st with sessionViews := st.sessionViews ++ [(session, display)] }

/-- The method `createAndSetupTerminalDisplay(session)`.  Returns the display
(null for a null session) and the state. -/
def createAndSetupTerminalDisplay (st : ViewManager) (session : Option Nat) :
    Option (Option Nat × ViewManager) :=
  match session with
  | none => some (none, st)
  | some s => do
    let (td, st1) ← createTerminalDisplay st (some s)
    let st2 := applyProfileToView st1 td
    let (_, st3) ← createController st2 s td
    let st4 : ViewManager := { st3 with sessionMap := st3.sessionMap.insert td (some s) }
    let st5 := sessionAddView st4 s td
    some (some td, st5)

/-- Modelled from the spec: `createRootTerminalDisplay(display, session,
container)` of the absent `MultiTerminalDisplayManager`: a new tab widget
whose pane tree is the single leaf for `display`. -/
def createRootTerminalDisplay (st : ViewManager) (display session : Nat) (_container : Nat) :
    Nat × ViewManager :=
  let mtd := st.nextPtr
  (mtd, { st with nextPtr := st.nextPtr + 1
                  mtdTrees := st.mtdTrees ++ [(mtd, .Leaf display session)] })

/-- The connection of `session`'s `finished` signal to `sessionFinished`,
made with `Qt::UniqueConnection`. -/
def connectFinished (st : ViewManager) (session : Nat) : ViewManager :=
  if session ∈ st.finishedConnections then st
  else { st with finishedConnections := st.finishedConnections ++ [session] }

/-- The method `createView(session, container, index)`. -/
def createViewInContainer (st : ViewManager) (session : Option Nat) (container : Nat)
    (index : Int) : Option ViewManager := do
  let s ← session
  let st1 := connectFinished st s
  let (display, st2) ← createTerminalDisplay st1 (some s)
  let (mtd, st3) := createRootTerminalDisplay st2 display s container
  let st4 := applyProfileToView st3 display
  let (_, st5) ← createController st4 s display
  let st6 : ViewManager := { st5 with sessionMap := st5.sessionMap.insert display (some s) }
  let _ ← st6.findContainer container
  let st7 := st6.modifyContainer container (fun c => c.addView mtd index)
  let st8 := sessionAddView st7 s display
  let sp ← st8.viewSplitter
  let st9 : ViewManager :=
    if sp.activeContainer = some container then
      { st8.modifyContainer container (fun c => c.setActiveView mtd) with focus := some display }
    else st8
  updateDetachViewState st9

/-- The method `createContainer()`: a new, empty container object, not yet in
the splitter.  Returns its pointer and the state. -/
def createContainer (st : ViewManager) : Nat × ViewManager :=
  let container := st.nextPtr
  (container, { st with nextPtr := st.nextPtr + 1
                        containers := st.containers ++ [⟨container, [], none⟩] })

/-- The loop `foreach(container, _viewSplitter->containers())` of
`createView(session)`. -/
def createViewLoop (session : Option Nat) (index : Int) :
    ViewManager → List Nat → Option ViewManager
  | st, [] => some st
  | st, container :: rest => do
    let st1 ← createViewInContainer st session container index
    createViewLoop session index st1 rest

/-- The index `createView(session)` passes on: `-1`, or the position after
the active tab under `PutNewTabAfterCurrentTab`. -/
def newTabIndex (st : ViewManager) : Option Int :=
  if st.newTabBehavior = .PutNewTabAfterCurrentTab then do
    let view ← st.activeView
    match view with
    | some v => do
      let sp ← st.viewSplitter
      let c ← sp.activeContainer
      let cont ← st.findContainer c
      pure (qIndexOf v cont.views + 1)
    | none => pure (-1)
  else pure (-1)

/-- The method `createView(session)`. -/
def createView (st : ViewManager) (session : Option Nat) : Option ViewManager := do
  let sp ← st.viewSplitter
  let st1 : ViewManager :=
    if sp.containers.length = 0 then
      let (container, st0) := createContainer st
      { st0 with viewSplitter := some (sp.addContainer container .Vertical) }
    else st
  let index ← newTabIndex st1
  let sp1 ← st1.viewSplitter
  createViewLoop session index st1 sp1.containers

/-- The loop `foreach(TerminalDisplay* view, children)` of `sessionFinished`:
each display whose map value is `session` loses its entry and is scheduled
for deletion.  The map is read with the inserting `operator[]`. -/
def sessionFinishedLoop (session : Nat) : ViewManager → List Nat → ViewManager
  | st, [] => st
  | st, view :: rest =>
    let (val, m1) := st.sessionMap.index view
    let st1 : ViewManager :=
      if val = some session then
        { st with sessionMap := m1.remove view, deleteLater := st.deleteLater ++ [view] }
      else { st with sessionMap := m1 }
    sessionFinishedLoop session st1 rest

/-- The slot `sessionFinished()`, for the (non-null, asserted) sender `session`. -/
def sessionFinished (st : ViewManager) (session : Nat) : ViewManager :=
  match st.viewSplitter with
  | none => st
  | some sp =>
    let st1 := sessionFinishedLoop session st (st.findChildren sp)
    match st1.pluggedController with
    | some c => emit st1 (.unplugController c)
    | none => st1

/-- The statement `if (session) { if (session->views().count() == 0)
session->close(); }` of `viewDestroyed`. -/
def closeIfNoViews (st : ViewManager) (session : Option Nat) : ViewManager :=
  match session with
  | some s =>
    if (st.viewsOfSession s).length = 0 then
      { st with closeCalls := st.closeCalls ++ [(s, st.viewsOfSession s)] }
    else st
  | none => st

/-- The slot `viewDestroyed(view)`. -/
def viewDestroyed (st : ViewManager) (view : Nat) : Option ViewManager :=
  let (session, m1) := st.sessionMap.index view
  let st1 : ViewManager := { st with sessionMap := m1.remove view }
  let st2 := closeIfNoViews st1 session
  match st2.viewSplitter with
  | some _ => updateDetachViewState st2
  | none => some st2

/-- The method `removeContainer(container)`: its body is commented out in the
source, so nothing happens. -/
def removeContainer (st : ViewManager) (_container : Option Nat) : ViewManager :=
  st

/-- The loop `foreach (TerminalDisplay* td, tds)` of `detachView`. -/
def detachViewLoop : ViewManager → List Nat → ViewManager
  | st, [] => st
  | st, td :: rest =>
    let (val, m1) := st.sessionMap.index td
    detachViewLoop (emit { st with sessionMap := m1.remove td } (.viewDetached val)) rest

/-- Modelled from the spec: `getTerminalDisplaysOfContainer(mtd)` of the
absent `MultiTerminalDisplayManager`, the set of displays of a pane tree. -/
def getTerminalDisplaysOfContainer (tree : PaneTreeNode) : List Nat :=
  tree.leaves.dedup

/-- The method `detachView(container, widgetView)`. -/
def detachView (st : ViewManager) (container : Nat) (widgetView : Option Nat) :
    Option ViewManager :=
  if !st.enableDetaching then some st
  else
    match widgetView.bind (fun w => (st.mtdOf w).map (fun t => (w, t))) with
    | none => some st
    | some (viewToDetach, tree) => do
      let st1 := detachViewLoop st (getTerminalDisplaysOfContainer tree)
      let _ ← st1.findContainer container
      let st2 := st1.modifyContainer container (fun c => c.removeView viewToDetach)
      let st3 : ViewManager := { st2 with deleteLater := st2.deleteLater ++ [viewToDetach] }
      let sp ← st3.viewSplitter
      if sp.containers.length > 1 && (st3.viewsOf container).length == 0 then
        some (removeContainer st3 (some container))
      else some st3

/-- The method `nextContainer()`. -/
def nextContainer (st : ViewManager) : Option ViewManager := do
  let sp ← st.viewSplitter
  some { st with viewSplitter := some sp.activateNextContainer }

/-- The method `closeActiveContainer()`. -/
def closeActiveContainer (st : ViewManager) : Option ViewManager := do
  let sp ← st.viewSplitter
  if sp.containers.length > 1 then
    let st1 := removeContainer st sp.activeContainer
    nextContainer st1
  else some st

/-- The loop `foreach(ViewContainer* container, _viewSplitter->containers())`
of `closeOtherContainers`. -/
def closeOtherContainersLoop (active : Option Nat) : ViewManager → List Nat → ViewManager
  | st, [] => st
  | st, container :: rest =>
    closeOtherContainersLoop active
      (if some container ≠ active then removeContainer st (some container) else st) rest

/-- The method `closeOtherContainers()`. -/
def closeOtherContainers (st : ViewManager) : Option ViewManager := do
  let sp ← st.viewSplitter
  some (closeOtherContainersLoop sp.activeContainer st sp.containers)

mutual
/-- Modelled from the spec: the copy of a pane tree made by `cloneMtd`, with
a new display for every leaf (`createAndSetupTerminalDisplay`), bound to the
same session. -/
def cloneTree (st : ViewManager) : PaneTreeNode → Option (PaneTreeNode × ViewManager)
  | .Leaf _ s =>
    match createAndSetupTerminalDisplay st (some s) with
    | some (some td, st1) => some (.Leaf td s, st1)
    | _ => none
  | .Split o cs f =>
    match cloneTreeList st cs with
    | some (cs1, st1) => some (.Split o cs1 f, st1)
    | none => none
/-- The copies of a sequence of pane trees, made from left to right. -/
def cloneTreeList (st : ViewManager) : List PaneTreeNode → Option (List PaneTreeNode × ViewManager)
  | [] => some ([], st)
  | c :: cs =>
    match cloneTree st c with
    | some (c1, st1) =>
      match cloneTreeList st1 cs with
      | some (cs1, st2) => some (c1 :: cs1, st2)
      | none => none
    | none => none
end

/-- Modelled from the spec: `cloneMtd(mtd, container)` of the absent
`MultiTerminalDisplayManager`: the arrangement of the tab `mtd` is copied
into a new tab appended to `container`. -/
def cloneMtd (st : ViewManager) (mtd : Nat) (container : Nat) : Option ViewManager := do
  let tree ← st.mtdOf mtd
  let (tree1, st1) ← cloneTree st tree
  let root := st1.nextPtr
  let st2 : ViewManager :=
    { st1 with nextPtr := st1.nextPtr + 1, mtdTrees := st1.mtdTrees ++ [(root, tree1)] }
  let _ ← st2.findContainer container
  some (st2.modifyContainer container (fun c => c.addView root (-1)))

/-- The loop `foreach (QWidget* view, _viewSplitter->activeContainer()->views())`
of `splitView`.  The flag is `false` when the loop left the method early
because a tab was not a `MultiTerminalDisplay`. -/
def splitViewLoop (container : Nat) : ViewManager → List Nat → Option (Bool × ViewManager)
  | st, [] => some (true, st)
  | st, view :: rest =>
    match st.mtdOf view with
    | none => some (false, st)
    | some _ => do
      let st1 ← cloneMtd st view container
      splitViewLoop container st1 rest

/-- The statement `emit splitViewToggle(b)`: under `ENABLE_DETACHING` and
with an action collection, `setupActions` has connected this signal to
`updateDetachViewState`, which then runs. -/
def emitSplitViewToggle (st : ViewManager) (b : Bool) : Option ViewManager :=
  let st1 := emit st (.splitViewToggle b)
  if st1.actionCollection.isSome && st1.enableDetaching then updateDetachViewState st1
  else some st1

/-- The method `splitView(orientation)`. -/
def splitView (st : ViewManager) (orientation : Orientation) : Option ViewManager := do
  let (container, st1) := createContainer st
  let sp ← st1.viewSplitter
  let active ← sp.activeContainer
  let activeCont ← st1.findContainer active
  let (completed, st2) ← splitViewLoop container st1 activeCont.views
  if !completed then some st2
  else do
    let sp2 ← st2.viewSplitter
    let sp3 := sp2.addContainer container orientation
    let st3 ← emitSplitViewToggle { st2 with viewSplitter := some sp3 }
      (decide (sp3.containers.length > 0))
    let sp4 := sp3.focusContainer container
    let st4 : ViewManager := { st3 with viewSplitter := some sp4, focus := some container }
    let activeView ← st4.activeView
    match activeView with
    | some v => some { st4 with focus := some v }
    | none => some st4

/-- Modelled from the spec: `SessionManager::createSession(profile)`, a new
session for the profile.  Returns the session and the state. -/
def createSession (st : ViewManager) (profile : Nat) : Nat × ViewManager :=
  let session := st.nextPtr
  (session, { st with nextPtr := st.nextPtr + 1
                      sessionProfiles := st.sessionProfiles ++ [(session, profile)] })

/-- The statement `if (!session->isRunning()) session->run();`. -/
def runIfNotRunning (st : ViewManager) (session : Nat) : ViewManager :=
  if session ∈ st.running then st else { st with running := st.running ++ [session] }

/-- The statement `if (tab++ == activeTab) display =
qobject_cast<TerminalDisplay*>(activeView());` of `restoreSessions`: the new
value of `display`. -/
def restoreDisplay (st : ViewManager) (tab activeTab : Int) (display : Option Nat) :
    Option (Option Nat) :=
  if tab = activeTab then
    st.activeView.map (fun view => view.filter (fun w => decide (w ∈ st.terminalDisplays)))
  else some display

/-- The loop `foreach(int id, ids)` of `restoreSessions`, with the local
variables `display` and `tab`. -/
def restoreSessionsLoop (idToSession : Int → Option Nat) (activeTab : Int) :
    ViewManager → Option Nat → Int → List Int → Option (Option Nat × ViewManager)
  | st, display, _, [] => some (display, st)
  | st, display, tab, id :: rest => do
    let session := idToSession id
    let st1 ← createView st session
    let s ← session
    let st2 := runIfNotRunning st1 s
    let display1 ← restoreDisplay st2 tab activeTab display
    restoreSessionsLoop idToSession activeTab st2 display1 (tab + 1) rest

/-- The statement `if (display) { ...->setActiveView(display);
display->setFocus(...); }` of `restoreSessions`. -/
def restoreActiveView (st : ViewManager) (display : Option Nat) : Option ViewManager :=
  match display with
  | some d => do
    let sp ← st.viewSplitter
    let c ← sp.activeContainer
    let _ ← st.findContainer c
    some { st.modifyContainer c (fun cont => cont.setActiveView d) with focus := some d }
  | none => some st

/-- The statement `if (ids.isEmpty()) { ... }` of `restoreSessions`: a session
of the default profile is created and shown. -/
def restoreDefaultSession (st : ViewManager) (ids : List Int) : Option ViewManager :=
  if ids.isEmpty then do
    let (session, st1) := createSession st st.defaultProfile
    let st2 ← createView st1 (some session)
    some (runIfNotRunning st2 session)
  else some st

/-- The method `restoreSessions(group)`; `idToSession` is
`SessionManager::idToSession`, null for an id that resolves to no session. -/
def restoreSessions (st : ViewManager) (idToSession : Int → Option Nat) (group : KConfigGroup) :
    Option ViewManager := do
  let ids := group.sessions.getD []
  let activeTab := group.active.getD 0
  let (display, st1) ← restoreSessionsLoop idToSession activeTab st none 1 ids
  let st2 ← restoreActiveView st1 display
  restoreDefaultSession st2 ids

/-- The method `setNavigationBehavior(behavior)`. -/
def setNavigationBehavior (st : ViewManager) (behavior : NewTabBehavior) : ViewManager :=
  { st with newTabBehavior := behavior }

end ViewManager

/-! ## Runs -/

/-- The operations of the manager a run is made of. -/
inductive Op where
  | createView (session : Option Nat)
  | createViewInContainer (session : Option Nat) (container : Nat) (index : Int)
  | createAndSetupTerminalDisplay (session : Option Nat)
  | splitView (orientation : Orientation)
  | detachView (container : Nat) (widgetView : Option Nat)
  | closeActiveContainer
  | closeOtherContainers
  | sessionFinished (session : Nat)
  | viewDestroyed (view : Nat)
  | restoreSessions (idToSession : Int → Option Nat) (group : KConfigGroup)
  | controllerChanged (controller : Nat)
  | nextContainer
  | updateDetachViewState
  | setNavigationBehavior (behavior : NewTabBehavior)

/-- One operation applied to a state; `none` when it has no defined result. -/
def step (st : ViewManager) : Op → Option ViewManager
  | .createView s => st.createView s
  | .createViewInContainer s c i => st.createViewInContainer s c i
  | .createAndSetupTerminalDisplay s => (st.createAndSetupTerminalDisplay s).map Prod.snd
  | .splitView o => st.splitView o
  | .detachView c w => st.detachView c w
  | .closeActiveContainer => st.closeActiveContainer
  | .closeOtherContainers => st.closeOtherContainers
  | .sessionFinished s => some (st.sessionFinished s)
  | .viewDestroyed v => st.viewDestroyed v
  | .restoreSessions f g => st.restoreSessions f g
  | .controllerChanged c => st.controllerChanged c
  | .nextContainer => st.nextContainer
  | .updateDetachViewState => st.updateDetachViewState
  | .setNavigationBehavior b => some (st.setNavigationBehavior b)

/-- A sequence of operations applied from left to right. -/
def run : ViewManager → List Op → Option ViewManager
  | st, [] => some st
  | st, op :: ops => (step st op).bind (fun st1 => run st1 ops)

/-! ## Properties of states -/

/-- The allocator is ahead of every pointer the state stores: the keys of
the map, the containers and their tabs, the pane trees and their displays. -/
def ViewManager.Fresh (st : ViewManager) : Prop :=
  (∀ k ∈ st.sessionMap.keys, k < st.nextPtr) ∧
  (∀ c ∈ st.containers, c.ptr < st.nextPtr ∧ ∀ w ∈ c.views, w < st.nextPtr) ∧
  (∀ e ∈ st.mtdTrees, e.1 < st.nextPtr ∧ ∀ v ∈ e.2.leaves, v < st.nextPtr)

/-- The splitter of the state holds at least one container. -/
def ViewManager.HasContainer (st : ViewManager) : Prop :=
  ∃ sp, st.viewSplitter = some sp ∧ 1 ≤ sp.containers.length

/-- The step from `st` to `st1` made no call of `Session::close()` and took
no container out of the splitter. -/
def ViewManager.Extends (st st1 : ViewManager) : Prop :=
  st1.closeCalls = st.closeCalls ∧
  ∀ sp, st.viewSplitter = some sp →
    ∃ sp1, st1.viewSplitter = some sp1 ∧ sp.containers <+: sp1.containers

/-- The step from `st` to `st1` only added signals to the record, none of
them `splitViewToggle`. -/
def ViewManager.Quiet (st st1 : ViewManager) : Prop :=
  ∃ new : List Signal, st1.emitted = st.emitted ++ new ∧
    ∀ b, Signal.splitViewToggle b ∉ new

/-- The step from `st` to `st1` made new objects only: the containers and
pane trees are those of before, the entries of the map for pointers handed
out before are kept, and the splitter holds the same containers with the
same active one. -/
def ViewManager.Grows (st st1 : ViewManager) : Prop :=
  st1.containers = st.containers ∧ st1.mtdTrees = st.mtdTrees ∧
  st.nextPtr ≤ st1.nextPtr ∧
  (∀ k, k < st.nextPtr → st1.sessionMap.find? k = st.sessionMap.find? k) ∧
  ∀ sp, st.viewSplitter = some sp →
    ∃ sp1, st1.viewSplitter = some sp1 ∧ sp1.containers = sp.containers ∧
      sp1.activeContainerIndex = sp.activeContainerIndex

/-- The operations that create the default container when there is none. -/
def Op.createsView : Op → Bool
  | .createView _ => true
  | .restoreSessions _ _ => true
  | _ => false

/-! ## Example states -/

/-- A window with one container and one tab, for session 50: the state a new
manager reaches by `createView` of 50. -/
def exampleOne : ViewManager :=
  { ViewManager.new true 0 1 with
    viewSplitter := some { containers := [1], activeContainerIndex := 0, focusProxy := some 2 }
    containers := [⟨1, [3], some 3⟩]
    mtdTrees := [(3, .Leaf 2 50)]
    sessionMap := ⟨[(2, some 50)]⟩
    controllers := [⟨4, 50, 2⟩]
    pluggedController := some 4
    actionCollection := some ⟨some false⟩
    terminalDisplays := [2]
    sessionViews := [(50, 2)]
    finishedConnections := [50]
    focus := some 2
    emitted := [.updateWindowIcon, .activeViewChanged 4]
    nextPtr := 5 }

/-- A window with one container holding two tabs, for sessions 50 and 51:
the state a new manager reaches by `createView` of 50 and then of 51. -/
def exampleWindow : ViewManager :=
  { ViewManager.new true 0 1 with
    viewSplitter := some { containers := [1], activeContainerIndex := 0, focusProxy := some 2 }
    containers := [⟨1, [3, 6], some 6⟩]
    mtdTrees := [(3, .Leaf 2 50), (6, .Leaf 5 51)]
    sessionMap := ⟨[(5, some 51), (2, some 50)]⟩
    controllers := [⟨4, 50, 2⟩, ⟨7, 51, 5⟩]
    pluggedController := some 4
    terminalDisplays := [2, 5]
    sessionViews := [(50, 2), (51, 5)]
    finishedConnections := [50, 51]
    focus := some 5
    emitted := [.updateWindowIcon, .activeViewChanged 4, .updateWindowIcon]
    nextPtr := 8 }

/-- The state of `exampleWindow` once its splitter has been destroyed. -/
def exampleDestroyed : ViewManager :=
  { exampleWindow with viewSplitter := none }

/-- A window split in two, containers 1 and 5, each showing session 50 in
one tab, container 5 being the active one: the state a new manager reaches
by `createView` of 50 and then `splitView`. -/
def exampleSplit : ViewManager :=
  { ViewManager.new true 0 1 with
    viewSplitter := some { containers := [1, 5], activeContainerIndex := 1, focusProxy := some 2 }
    containers := [⟨1, [3], some 3⟩, ⟨5, [8], some 8⟩]
    mtdTrees := [(3, .Leaf 2 50), (8, .Leaf 6 50)]
    sessionMap := ⟨[(6, some 50), (2, some 50)]⟩
    controllers := [⟨4, 50, 2⟩, ⟨7, 50, 6⟩]
    pluggedController := some 4
    terminalDisplays := [2, 6]
    sessionViews := [(50, 2), (50, 6)]
    finishedConnections := [50]
    focus := some 8
    emitted := [.updateWindowIcon, .activeViewChanged 4, .updateWindowIcon, .splitViewToggle true]
    nextPtr := 9 }

/-! ## Arrangements of pane trees -/

mutual
/-- The arrangement of a pane tree: the tree with its displays erased, the
sessions, orientations and focused positions kept. -/
def PaneTreeNode.shape : PaneTreeNode → PaneTreeNode
  | .Leaf _ s => .Leaf 0 s
  | .Split o cs f => .Split o (PaneTreeNode.shapeOfList cs) f
/-- The arrangements of a sequence of pane trees. -/
def PaneTreeNode.shapeOfList : List PaneTreeNode → List PaneTreeNode
  | [] => []
  | c :: cs => c.shape :: PaneTreeNode.shapeOfList cs
end

mutual
/-- The sessions a pane tree shows, pane by pane from left to right. -/
def PaneTreeNode.sessions : PaneTreeNode → List Nat
  | .Leaf _ s => [s]
  | .Split _ cs _ => PaneTreeNode.sessionsOfList cs
/-- The sessions a sequence of pane trees shows. -/
def PaneTreeNode.sessionsOfList : List PaneTreeNode → List Nat
  | [] => []
  | c :: cs => c.sessions ++ PaneTreeNode.sessionsOfList cs
end

/-! ## Saving sessions -/

namespace ViewManager

/-- Modelled from the spec: `getTerminalDisplays()` of the absent
`MultiTerminalDisplayManager`, the displays shown in the active container,
in the order of its tabs (and, within a tab, of its panes). -/
def getTerminalDisplays (st : ViewManager) : List Nat :=
  match st.viewSplitter.bind (fun sp => sp.activeContainer) with
  | some c => (st.viewsOf c).flatMap st.tabDisplays
  | none => []

/-- The first loop of `saveSessions`, `while (viewIter.hasNext())`, with the
local variables `ids`, `unique` (of which only membership is read) and `tab`;
the map is read with the inserting `operator[]`. -/
def saveSessionsViews (getRestoreId : Option Nat → Int) (activeview : Option Nat) :
    SessionMap → List Int → List (Option Nat) → KConfigGroup → Int → List Nat →
      SessionMap × List Int × List (Option Nat) × KConfigGroup
  | m, ids, unique, group, _, [] => (m, ids, unique, group)
  | m, ids, unique, group, tab, view :: rest =>
    let (session, m1) := m.index view
    let ids1 := ids ++ [getRestoreId session]
    let group1 : KConfigGroup :=
      if some view = activeview then { group with active := some tab } else group
    saveSessionsViews getRestoreId activeview m1 ids1 (unique ++ [session]) group1 (tab + 1) rest

/-- The second loop of `saveSessions`, `foreach(Session * session, _sessionMap)`,
over the values of the map. -/
def saveSessionsOthers (getRestoreId : Option Nat → Int) :
    List Int → List (Option Nat) → List (Option Nat) → List Int
  | ids, _, [] => ids
  | ids, unique, session :: rest =>
    if session ∈ unique then saveSessionsOthers getRestoreId ids unique rest
    else saveSessionsOthers getRestoreId (ids ++ [getRestoreId session]) (unique ++ [session]) rest

/-- The method `saveSessions(group)` with the list that `getTerminalDisplays()`
returns as a parameter; `getRestoreId` is `SessionManager::getRestoreId`.
Returns the state and the group written. -/
def saveSessionsWith (st : ViewManager) (tds : List Nat) (getRestoreId : Option Nat → Int)
    (group : KConfigGroup) : Option (ViewManager × KConfigGroup) := do
  let sp ← st.viewSplitter
  let c ← sp.activeContainer
  let container ← st.findContainer c
  let activeview := container.activeView.filter (fun w => decide (w ∈ st.terminalDisplays))
  let r := saveSessionsViews getRestoreId activeview st.sessionMap [] [] group 1 tds
  let ids := saveSessionsOthers getRestoreId r.2.1 r.2.2.1 (r.1.entries.map Prod.snd)
  some ({ st with sessionMap := r.1 }, { r.2.2.2 with sessions := some ids })

/-- The method `saveSessions(group)`. -/
def saveSessions (st : ViewManager) (getRestoreId : Option Nat → Int) (group : KConfigGroup) :
    Option (ViewManager × KConfigGroup) :=
  st.saveSessionsWith st.getTerminalDisplays getRestoreId group

end ViewManager

/-- A `getRestoreId` for the examples: the restore id of a session is its
pointer, that of the null session is 0. -/
def exampleRestoreId : Option Nat → Int
  | some s => s
  | none => 0

/-- A window whose only container shows session 50 in both of its tabs: the
state a new manager reaches by `createView` of 50, twice. -/
def exampleTwice : ViewManager :=
  { ViewManager.new true 0 1 with
    viewSplitter := some { containers := [1], activeContainerIndex := 0, focusProxy := some 2 }
    containers := [⟨1, [3, 6], some 6⟩]
    mtdTrees := [(3, .Leaf 2 50), (6, .Leaf 5 50)]
    sessionMap := ⟨[(5, some 50), (2, some 50)]⟩
    controllers := [⟨4, 50, 2⟩, ⟨7, 50, 5⟩]
    pluggedController := some 4
    terminalDisplays := [2, 5]
    sessionViews := [(50, 2), (50, 5)]
    finishedConnections := [50]
    focus := some 5
    emitted := [.updateWindowIcon, .activeViewChanged 4, .updateWindowIcon]
    nextPtr := 8 }

/-- A window without tabs whose splitter holds two containers, 1 and 5: the
state a new manager reaches by `createView` of 50, `detachView` of that tab
and `splitView`. -/
def exampleEmptySplit : ViewManager :=
  { ViewManager.new true 0 1 with
    viewSplitter := some { containers := [1, 5], activeContainerIndex := 1, focusProxy := some 2 }
    containers := [⟨1, [], none⟩, ⟨5, [], none⟩]
    mtdTrees := [(3, .Leaf 2 50)]
    sessionMap := ⟨[]⟩
    controllers := [⟨4, 50, 2⟩]
    pluggedController := some 4
    terminalDisplays := [2]
    sessionViews := [(50, 2)]
    finishedConnections := [50]
    focus := some 5
    deleteLater := [3]
    emitted := [.updateWindowIcon, .activeViewChanged 4, .viewDetached (some 50),
      .splitViewToggle true]
    nextPtr := 6 }

/-- An `idToSession` for the examples: the id 50 resolves to session 50 and
no other id resolves. -/
def exampleIdToSession : Int → Option Nat
  | 50 => some 50
  | _ => none

/-! ## Moving a tab between windows -/

/-- The argument `sourceTabbedContainer` of `containerMoveViewRequest` as far
as the window it comes from matters: the pointer of the container, its tabs,
and the number of containers in the splitter of its connected view manager
(`connectedViewManager()->widget()`). -/
structure SourceContainer where
  ptr : Nat
  views : List Nat
  managerContainers : Nat
deriving DecidableEq, Repr

namespace ViewManager

/-- The guard `if (sourceTabbedContainer) { ... }` of
`containerMoveViewRequest`: `true` when the method returns there. -/
def moveViewRefused (st : ViewManager) (source : Option SourceContainer) : Option Bool :=
  match source with
  | none => some false
  | some src => do
    let sp ← st.viewSplitter
    if src.ptr ∈ sp.containers then some true
    else if src.managerContainers > 1 then some true
    else some false

/-- The slot `containerMoveViewRequest(index, id, moved, sourceTabbedContainer)`.
`sender` is `qobject_cast<ViewContainer*>(sender())` and `propertiesById` is
`ViewProperties::propertiesById` followed by the cast to `SessionController*`,
a registry shared by all windows.  Returns the flag `moved` and the state. -/
def containerMoveViewRequest (st : ViewManager) (sender : Option Nat)
    (propertiesById : Int → Option SessionController) (index : Int) (id : Int) (moved : Bool)
    (source : Option SourceContainer) : Option (Bool × ViewManager) :=
  match propertiesById id with
  | none => some (moved, st)
  | some controller => do
    let refused ← moveViewRefused st source
    if refused then some (moved, st)
    else do
      let container ← sender
      let st1 ← createViewInContainer st (some controller.session) container index
      some (true, st1)

end ViewManager

/-- A registry of view properties that knows one controller, of another
window: id 7 is the controller 70 of session 60. -/
def examplePropertiesById : Int → Option SessionController
  | 7 => some ⟨70, 60, 61⟩
  | _ => none

/-- A container of another window that has this one container, holding its
only tab. -/
def exampleSource : SourceContainer :=
  { ptr := 99, views := [98], managerContainers := 1 }

/-- A container of another window that is split in two containers, holding
that window's only tab. -/
def exampleSplitSource : SourceContainer :=
  { ptr := 99, views := [98], managerContainers := 2 }

/-! ## New sessions by profile name -/

/-- A profile as far as `newSession` reads it: the pointer and the name. -/
structure Profile where
  ptr : Nat
  name : String
deriving DecidableEq, Repr

namespace ViewManager

/-- The loop `for (int i = 0; i < profilelist.size(); ++i)` of
`newSession(profile, directory)`, with its `break`: the value of `profileptr`
after it. -/
def newSessionProfile (profile : String) (profileptr : Nat) : List Profile → Nat
  | [] => profileptr
  | p :: rest =>
    if p.name = profile then p.ptr else newSessionProfile profile profileptr rest

/-- The method `newSession(profile, directory)`; `allProfiles` is
`ProfileManager::instance()->allProfiles()`.  The working directory is a
property of the session that the manager never reads back.  Returns
`session->sessionId()` and the state. -/
def newSession (st : ViewManager) (allProfiles : List Profile) (profile _directory : String) :
    Option (Nat × ViewManager) := do
  let profileptr := newSessionProfile profile st.defaultProfile allProfiles
  let (session, st1) := createSession st profileptr
  let st2 ← createView st1 (some session)
  some (session, { st2 with running := st2.running ++ [session] })

end ViewManager

/-- Two profiles of the name `Shell` and one of the name `Root`. -/
def exampleProfiles : List Profile :=
  [⟨20, "Root"⟩, ⟨21, "Shell"⟩, ⟨22, "Shell"⟩]

/-! ## Focus within a pane tree -/

/-- The enumeration `MultiTerminalDisplayManager::Directions`. -/
inductive Direction where
  | LEFT
  | TOP
  | RIGHT
  | BOTTOM
deriving DecidableEq, Repr

/-- The orientation of the splits whose children lie along a direction:
side by side for left and right, one above the other for top and bottom. -/
def Direction.axis : Direction → Orientation
  | .LEFT => .Horizontal
  | .RIGHT => .Horizontal
  | .TOP => .Vertical
  | .BOTTOM => .Vertical

/-- Whether a direction leads to the earlier siblings of a split. -/
def Direction.backward : Direction → Bool
  | .LEFT => true
  | .TOP => true
  | .RIGHT => false
  | .BOTTOM => false

mutual
/-- Modelled from the spec: `focusedLeaf(tree)`, which follows
`focusedChildIndex` at each split down to a leaf (for the absent
`getFocusedMultiTerminalDisplay`); none when the index leads nowhere. -/
def PaneTreeNode.focusedLeaf : PaneTreeNode → Option Nat
  | .Leaf v _ => some v
  | .Split _ cs f => PaneTreeNode.focusedLeafAt cs f
/-- The focused leaf of the child at a position. -/
def PaneTreeNode.focusedLeafAt : List PaneTreeNode → Nat → Option Nat
  | [], _ => none
  | c :: _, 0 => c.focusedLeaf
  | _ :: cs, n + 1 => PaneTreeNode.focusedLeafAt cs n
end

/-- Modelled from the spec: the leaf a neighbour query ends in when it
descends into a sibling, "the nearest (first, for Left/Top; last, for
Right/Bottom) descendant leaf". -/
def PaneTreeNode.descend (d : Direction) (t : PaneTreeNode) : Option Nat :=
  if d.backward then t.leaves.head? else t.leaves.getLast?

/-- The outcome of a neighbour query on a subtree: the leaf is not in it; the
leaf is in it and the walk upward goes on; the walk ended in it, with the
leaf it descended to. -/
inductive Walk where
  | absent
  | pending
  | found (leaf : Option Nat)
deriving DecidableEq, Repr

mutual
/-- Modelled from the spec: the walk of `neighbor(tree, from, direction)`,
upward from the leaf until a split whose orientation matches the axis of the
direction and in which a sibling lies in that direction, then down into that
sibling. -/
def PaneTreeNode.walk (d : Direction) (leaf : Nat) : PaneTreeNode → Walk
  | .Leaf v _ => if v = leaf then .pending else .absent
  | .Split o cs _ => PaneTreeNode.walkList d leaf o none cs
/-- The walk through the children of a split of orientation `o`; `prev` is the
child before the first of the list. -/
def PaneTreeNode.walkList (d : Direction) (leaf : Nat) (o : Orientation) :
    Option PaneTreeNode → List PaneTreeNode → Walk
  | _, [] => .absent
  | prev, c :: rest =>
    match c.walk d leaf with
    | .absent => PaneTreeNode.walkList d leaf o (some c) rest
    | .found x => .found x
    | .pending =>
      if o = d.axis then
        if d.backward then
          match prev with
          | some p => .found (p.descend d)
          | none => .pending
        else
          match rest with
          | n :: _ => .found (n.descend d)
          | [] => .pending
      else .pending
end

/-- Modelled from the spec: `neighbor(tree, from, direction)` (for the absent
`getTerminalDisplayTo`), none at the edge of the arrangement or when the leaf
is not in the tree. -/
def PaneTreeNode.neighbor (t : PaneTreeNode) (leaf : Nat) (d : Direction) : Option Nat :=
  match t.walk d leaf with
  | .found x => x
  | _ => none

mutual
/-- Modelled from the spec: `split(target, orientation, newView)` (for the
absent `addTerminalDisplay`): the leaf of `target` is replaced by a split of
that leaf and a new leaf, which takes the focus; a tree without the target is
left as it is. -/
def PaneTreeNode.splitLeaf (target : Nat) (o : Orientation) (newView session : Nat) :
    PaneTreeNode → PaneTreeNode
  | .Leaf v s =>
    if v = target then .Split o [.Leaf v s, .Leaf newView session] 1 else .Leaf v s
  | .Split o1 cs f => .Split o1 (PaneTreeNode.splitLeafList target o newView session cs) f
/-- The split applied to every tree of a sequence. -/
def PaneTreeNode.splitLeafList (target : Nat) (o : Orientation) (newView session : Nat) :
    List PaneTreeNode → List PaneTreeNode
  | [] => []
  | c :: cs =>
    c.splitLeaf target o newView session
      :: PaneTreeNode.splitLeafList target o newView session cs
end

/-- Whether a tree is the leaf of a view. -/
def PaneTreeNode.isLeafOf (a : Nat) : PaneTreeNode → Bool
  | .Leaf v _ => v == a
  | .Split _ _ _ => false

/-- Whether two consecutive trees of a sequence are the leaves of `a` and of
`b`, in this order. -/
def PaneTreeNode.adjacentIn (a b : Nat) : List PaneTreeNode → Bool
  | [] => false
  | c :: rest =>
    (c.isLeafOf a && (match rest with
      | n :: _ => n.isLeafOf b
      | [] => false)) || PaneTreeNode.adjacentIn a b rest

mutual
/-- Whether some split of orientation `o` in the tree has the leaves of `a`
and of `b` as consecutive children, in this order. -/
def PaneTreeNode.adjacent (o : Orientation) (a b : Nat) : PaneTreeNode → Bool
  | .Leaf _ _ => false
  | .Split o1 cs _ =>
    (decide (o1 = o) && PaneTreeNode.adjacentIn a b cs) || PaneTreeNode.adjacentBelow o a b cs
/-- Whether some tree of a sequence has such a split. -/
def PaneTreeNode.adjacentBelow (o : Orientation) (a b : Nat) : List PaneTreeNode → Bool
  | [] => false
  | c :: cs => c.adjacent o a b || PaneTreeNode.adjacentBelow o a b cs
end

namespace ViewManager

/-- The expression
`qobject_cast<MultiTerminalDisplay*>(_viewSplitter->activeContainer()->activeView())`:
the active tab of the active container with its pane tree, null when there is
no active tab or it is not a `MultiTerminalDisplay`. -/
def activeContainerMtd (st : ViewManager) : Option (Option (Nat × PaneTreeNode)) := do
  let sp ← st.viewSplitter
  let c ← sp.activeContainer
  let cont ← st.findContainer c
  some (cont.activeView.bind (fun w => (st.mtdOf w).map (fun t => (w, t))))

/-- The two queries of `moveMtdFocus`: the focused leaf of the tab and its
neighbour in the direction; null when the tab or the leaf is. -/
def getTerminalDisplayTo (containerMtd : Option (Nat × PaneTreeNode)) (direction : Direction) :
    Option Nat :=
  match containerMtd with
  | some (_, tree) =>
    match tree.focusedLeaf with
    | some leaf => tree.neighbor leaf direction
    | none => none
  | none => none

/-- The method `moveMtdFocus(direction)`. -/
def moveMtdFocus (st : ViewManager) (direction : Direction) : Option ViewManager := do
  let containerMtd ← activeContainerMtd st
  match getTerminalDisplayTo containerMtd direction with
  | some td => some { st with focus := some td }
  | none => some st

end ViewManager

/-- The pane tree after pane 1 was split side by side twice, first adding
pane 3, then pane 2. -/
def exampleRow : PaneTreeNode :=
  .Split .Horizontal [.Split .Horizontal [.Leaf 1 50, .Leaf 2 52] 1, .Leaf 3 51] 1

/-! ## Splitting and closing panes -/

mutual
/-- Modelled from the spec: `removeLeaf(tree, view)` (for the absent
`removeTerminalDisplay`): the leaf of the view is removed; a split that lost
a child and has exactly one left is replaced by that child; the result is
none when the node itself is gone.  The focused positions are not adjusted. -/
def PaneTreeNode.removeLeaf (view : Nat) : PaneTreeNode → Option PaneTreeNode
  | .Leaf v s => if v = view then none else some (.Leaf v s)
  | .Split o cs f =>
    if (PaneTreeNode.removeLeafList view cs).length < cs.length then
      match PaneTreeNode.removeLeafList view cs with
      | [] => none
      | [c] => some c
      | c :: c1 :: rest => some (.Split o (c :: c1 :: rest) f)
    else some (.Split o (PaneTreeNode.removeLeafList view cs) f)
/-- The removal applied to a sequence of trees, those that are gone left out. -/
def PaneTreeNode.removeLeafList (view : Nat) : List PaneTreeNode → List PaneTreeNode
  | [] => []
  | c :: cs =>
    match c.removeLeaf view with
    | some c1 => c1 :: PaneTreeNode.removeLeafList view cs
    | none => PaneTreeNode.removeLeafList view cs
end

mutual
/-- Whether every split of the tree has at least two children. -/
def PaneTreeNode.wellFormed : PaneTreeNode → Bool
  | .Leaf _ _ => true
  | .Split _ cs _ => decide (2 ≤ cs.length) && PaneTreeNode.wellFormedList cs
/-- Whether every tree of a sequence is well formed. -/
def PaneTreeNode.wellFormedList : List PaneTreeNode → Bool
  | [] => true
  | c :: cs => c.wellFormed && PaneTreeNode.wellFormedList cs
end

namespace ViewManager

/-- Modelled from the spec: `addTerminalDisplay(display, session, mtd,
orientation)` of the absent `MultiTerminalDisplayManager`: in the tree of the
tab `root`, the pane `target` is split and the new display put beside it. -/
def addTerminalDisplay (st : ViewManager) (root : Nat) (display session target : Nat)
    (orientation : Orientation) : ViewManager :=
  { st with mtdTrees := st.mtdTrees.map (fun e =>
      if e.1 = root then (e.1, e.2.splitLeaf target orientation display session) else e) }

/-- Modelled from the spec: the end of a tab whose last pane is gone: the tab
is removed from its container and its tree is dropped. -/
def removeTab (st : ViewManager) (root : Nat) : ViewManager :=
  { st with mtdTrees := st.mtdTrees.filter (fun e => e.1 != root)
            containers := st.containers.map (fun c => c.removeView root) }

/-- Modelled from the spec: `removeTerminalDisplay(mtd)` of the absent
`MultiTerminalDisplayManager`: the pane is removed from the tree of the tab
`root`, and the tab with it when it was the only pane. -/
def removeTerminalDisplay (st : ViewManager) (root : Nat) (tree : PaneTreeNode) (leaf : Nat) :
    ViewManager :=
  match tree.removeLeaf leaf with
  | some tree1 =>
    { st with mtdTrees := st.mtdTrees.map (fun e => if e.1 = root then (e.1, tree1) else e) }
  | none => removeTab st root

/-- The two calls at the end of `createMultiTerminalView`, on the tab that
`activeContainerMtd` gave: the focused pane is looked up and split; nothing
happens when the tab or the pane is null. -/
def splitFocusedPane (st : ViewManager) (containerMtd : Option (Nat × PaneTreeNode))
    (display session : Nat) (orientation : Orientation) : ViewManager :=
  match containerMtd with
  | some (root, tree) =>
    match tree.focusedLeaf with
    | some leaf => addTerminalDisplay st root display session leaf orientation
    | none => st
  | none => st

/-- The method `createMultiTerminalView(orientation)`. -/
def createMultiTerminalView (st : ViewManager) (orientation : Orientation) :
    Option ViewManager := do
  let _ ← st.pluggedController
  let (session, st1) := createSession st st.defaultProfile
  let st2 := connectFinished st1 session
  let (display, st3) ← createTerminalDisplay st2 (some session)
  let st4 := applyProfileToView st3 display
  let st5 : ViewManager := { st4 with sessionMap := st4.sessionMap.insert display (some session) }
  let st6 := sessionAddView st5 session display
  let (_, st7) ← createController st6 session display
  let containerMtd ← activeContainerMtd st7
  let st8 := splitFocusedPane st7 containerMtd display session orientation
  updateDetachViewState st8

/-- The method `multiTerminalClose()`. -/
def multiTerminalClose (st : ViewManager) : Option ViewManager := do
  let containerMtd ← activeContainerMtd st
  match containerMtd with
  | some (root, tree) =>
    match tree.focusedLeaf with
    | some leaf => some (removeTerminalDisplay st root tree leaf)
    | none => some st
  | none => some st

/-- Modelled from the spec: `dismissMultiTerminals(root)` of the absent
`MultiTerminalDisplayManager`: every pane of the tab is removed, and the tab
with them. -/
def dismissMultiTerminals (st : ViewManager) (root : Option Nat) : ViewManager :=
  match root with
  | some r => removeTab st r
  | none => st

/-- The slot `closeTabFromContainer(container, tab)`. -/
def closeTabFromContainer (st : ViewManager) (_container : Nat) (tab : Nat) : ViewManager :=
  dismissMultiTerminals st ((st.mtdOf tab).map (fun _ => tab))

end ViewManager

/-- The operations on panes: a split, the removal of the focused pane, the
removal of a tab. -/
inductive PaneOp where
  | createMultiTerminalView (orientation : Orientation)
  | multiTerminalClose
  | closeTabFromContainer (container : Nat) (tab : Nat)
deriving DecidableEq, Repr

/-- One operation on panes applied to a state. -/
def stepPane (st : ViewManager) : PaneOp → Option ViewManager
  | .createMultiTerminalView o => st.createMultiTerminalView o
  | .multiTerminalClose => st.multiTerminalClose
  | .closeTabFromContainer c t => some (st.closeTabFromContainer c t)

/-- A sequence of operations on panes applied from left to right. -/
def runPanes : ViewManager → List PaneOp → Option ViewManager
  | st, [] => some st
  | st, op :: ops => (stepPane st op).bind (fun st1 => runPanes st1 ops)

/-- Every pane tree of the state has splits of at least two children and
distinct displays, each registered in the map and handed out by the
allocator. -/
def ViewManager.PanesRegistered (st : ViewManager) : Prop :=
  ∀ e ∈ st.mtdTrees, e.2.wellFormed = true ∧ e.2.leaves.Nodup ∧
    ∀ v ∈ e.2.leaves, st.sessionMap.contains v = true ∧ v < st.nextPtr

/-- The state of `exampleOne` after its pane was split side by side and the
new pane was split again, one above the other: the tab shows the displays 2,
6 and 9. -/
def examplePanes : ViewManager :=
  { exampleOne with
    mtdTrees := [(3, .Split .Horizontal
      [.Leaf 2 50, .Split .Vertical [.Leaf 6 5, .Leaf 9 8] 1] 1)]
    sessionMap := ⟨[(9, some 8), (6, some 5), (2, some 50)]⟩
    controllers := [⟨4, 50, 2⟩, ⟨7, 5, 6⟩, ⟨10, 8, 9⟩]
    terminalDisplays := [2, 6, 9]
    sessionViews := [(50, 2), (5, 6), (8, 9)]
    sessionProfiles := [(5, 0), (8, 0)]
    finishedConnections := [50, 5, 8]
    emitted := [.updateWindowIcon, .activeViewChanged 4, .updateWindowIcon, .updateWindowIcon]
    nextPtr := 11 }

/-- The splitter holds the one container `c`, which is the active one and a
live object whose tabs are `tabs`: distinct pointers handed out by the
allocator, the last of them the active tab.  The keys of the pane trees and
of the map were handed out by the allocator too. -/
def ViewManager.OneContainer (st : ViewManager) (c : Nat) (tabs : List Nat) : Prop :=
  ∃ (sp : ViewSplitter) (cont : ViewContainer),
    st.viewSplitter = some sp ∧ sp.containers = [c] ∧ sp.activeContainer = some c ∧
    st.findContainer c = some cont ∧ cont.views = tabs ∧ tabs.Nodup ∧
    (∀ w ∈ tabs, w < st.nextPtr) ∧
    (∀ e ∈ st.mtdTrees, e.1 < st.nextPtr) ∧
    (∀ k ∈ st.sessionMap.keys, k < st.nextPtr) ∧
    (tabs = [] ∨ cont.activeView = tabs.getLast?)

/-- A window whose one container was emptied: the state a new manager reaches
by `createView` of 50 and `detachView` of the tab. -/
def exampleDetached : ViewManager :=
  { ViewManager.new true 0 1 with
    viewSplitter := some { containers := [1], activeContainerIndex := 0, focusProxy := some 2 }
    containers := [⟨1, [], none⟩]
    mtdTrees := [(3, .Leaf 2 50)]
    controllers := [⟨4, 50, 2⟩]
    pluggedController := some 4
    actionCollection := some ⟨some false⟩
    terminalDisplays := [2]
    sessionViews := [(50, 2)]
    finishedConnections := [50]
    focus := some 2
    deleteLater := [3]
    emitted := [.updateWindowIcon, .activeViewChanged 4, .viewDetached (some 50)]
    nextPtr := 5 }

/-- The state of `exampleDetached` with new tabs put after the current one. -/
def exampleAfterCurrent : ViewManager :=
  { exampleDetached with newTabBehavior := .PutNewTabAfterCurrentTab }

/-- A session registry in which the IDs 50 and 51 resolve, each to the
session of that number. -/
def exampleLiveSessions : Int → Option Nat
  | 50 => some 50
  | 51 => some 51
  | _ => none

/-! ## The view/session map: lookups -/

/-- The first pair decides a lookup when its key matches. -/
theorem lookup_cons_ite {β : Type} (v a : Nat) (b : β) (es : List (Nat × β)) :
    List.lookup v ((a, b) :: es) = if v = a then some b else List.lookup v es := by
  rw [List.lookup_cons]
  by_cases h : v = a
  · subst h; simp
  · have : (v == a) = false := by simpa using h
    simp [this, h]

/-- After `remove k` only the key `k` has lost its entry. -/
theorem SessionMap.find?_remove (m : SessionMap) (k v : Nat) :
    (m.remove k).find? v = if v = k then none else m.find? v := by
  obtain ⟨es⟩ := m
  simp only [SessionMap.remove, SessionMap.find?]
  induction es with
  | nil => simp [List.lookup]
  | cons e es ih =>
    obtain ⟨a, b⟩ := e
    by_cases hak : a = k
    · subst hak
      simp only [List.filter_cons, bne_self_eq_false, Bool.false_eq_true, if_false, ih,
        lookup_cons_ite]
      by_cases hva : v = a <;> simp [hva]
    · have : (a != k) = true := by simpa using hak
      simp only [List.filter_cons, this, if_true, lookup_cons_ite, ih]
      by_cases hva : v = a
      · subst hva; simp [hak]
      · simp [hva]

/-- After `insert k x` the key `k` has the entry `x`, the others are as before. -/
theorem SessionMap.find?_insert (m : SessionMap) (k v : Nat) (x : Option Nat) :
    (m.insert k x).find? v = if v = k then some x else m.find? v := by
  have h := SessionMap.find?_remove m k v
  simp only [SessionMap.find?, SessionMap.insert, lookup_cons_ite] at h ⊢
  by_cases hvk : v = k
  · simp [hvk]
  · simp [hvk] at h ⊢; exact h

/-- The inserting read returns the value of the key. -/
theorem SessionMap.index_fst (m : SessionMap) (k : Nat) : (m.index k).1 = m.value k := by
  unfold SessionMap.index SessionMap.value
  cases h : m.find? k <;> simp

/-- The inserting read leaves every entry but that of an absent key. -/
theorem SessionMap.find?_index (m : SessionMap) (k v : Nat) :
    (m.index k).2.find? v = if v = k then some (m.value k) else m.find? v := by
  unfold SessionMap.index SessionMap.value
  cases h : m.find? k with
  | none =>
    by_cases hvk : v = k
    · simp [SessionMap.find?, lookup_cons_ite, hvk]
    · simp [SessionMap.find?, lookup_cons_ite, hvk]
  | some x =>
    by_cases hvk : v = k
    · subst hvk; simp [h]
    · simp [hvk]

/-- An inserting read followed by `remove` of the same key. -/
theorem SessionMap.find?_index_remove (m : SessionMap) (k v : Nat) :
    ((m.index k).2.remove k).find? v = if v = k then none else m.find? v := by
  rw [SessionMap.find?_remove, SessionMap.find?_index]
  by_cases hvk : v = k <;> simp [hvk]

/-- The map after the loop of `sessionFinished` over distinct displays that all have an entry. -/
theorem sessionFinishedLoop_find? (s : Nat) (l : List Nat) :
    ∀ st : ViewManager, l.Nodup → (∀ v ∈ l, st.sessionMap.contains v = true) →
      ∀ v, (ViewManager.sessionFinishedLoop s st l).sessionMap.find? v =
        if v ∈ l ∧ st.sessionMap.find? v = some (some s) then none
        else st.sessionMap.find? v := by
  induction l with
  | nil => intro st _ _ v; simp [ViewManager.sessionFinishedLoop]
  | cons w rest ih =>
    intro st hnd hall v
    have hw : st.sessionMap.contains w = true := hall w (List.mem_cons_self _ _)
    obtain ⟨x, hx⟩ : ∃ x, st.sessionMap.find? w = some x := by
      simpa [SessionMap.contains, Option.isSome_iff_exists] using hw
    have hidx : st.sessionMap.index w = (x, st.sessionMap) := by
      simp [SessionMap.index, hx]
    have hwrest : w ∉ rest := (List.nodup_cons.mp hnd).1
    have hndr : rest.Nodup := (List.nodup_cons.mp hnd).2
    simp only [ViewManager.sessionFinishedLoop, hidx]
    by_cases hxs : x = some s
    · simp only [hxs, if_true]
      rw [ih _ hndr]
      · simp only [SessionMap.find?_remove]
        by_cases hvw : v = w
        · subst hvw; simp [hx, hxs]
        · simp [hvw]
      · intro u hu
        have huw : u ≠ w := fun h => hwrest (h ▸ hu)
        have := hall u (List.mem_cons_of_mem _ hu)
        simpa [SessionMap.contains, SessionMap.find?_remove, huw] using this
    · simp only [hxs, if_false]
      rw [ih _ hndr]
      · by_cases hvw : v = w
        · subst hvw; simp [hx, hxs, hwrest]
        · simp [hvw]
      · intro u hu
        exact hall u (List.mem_cons_of_mem _ hu)

/-- C1 (amended): while the splitter exists and every terminal display below
it has an entry in the view/session map, `sessionFinished` of `s` removes
exactly the entries of the displays below the splitter that were mapped to
`s`; every other key keeps its entry and no entry is added.  Once the
splitter has been destroyed, `sessionFinished` changes nothing. -/
theorem sessionFinished_removes_attached_views (st : ViewManager) (s : Nat) :
    (st.viewSplitter = none → st.sessionFinished s = st) ∧
    (∀ sp, st.viewSplitter = some sp →
      (∀ v ∈ st.findChildren sp, st.sessionMap.contains v = true) →
      ∀ v, (st.sessionFinished s).sessionMap.find? v =
        if v ∈ st.findChildren sp ∧ st.sessionMap.find? v = some (some s) then none
        else st.sessionMap.find? v) := by
  constructor
  · intro h
    simp [ViewManager.sessionFinished, h]
  · intro sp hsp hall v
    have hloop := sessionFinishedLoop_find? s (st.findChildren sp) st
      (by unfold ViewManager.findChildren; exact List.nodup_dedup _) hall v
    simp only [ViewManager.sessionFinished, hsp]
    cases hp : (ViewManager.sessionFinishedLoop s st (st.findChildren sp)).pluggedController with
    | none => simpa using hloop
    | some c => simpa [ViewManager.emit] using hloop

/-- C1 (as stated) fails: with the splitter destroyed, display 2 is mapped to
session 50 before and after `sessionFinished` of 50. -/
theorem sessionFinished_counterexample :
    exampleDestroyed.sessionMap.find? 2 = some (some 50) ∧
    (exampleDestroyed.sessionFinished 50).sessionMap.find? 2 = some (some 50) := by
  decide

/-- The amended C1 at `exampleWindow` and session 50: display 2 loses its
entry, display 5 keeps session 51. -/
theorem sessionFinished_removes_attached_views_witness :
    exampleWindow.viewSplitter
        = some { containers := [1], activeContainerIndex := 0, focusProxy := some 2 } ∧
    (exampleWindow.sessionFinished 50).sessionMap.find? 2 = none ∧
    (exampleWindow.sessionFinished 50).sessionMap.find? 5 = some (some 51) := by
  have h := (sessionFinished_removes_attached_views exampleWindow 50).2
    { containers := [1], activeContainerIndex := 0, focusProxy := some 2 } rfl (by decide)
  refine ⟨rfl, ?_, ?_⟩
  · rw [h 2]; decide
  · rw [h 5]; decide

/-- With a live splitter `updateDetachViewState` returns, and touches neither
the map, the close record, the splitter nor the containers. -/
theorem updateDetachViewState_isSome (st : ViewManager) (sp : ViewSplitter)
    (h : st.viewSplitter = some sp) : ∃ st1, st.updateDetachViewState = some st1 ∧
      st1.sessionMap = st.sessionMap ∧ st1.closeCalls = st.closeCalls ∧
      st1.viewSplitter = st.viewSplitter ∧ st1.containers = st.containers := by
  cases st
  simp only at h
  subst h
  unfold ViewManager.updateDetachViewState
  split
  · exact ⟨_, rfl, rfl, rfl, rfl, rfl⟩
  · simp only [Option.bind_eq_bind, Option.some_bind]
    split
    · split
      · exact ⟨_, rfl, rfl, rfl, rfl, rfl⟩
      · exact ⟨_, rfl, rfl, rfl, rfl, rfl⟩
    · exact ⟨_, rfl, rfl, rfl, rfl, rfl⟩

/-- C2: when the map sends view `v` to session `s` and `s` has no view left,
`viewDestroyed` of `v` returns, calls `close()` on `s`, and the map has no
entry for `v` afterwards. -/
theorem viewDestroyed_closes_session_without_views (st : ViewManager) (v s : Nat)
    (hmap : st.sessionMap.find? v = some (some s)) (hviews : st.viewsOfSession s = []) :
    ∃ st1, st.viewDestroyed v = some st1 ∧
      st1.closeCalls = st.closeCalls ++ [(s, [])] ∧
      st1.sessionMap.find? v = none := by
  have hidx : st.sessionMap.index v = (some s, st.sessionMap) := by
    simp [SessionMap.index, hmap]
  have hv : ∀ m : SessionMap, ViewManager.viewsOfSession { st with sessionMap := m } s = [] := by
    intro m; simpa [ViewManager.viewsOfSession] using hviews
  unfold ViewManager.viewDestroyed
  simp only [hidx, ViewManager.closeIfNoViews, hv, List.length_nil, if_true]
  split
  · next sp hsp =>
    obtain ⟨st1, h1, hm, hc, _, _⟩ := updateDetachViewState_isSome
      { st with sessionMap := st.sessionMap.remove v,
                closeCalls := st.closeCalls ++ [(s, [])] } sp hsp
    exact ⟨st1, h1, hc, by rw [hm]; simp [SessionMap.find?_remove]⟩
  · exact ⟨_, rfl, rfl, by simp [SessionMap.find?_remove]⟩

/-- C2 at `exampleWindow`, once session 50 has dropped its display 2. -/
theorem viewDestroyed_closes_session_without_views_witness :
    ∃ st1, ({ exampleWindow with sessionViews := [(51, 5)] } : ViewManager).viewDestroyed 2 = some st1 ∧
      st1.closeCalls = [] ++ [(50, [])] ∧ st1.sessionMap.find? 2 = none :=
  viewDestroyed_closes_session_without_views
    { exampleWindow with sessionViews := [(51, 5)] } 2 50 (by decide) (by decide)


/-! ## What the operations leave alone -/

namespace ViewManager

theorem Extends.refl (st : ViewManager) : st.Extends st :=
  ⟨rfl, fun sp h => ⟨sp, h, List.prefix_refl _⟩⟩

theorem Extends.trans {a b c : ViewManager} (h1 : a.Extends b) (h2 : b.Extends c) :
    a.Extends c := by
  refine ⟨h2.1.trans h1.1, fun sp h => ?_⟩
  obtain ⟨sp1, hb, p1⟩ := h1.2 sp h
  obtain ⟨sp2, hc, p2⟩ := h2.2 sp1 hb
  exact ⟨sp2, hc, p1.trans p2⟩

theorem Extends.of_eq {a b : ViewManager} (hc : b.closeCalls = a.closeCalls)
    (hs : b.viewSplitter = a.viewSplitter) : a.Extends b :=
  ⟨hc, fun sp h => ⟨sp, hs.trans h, List.prefix_refl _⟩⟩

theorem updateDetachViewState_eq {st st1 : ViewManager}
    (h : st.updateDetachViewState = some st1) :
    ∃ ac, st1 = { st with actionCollection := ac } := by
  unfold updateDetachViewState at h
  split at h
  · next hn => cases h; exact ⟨none, by cases st; simp_all⟩
  · next coll hc =>
    simp only [Option.bind_eq_bind, Option.bind_eq_some] at h
    obtain ⟨sp, _, h⟩ := h
    split at h
    · split at h
      · cases h; exact ⟨_, rfl⟩
      · cases h; exact ⟨some coll, by cases st; simp_all⟩
    · cases h; exact ⟨some coll, by cases st; simp_all⟩

theorem updateDetachViewState_extends {st st1 : ViewManager}
    (h : st.updateDetachViewState = some st1) : st.Extends st1 := by
  obtain ⟨ac, rfl⟩ := updateDetachViewState_eq h
  exact Extends.of_eq rfl rfl

theorem controllerChanged_extends {st st1 : ViewManager} {c : Nat}
    (h : st.controllerChanged c = some st1) : st.Extends st1 := by
  unfold controllerChanged at h
  split at h
  · cases h; exact Extends.refl _
  · simp only [Option.bind_eq_bind, Option.bind_eq_some] at h
    obtain ⟨sp, hsp, ctl, _, h⟩ := h
    cases h
    refine ⟨rfl, fun sp0 h0 => ?_⟩
    rw [hsp] at h0; cases h0
    exact ⟨_, rfl, List.prefix_refl _⟩

theorem createController_extends {st st1 : ViewManager} {s v c : Nat}
    (h : st.createController s v = some (c, st1)) : st.Extends st1 := by
  unfold createController at h
  simp only at h
  split at h
  · simp only [Option.map_eq_some'] at h
    obtain ⟨st2, h2, h3⟩ := h
    cases h3
    exact Extends.trans (b := _) (by exact Extends.of_eq rfl rfl) (controllerChanged_extends h2)
  · cases h; exact Extends.of_eq rfl rfl

theorem createTerminalDisplay_extends {st st1 : ViewManager} {s : Option Nat} {d : Nat}
    (h : st.createTerminalDisplay s = some (d, st1)) : st.Extends st1 := by
  unfold createTerminalDisplay at h
  simp only [Option.bind_eq_bind, Option.bind_eq_some] at h
  obtain ⟨_, _, h⟩ := h
  cases h; exact Extends.of_eq rfl rfl

theorem createAndSetupTerminalDisplay_extends {st st1 : ViewManager} {s : Option Nat}
    {d : Option Nat} (h : st.createAndSetupTerminalDisplay s = some (d, st1)) :
    st.Extends st1 := by
  unfold createAndSetupTerminalDisplay at h
  split at h
  · cases h; exact Extends.refl _
  · simp only [Option.bind_eq_bind, Option.bind_eq_some] at h
    obtain ⟨⟨td, sa⟩, h1, ⟨c, sb⟩, h2, h3⟩ := h
    cases h3
    refine Extends.trans (createTerminalDisplay_extends h1) ?_
    refine Extends.trans (Extends.of_eq rfl rfl : sa.Extends (applyProfileToView sa td)) ?_
    refine Extends.trans (createController_extends h2) ?_
    exact Extends.of_eq rfl rfl

theorem createViewInContainer_extends {st st1 : ViewManager} {s : Option Nat} {c : Nat}
    {i : Int} (h : st.createViewInContainer s c i = some st1) : st.Extends st1 := by
  unfold createViewInContainer at h
  simp only [Option.bind_eq_bind, Option.bind_eq_some] at h
  obtain ⟨s0, _, ⟨d, sa⟩, h1, ⟨ctl, sb⟩, h2, cont, _, sp, hsp, h3⟩ := h
  refine Extends.trans (Extends.of_eq ?_ ?_ : st.Extends (connectFinished st s0)) ?_
  · unfold connectFinished; split <;> rfl
  · unfold connectFinished; split <;> rfl
  refine Extends.trans (createTerminalDisplay_extends h1) ?_
  refine Extends.trans (Extends.of_eq rfl rfl :
    sa.Extends (applyProfileToView (createRootTerminalDisplay sa d s0 c).2 d)) ?_
  refine Extends.trans (createController_extends h2) ?_
  refine Extends.trans ?_ (updateDetachViewState_extends h3)
  split
  · exact Extends.of_eq rfl rfl
  · exact Extends.of_eq rfl rfl

theorem createViewLoop_extends {s : Option Nat} {i : Int} (l : List Nat) :
    ∀ {st st1 : ViewManager}, createViewLoop s i st l = some st1 → st.Extends st1 := by
  induction l with
  | nil => intro st st1 h; simp only [createViewLoop] at h; cases h; exact Extends.refl _
  | cons c rest ih =>
    intro st st1 h
    simp only [createViewLoop, Option.bind_eq_bind, Option.bind_eq_some] at h
    obtain ⟨sa, h1, h2⟩ := h
    exact Extends.trans (createViewInContainer_extends h1) (ih h2)

theorem HasContainer.of_extends {st st1 : ViewManager} (h : st.HasContainer)
    (he : st.Extends st1) : st1.HasContainer := by
  obtain ⟨sp, hsp, hl⟩ := h
  obtain ⟨sp1, h1, hp⟩ := he.2 sp hsp
  exact ⟨sp1, h1, le_trans hl hp.length_le⟩

theorem createView_spec {st st1 : ViewManager} {s : Option Nat}
    (h : st.createView s = some st1) : st.Extends st1 ∧ st1.HasContainer := by
  unfold createView at h
  simp only [Option.bind_eq_bind, Option.bind_eq_some] at h
  obtain ⟨sp, hsp, i, _, sp1, hsp1, h⟩ := h
  have hl := createViewLoop_extends _ h
  by_cases hz : sp.containers.length = 0
  · simp only [hz, if_true, createContainer] at hsp1 hl
    cases hsp1
    have hnil : sp.containers = [] := List.length_eq_zero.mp hz
    have he : st.Extends { st with
        viewSplitter := some (sp.addContainer st.nextPtr Orientation.Vertical)
        containers := st.containers ++ [⟨st.nextPtr, [], none⟩]
        nextPtr := st.nextPtr + 1 } := by
      refine ⟨rfl, fun sp0 h0 => ?_⟩
      rw [hsp] at h0; cases h0
      exact ⟨_, rfl, by simp [ViewSplitter.addContainer, hnil]⟩
    constructor
    · exact Extends.trans he hl
    · exact HasContainer.of_extends
        ⟨_, rfl, by simp [ViewSplitter.addContainer]⟩ hl
  · simp only [hz, if_false] at hsp1 hl
    exact ⟨hl, HasContainer.of_extends ⟨sp, hsp, by omega⟩ hl⟩

theorem sessionFinishedLoop_extends (s : Nat) (l : List Nat) :
    ∀ st : ViewManager, st.Extends (sessionFinishedLoop s st l) := by
  induction l with
  | nil => intro st; exact Extends.refl _
  | cons v rest ih =>
    intro st
    simp only [sessionFinishedLoop]
    refine Extends.trans ?_ (ih _)
    split <;> exact Extends.of_eq rfl rfl

theorem sessionFinished_extends (st : ViewManager) (s : Nat) :
    st.Extends (st.sessionFinished s) := by
  unfold sessionFinished
  split
  · exact Extends.refl _
  · next sp _ =>
    dsimp only
    split
    · exact Extends.trans (sessionFinishedLoop_extends s (st.findChildren sp) st)
        (Extends.of_eq rfl rfl)
    · exact sessionFinishedLoop_extends _ _ _

theorem detachViewLoop_extends (l : List Nat) :
    ∀ st : ViewManager, st.Extends (detachViewLoop st l) := by
  induction l with
  | nil => intro st; exact Extends.refl _
  | cons v rest ih =>
    intro st
    simp only [detachViewLoop]
    exact Extends.trans (by exact Extends.of_eq rfl rfl) (ih _)

theorem detachView_extends {st st1 : ViewManager} {c : Nat} {w : Option Nat}
    (h : st.detachView c w = some st1) : st.Extends st1 := by
  unfold detachView at h
  split at h
  · cases h; exact Extends.refl _
  · split at h
    · cases h; exact Extends.refl _
    · next vd tree _ =>
      simp only [Option.bind_eq_bind, Option.bind_eq_some] at h
      obtain ⟨cont, _, sp, _, h⟩ := h
      refine Extends.trans (detachViewLoop_extends (getTerminalDisplaysOfContainer tree) st) ?_
      split at h <;> cases h <;> exact Extends.of_eq rfl rfl

theorem nextContainer_extends {st st1 : ViewManager} (h : st.nextContainer = some st1) :
    st.Extends st1 := by
  unfold nextContainer at h
  simp only [Option.bind_eq_bind, Option.bind_eq_some] at h
  obtain ⟨sp, hsp, h⟩ := h
  cases h
  refine ⟨rfl, fun sp0 h0 => ?_⟩
  rw [hsp] at h0; cases h0
  refine ⟨_, rfl, ?_⟩
  unfold ViewSplitter.activateNextContainer
  split <;> exact List.prefix_refl _

theorem closeActiveContainer_extends {st st1 : ViewManager}
    (h : st.closeActiveContainer = some st1) : st.Extends st1 := by
  unfold closeActiveContainer at h
  simp only [Option.bind_eq_bind, Option.bind_eq_some] at h
  obtain ⟨sp, hsp, h⟩ := h
  split at h
  · exact nextContainer_extends h
  · cases h; exact Extends.refl _

theorem closeOtherContainersLoop_eq (a : Option Nat) (l : List Nat) :
    ∀ st : ViewManager, closeOtherContainersLoop a st l = st := by
  induction l with
  | nil => intro st; rfl
  | cons c rest ih =>
    intro st
    simp only [closeOtherContainersLoop, removeContainer, ite_self]
    exact ih st

theorem closeOtherContainers_extends {st st1 : ViewManager}
    (h : st.closeOtherContainers = some st1) : st.Extends st1 := by
  unfold closeOtherContainers at h
  simp only [Option.bind_eq_bind, Option.bind_eq_some] at h
  obtain ⟨sp, hsp, h⟩ := h
  rw [closeOtherContainersLoop_eq] at h
  cases h; exact Extends.refl _

mutual
theorem cloneTree_extends : ∀ (t : PaneTreeNode) {st st1 : ViewManager} {t1 : PaneTreeNode},
    cloneTree st t = some (t1, st1) → st.Extends st1
  | .Leaf v s, st, st1, t1, h => by
    unfold cloneTree at h
    split at h
    · next td sa heq =>
      cases h
      exact createAndSetupTerminalDisplay_extends heq
    · cases h
  | .Split o cs f, st, st1, t1, h => by
    unfold cloneTree at h
    split at h
    · next cs1 sa heq =>
      cases h
      exact cloneTreeList_extends cs heq
    · cases h
theorem cloneTreeList_extends : ∀ (ts : List PaneTreeNode) {st st1 : ViewManager}
    {ts1 : List PaneTreeNode}, cloneTreeList st ts = some (ts1, st1) → st.Extends st1
  | [], st, st1, ts1, h => by
    unfold cloneTreeList at h
    cases h; exact Extends.refl _
  | t :: ts, st, st1, ts1, h => by
    unfold cloneTreeList at h
    split at h
    · next c1 sa heq =>
      split at h
      · next cs1 sb heq2 =>
        cases h
        exact Extends.trans (cloneTree_extends t heq) (cloneTreeList_extends ts heq2)
      · cases h
    · cases h
end

theorem cloneMtd_extends {st st1 : ViewManager} {m c : Nat}
    (h : st.cloneMtd m c = some st1) : st.Extends st1 := by
  unfold cloneMtd at h
  simp only [Option.bind_eq_bind, Option.bind_eq_some] at h
  obtain ⟨tree, _, ⟨t1, sa⟩, h1, cont, _, h2⟩ := h
  cases h2
  exact Extends.trans (cloneTree_extends tree h1) (Extends.of_eq rfl rfl)

theorem splitViewLoop_extends {c : Nat} (l : List Nat) :
    ∀ {st st1 : ViewManager} {b : Bool}, splitViewLoop c st l = some (b, st1) →
      st.Extends st1 := by
  induction l with
  | nil => intro st st1 b h; simp only [splitViewLoop] at h; cases h; exact Extends.refl _
  | cons v rest ih =>
    intro st st1 b h
    simp only [splitViewLoop] at h
    split at h
    · cases h; exact Extends.refl _
    · simp only [Option.bind_eq_bind, Option.bind_eq_some] at h
      obtain ⟨sa, h1, h2⟩ := h
      exact Extends.trans (cloneMtd_extends h1) (ih h2)

theorem emitSplitViewToggle_eq {st st1 : ViewManager} {b : Bool}
    (h : st.emitSplitViewToggle b = some st1) :
    ∃ ac, st1 = { st with actionCollection := ac
                          emitted := st.emitted ++ [.splitViewToggle b] } := by
  unfold emitSplitViewToggle at h
  dsimp only at h
  split at h
  · obtain ⟨ac, rfl⟩ := updateDetachViewState_eq h
    exact ⟨ac, rfl⟩
  · cases h; exact ⟨st.actionCollection, rfl⟩

theorem splitView_extends {st st1 : ViewManager} {o : Orientation}
    (h : st.splitView o = some st1) : st.Extends st1 := by
  unfold splitView at h
  simp only [Option.bind_eq_bind, Option.bind_eq_some] at h
  obtain ⟨sp, _, a, _, ac, _, ⟨b, sa⟩, h1, h2⟩ := h
  have e1 : st.Extends sa :=
    Extends.trans (by exact Extends.of_eq rfl rfl) (splitViewLoop_extends _ h1)
  dsimp only at h2
  split at h2
  · cases h2; exact e1
  · simp only [Option.bind_eq_bind, Option.bind_eq_some] at h2
    obtain ⟨sp2, hsp2, sb, h3, av, _, h4⟩ := h2
    obtain ⟨acoll, rfl⟩ := emitSplitViewToggle_eq h3
    refine Extends.trans e1 ?_
    have hp : sp2.containers <+:
        ((sp2.addContainer st.createContainer.1 o).focusContainer
          st.createContainer.1).containers := by
      unfold ViewSplitter.focusContainer
      split <;> simp [ViewSplitter.addContainer]
    split at h4 <;> cases h4
    · refine ⟨rfl, fun sp0 h0 => ?_⟩
      rw [hsp2] at h0; cases h0
      exact ⟨_, rfl, hp⟩
    · refine ⟨rfl, fun sp0 h0 => ?_⟩
      rw [hsp2] at h0; cases h0
      exact ⟨_, rfl, hp⟩

theorem runIfNotRunning_extends (st : ViewManager) (s : Nat) :
    st.Extends (st.runIfNotRunning s) := by
  unfold runIfNotRunning
  split
  · exact Extends.refl _
  · exact Extends.of_eq rfl rfl

theorem restoreSessionsLoop_extends {f : Int → Option Nat} {a : Int} (l : List Int) :
    ∀ {st st1 : ViewManager} {d d1 : Option Nat} {tab : Int},
      restoreSessionsLoop f a st d tab l = some (d1, st1) →
        st.Extends st1 ∧ (l ≠ [] → st1.HasContainer) := by
  induction l with
  | nil =>
    intro st st1 d d1 tab h
    simp only [restoreSessionsLoop] at h
    cases h
    exact ⟨Extends.refl _, fun hne => absurd rfl hne⟩
  | cons id rest ih =>
    intro st st1 d d1 tab h
    simp only [restoreSessionsLoop, Option.bind_eq_bind, Option.bind_eq_some] at h
    obtain ⟨sa, h1, s, _, d2, _, h2⟩ := h
    obtain ⟨e1, hc1⟩ := createView_spec h1
    obtain ⟨e2, _⟩ := ih h2
    have e3 := runIfNotRunning_extends sa s
    exact ⟨Extends.trans e1 (Extends.trans e3 e2),
      fun _ => HasContainer.of_extends hc1 (Extends.trans e3 e2)⟩

theorem restoreActiveView_extends {st st1 : ViewManager} {d : Option Nat}
    (h : st.restoreActiveView d = some st1) : st.Extends st1 := by
  unfold restoreActiveView at h
  split at h
  · simp only [Option.bind_eq_bind, Option.bind_eq_some] at h
    obtain ⟨sp, _, c, _, cont, _, h⟩ := h
    cases h
    exact Extends.of_eq rfl rfl
  · cases h; exact Extends.refl _

theorem restoreDefaultSession_spec {st st1 : ViewManager} {ids : List Int}
    (h : st.restoreDefaultSession ids = some st1) :
    st.Extends st1 ∧ (ids = [] → st1.HasContainer) := by
  unfold restoreDefaultSession at h
  split at h
  · simp only [Option.bind_eq_bind, Option.bind_eq_some] at h
    obtain ⟨sc, h4, h5⟩ := h
    cases h5
    obtain ⟨e3, hc3⟩ := createView_spec h4
    have e4 := runIfNotRunning_extends sc (st.createSession st.defaultProfile).1
    exact ⟨Extends.trans (Extends.trans (by exact Extends.of_eq rfl rfl) e3) e4,
      fun _ => HasContainer.of_extends hc3 e4⟩
  · next hne =>
    cases h
    exact ⟨Extends.refl _, fun hnil => absurd (by simp [hnil]) hne⟩

theorem restoreSessions_spec {st st1 : ViewManager} {f : Int → Option Nat} {g : KConfigGroup}
    (h : st.restoreSessions f g = some st1) : st.Extends st1 ∧ st1.HasContainer := by
  unfold restoreSessions at h
  simp only [Option.bind_eq_bind, Option.bind_eq_some] at h
  obtain ⟨⟨d, sa⟩, h1, sb, h2, h3⟩ := h
  obtain ⟨e1, hc1⟩ := restoreSessionsLoop_extends _ h1
  have e2 := restoreActiveView_extends h2
  obtain ⟨e3, hc3⟩ := restoreDefaultSession_spec h3
  refine ⟨Extends.trans e1 (Extends.trans e2 e3), ?_⟩
  by_cases hnil : g.sessions.getD [] = []
  · exact hc3 hnil
  · exact HasContainer.of_extends (hc1 hnil) (Extends.trans e2 e3)

theorem closeIfNoViews_spec (st : ViewManager) (s : Option Nat) :
    (st.closeIfNoViews s).viewSplitter = st.viewSplitter ∧
      ∀ e ∈ (st.closeIfNoViews s).closeCalls, e ∈ st.closeCalls ∨ e.2 = [] := by
  unfold closeIfNoViews
  split
  · split
    · next hlen =>
      refine ⟨rfl, fun e he => ?_⟩
      simp only [List.mem_append, List.mem_singleton] at he
      rcases he with he | he
      · exact Or.inl he
      · right
        subst he
        exact List.length_eq_zero.mp hlen
    · exact ⟨rfl, fun e he => Or.inl he⟩
  · exact ⟨rfl, fun e he => Or.inl he⟩

theorem viewDestroyed_spec {st st1 : ViewManager} {v : Nat}
    (h : st.viewDestroyed v = some st1) :
    st1.viewSplitter = st.viewSplitter ∧
      ∀ e ∈ st1.closeCalls, e ∈ st.closeCalls ∨ e.2 = [] := by
  unfold viewDestroyed at h
  dsimp only at h
  obtain ⟨hs, hcl⟩ := closeIfNoViews_spec
    { st with sessionMap := (st.sessionMap.index v).2.remove v } (st.sessionMap.index v).1
  split at h
  · obtain ⟨ac, rfl⟩ := updateDetachViewState_eq h
    exact ⟨hs, hcl⟩
  · cases h; exact ⟨hs, hcl⟩

end ViewManager

theorem step_extends {st st1 : ViewManager} {op : Op} (h : step st op = some st1)
    (hop : ∀ v, op ≠ .viewDestroyed v) : st.Extends st1 := by
  cases op with
  | createView s => exact (ViewManager.createView_spec h).1
  | createViewInContainer s c i => exact ViewManager.createViewInContainer_extends h
  | createAndSetupTerminalDisplay s =>
    simp only [step, Option.map_eq_some'] at h
    obtain ⟨⟨d, sa⟩, h1, h2⟩ := h
    cases h2
    exact ViewManager.createAndSetupTerminalDisplay_extends h1
  | splitView o => exact ViewManager.splitView_extends h
  | detachView c w => exact ViewManager.detachView_extends h
  | closeActiveContainer => exact ViewManager.closeActiveContainer_extends h
  | closeOtherContainers => exact ViewManager.closeOtherContainers_extends h
  | sessionFinished s =>
    simp only [step] at h
    cases h
    exact ViewManager.sessionFinished_extends _ _
  | viewDestroyed v => exact absurd rfl (hop v)
  | restoreSessions f g => exact (ViewManager.restoreSessions_spec h).1
  | controllerChanged c => exact ViewManager.controllerChanged_extends h
  | nextContainer => exact ViewManager.nextContainer_extends h
  | updateDetachViewState => exact ViewManager.updateDetachViewState_extends h
  | setNavigationBehavior b =>
    simp only [step] at h
    cases h
    exact ViewManager.Extends.of_eq rfl rfl

theorem step_closeCalls {st st1 : ViewManager} {op : Op} (h : step st op = some st1) :
    ∀ e ∈ st1.closeCalls, e ∈ st.closeCalls ∨ e.2 = [] := by
  by_cases hop : ∀ v, op ≠ .viewDestroyed v
  · intro e he
    rw [(step_extends h hop).1] at he
    exact Or.inl he
  · push_neg at hop
    obtain ⟨v, rfl⟩ := hop
    exact (ViewManager.viewDestroyed_spec h).2

theorem step_hasContainer {st st1 : ViewManager} {op : Op} (h : step st op = some st1)
    (hc : st.HasContainer ∨ op.createsView = true) : st1.HasContainer := by
  by_cases hop : ∀ v, op ≠ .viewDestroyed v
  · rcases hc with hc | hc
    · exact ViewManager.HasContainer.of_extends hc (step_extends h hop)
    · cases op with
      | createView s => exact (ViewManager.createView_spec h).2
      | restoreSessions f g => exact (ViewManager.restoreSessions_spec h).2
      | _ => simp [Op.createsView] at hc
  · push_neg at hop
    obtain ⟨v, rfl⟩ := hop
    rcases hc with hc | hc
    · obtain ⟨sp, hsp, hl⟩ := hc
      exact ⟨sp, by rw [(ViewManager.viewDestroyed_spec h).1]; exact hsp, hl⟩
    · simp [Op.createsView] at hc


/-! ## Runs: closing sessions and keeping containers -/

theorem run_closeCalls (ops : List Op) :
    ∀ {st st1 : ViewManager}, run st ops = some st1 →
      ∀ e ∈ st1.closeCalls, e ∈ st.closeCalls ∨ e.2 = [] := by
  induction ops with
  | nil => intro st st1 h e he; simp only [run] at h; cases h; exact Or.inl he
  | cons op ops ih =>
    intro st st1 h e he
    simp only [run, Option.bind_eq_some] at h
    obtain ⟨sa, h1, h2⟩ := h
    rcases ih h2 e he with h3 | h3
    · exact step_closeCalls h1 e h3
    · exact Or.inr h3

theorem run_hasContainer (ops : List Op) :
    ∀ {st st1 : ViewManager}, run st ops = some st1 →
      (st.HasContainer ∨ ∃ op ∈ ops, op.createsView = true) → st1.HasContainer := by
  induction ops with
  | nil =>
    intro st st1 h hc
    simp only [run] at h; cases h
    rcases hc with hc | ⟨op, hop, _⟩
    · exact hc
    · cases hop
  | cons op ops ih =>
    intro st st1 h hc
    simp only [run, Option.bind_eq_some] at h
    obtain ⟨sa, h1, h2⟩ := h
    by_cases hcv : op.createsView = true
    · exact ih h2 (Or.inl (step_hasContainer h1 (Or.inr hcv)))
    · rcases hc with hc | ⟨op1, hop1, hcv1⟩
      · exact ih h2 (Or.inl (step_hasContainer h1 (Or.inl hc)))
      · rcases List.mem_cons.mp hop1 with rfl | hmem
        · exact absurd hcv1 hcv
        · exact ih h2 (Or.inr ⟨op1, hmem, hcv1⟩)

/-- C3: in every run of manager operations, from a state whose record of
`Session::close()` calls shows only sessions without views, every call of
`close()` the run adds is made on a session whose set of views is empty at
that moment. -/
theorem close_only_without_views (st st1 : ViewManager) (ops : List Op)
    (h0 : ∀ e ∈ st.closeCalls, e.2 = []) (h : run st ops = some st1) :
    ∀ e ∈ st1.closeCalls, e.2 = [] := by
  intro e he
  rcases run_closeCalls ops h e he with h1 | h1
  · exact h0 e h1
  · exact h1

/-- C3 on a run from `exampleWindow` after session 51 dropped its display:
`viewDestroyed 5` closes session 51, which has no views. -/
theorem close_only_without_views_witness :
    ∃ st1, run { exampleWindow with sessionViews := [(50, 2)] }
        [.detachView 1 (some 3), .viewDestroyed 2, .viewDestroyed 5, .closeActiveContainer]
          = some st1 ∧
      st1.closeCalls = [(51, [])] ∧
      ∀ e ∈ st1.closeCalls, e.2 = [] :=
  ⟨_, rfl, rfl, close_only_without_views { exampleWindow with sessionViews := [(50, 2)] } _
    [.detachView 1 (some 3), .viewDestroyed 2, .viewDestroyed 5, .closeActiveContainer]
    (by decide) rfl⟩

/-- C5 (amended): in every state a newly constructed manager reaches by a
run of its operations that contains a `createView(session)` or a
`restoreSessions`, the splitter holds at least one container. -/
theorem splitter_keeps_container (enableDetaching : Bool) (defaultProfile nextPtr : Nat)
    (ops : List Op) (st1 : ViewManager)
    (h : run (ViewManager.new enableDetaching defaultProfile nextPtr) ops = some st1)
    (hc : ∃ op ∈ ops, op.createsView = true) : st1.HasContainer :=
  run_hasContainer ops h (Or.inr hc)

/-- C5 (as stated) fails: a newly constructed manager holds no container,
and still holds none after `sessionFinished`, `closeActiveContainer` and
`closeOtherContainers`. -/
theorem splitter_without_container :
    ∃ st1, run (ViewManager.new true 0 1)
        [.sessionFinished 50, .closeActiveContainer, .closeOtherContainers] = some st1 ∧
      st1.viewSplitter.map (fun sp => sp.containers) = some [] :=
  ⟨_, rfl, rfl⟩

/-- The amended C5 on a run that creates a view, closes the active container
and finishes the session. -/
theorem splitter_keeps_container_witness :
    ∃ st1, run (ViewManager.new true 0 1)
        [.createView (some 50), .closeActiveContainer, .sessionFinished 50] = some st1 ∧
      st1.HasContainer :=
  ⟨_, rfl, splitter_keeps_container true 0 1
    [.createView (some 50), .closeActiveContainer, .sessionFinished 50] _ rfl
    ⟨.createView (some 50), by simp, rfl⟩⟩

/-- C6: when the splitter holds exactly one container, `closeActiveContainer`
and `closeOtherContainers` both return and leave the splitter's list of
containers, and every container, as they were. -/
theorem close_with_single_container (st : ViewManager) (sp : ViewSplitter)
    (hsp : st.viewSplitter = some sp) (h1 : sp.containers.length = 1) :
    (∃ sa, st.closeActiveContainer = some sa ∧
      sa.viewSplitter.map (fun x => x.containers) = some sp.containers ∧
      sa.containers = st.containers) ∧
    (∃ sb, st.closeOtherContainers = some sb ∧
      sb.viewSplitter.map (fun x => x.containers) = some sp.containers ∧
      sb.containers = st.containers) := by
  constructor
  · refine ⟨st, ?_, by simp [hsp], rfl⟩
    simp [ViewManager.closeActiveContainer, hsp, h1]
  · refine ⟨st, ?_, by simp [hsp], rfl⟩
    simp [ViewManager.closeOtherContainers, hsp, ViewManager.closeOtherContainersLoop_eq]

/-- C6 at `exampleWindow`, whose splitter holds the single container 1. -/
theorem close_with_single_container_witness :
    (∃ sa, exampleWindow.closeActiveContainer = some sa ∧
      sa.viewSplitter.map (fun x => x.containers) = some [1] ∧
      sa.containers = exampleWindow.containers) ∧
    (∃ sb, exampleWindow.closeOtherContainers = some sb ∧
      sb.viewSplitter.map (fun x => x.containers) = some [1] ∧
      sb.containers = exampleWindow.containers) :=
  close_with_single_container exampleWindow
    { containers := [1], activeContainerIndex := 0, focusProxy := some 2 } rfl rfl

/-- C4, the code at a failing input: in `exampleSplit` the splitter holds two
containers; `detachView` of the only tab of container 5 leaves container 5
without tabs and still in the splitter. -/
theorem detachView_keeps_emptied_container :
    ∃ st1, exampleSplit.detachView 5 (some 8) = some st1 ∧
      st1.viewsOf 5 = [] ∧
      st1.viewSplitter.map (fun sp => sp.containers) = some [1, 5] :=
  ⟨_, rfl, by decide, by decide⟩

/-- C7, the code at a failing input: in `exampleSplit` the splitter holds two
containers; after `closeActiveContainer`, and after `closeOtherContainers`,
it still holds both. -/
theorem closeContainers_remove_nothing :
    (∃ sa, exampleSplit.closeActiveContainer = some sa ∧
      sa.viewSplitter.map (fun sp => sp.containers) = some [1, 5]) ∧
    (∃ sb, exampleSplit.closeOtherContainers = some sb ∧
      sb.viewSplitter.map (fun sp => sp.containers) = some [1, 5]) :=
  ⟨⟨_, rfl, by decide⟩, ⟨_, rfl, by decide⟩⟩

/-- The state `exampleWindow` is reached from a new manager. -/
theorem exampleWindow_reachable :
    run (ViewManager.new true 0 1) [.createView (some 50), .createView (some 51)]
      = some exampleWindow := rfl

/-- The state `exampleOne` is reached from a new manager. -/
theorem exampleOne_reachable :
    (ViewManager.new true 0 1).createView (some 50) = some exampleOne := rfl

/-- The method `splitView` takes `exampleOne` to `exampleSplit`. -/
theorem exampleOne_splitView : exampleOne.splitView .Horizontal = some exampleSplit := by
  simp [ViewManager.splitView, ViewManager.createContainer, exampleOne, ViewManager.new,
    ViewSplitter.activeContainer, ViewManager.findContainer, ViewManager.splitViewLoop,
    ViewManager.mtdOf, ViewManager.cloneMtd, ViewManager.cloneTree,
    ViewManager.createAndSetupTerminalDisplay, ViewManager.createTerminalDisplay,
    ViewManager.applyProfileToView, ViewManager.emit, ViewManager.createController,
    ViewManager.sessionAddView, SessionMap.insert, SessionMap.remove,
    ViewManager.modifyContainer, ViewContainer.addView, qInsert,
    ViewSplitter.addContainer, ViewManager.emitSplitViewToggle,
    ViewManager.updateDetachViewState, ViewSplitter.focusContainer, ViewManager.activeView,
    ViewManager.viewsOf, exampleSplit, List.lookup]

/-- The state `exampleSplit` is reached from a new manager. -/
theorem exampleSplit_reachable :
    run (ViewManager.new true 0 1) [.createView (some 50), .splitView .Horizontal]
      = some exampleSplit := by
  simp only [run, step, exampleOne_reachable, Option.some_bind, exampleOne_splitView]

/-! ## Creating views -/

namespace ViewManager

theorem findContainer_map (st : ViewManager) (g : ViewContainer → ViewContainer)
    (hg : ∀ x, (g x).ptr = x.ptr) (c : Nat) :
    ViewManager.findContainer { st with containers := st.containers.map g } c
      = (st.findContainer c).map g := by
  unfold findContainer
  simp only [List.find?_map]
  congr 1
  have : ((fun x : ViewContainer => x.ptr == c) ∘ g) = (fun x => x.ptr == c) := by
    funext x; simp [hg x]
  rw [this]

theorem findContainer_modifyContainer (st : ViewManager) (c : Nat)
    (f : ViewContainer → ViewContainer) (hf : ∀ x, (f x).ptr = x.ptr) (c1 : Nat) :
    (st.modifyContainer c f).findContainer c1
      = (st.findContainer c1).map (fun x => if x.ptr = c then f x else x) := by
  unfold modifyContainer
  exact findContainer_map st _ (by intro x; split <;> simp [hf]) c1

theorem findContainer_ptr {st : ViewManager} {c : Nat} {cont : ViewContainer}
    (h : st.findContainer c = some cont) : cont.ptr = c := by
  unfold findContainer at h
  have := List.find?_some h
  simpa using this

theorem viewsOf_modifyContainer (st : ViewManager) (c : Nat)
    (f : ViewContainer → ViewContainer) (hf : ∀ x, (f x).ptr = x.ptr) (c1 : Nat) :
    (st.modifyContainer c f).viewsOf c1 =
      match st.findContainer c1 with
      | some x => if c1 = c then (f x).views else x.views
      | none => [] := by
  unfold viewsOf
  rw [findContainer_modifyContainer st c f hf c1]
  cases h : st.findContainer c1 with
  | none => rfl
  | some x =>
    have hp := findContainer_ptr h
    simp only [Option.map_some']
    by_cases hc : c1 = c
    · simp [hc, hp ▸ hc]
    · have : ¬ x.ptr = c := by rw [hp]; exact hc
      simp [hc, this]

theorem updateDetachViewState_total (st : ViewManager) (sp : ViewSplitter)
    (h : st.viewSplitter = some sp) :
    ∃ ac, st.updateDetachViewState = some { st with actionCollection := ac } := by
  obtain ⟨st1, h1, _⟩ := updateDetachViewState_isSome st sp h
  obtain ⟨ac, rfl⟩ := updateDetachViewState_eq h1
  exact ⟨ac, h1⟩

theorem createController_total (st : ViewManager) (s v : Nat) (sp : ViewSplitter)
    (hsp : st.viewSplitter = some sp) :
    ∃ fp p e, st.createController s v = some (st.nextPtr,
      { st with
        viewSplitter := some { sp with focusProxy := fp }
        controllers := st.controllers ++ [⟨st.nextPtr, s, v⟩]
        pluggedController := p
        emitted := e
        nextPtr := st.nextPtr + 1 }) := by
  rcases st with ⟨vs, cts, trees, sm, cs, pc, ntb, ac, ed, dp, tds, sv, sps, rn, fc, fo,
    dl, em, cc, nx⟩
  simp only at hsp
  subst hsp
  unfold createController
  dsimp only
  split
  · next hnone =>
    unfold controllerChanged
    dsimp only
    rw [if_neg (by
      intro hc
      rw [hc] at hnone
      simp at hnone)]
    simp only [Option.bind_eq_bind, Option.some_bind]
    obtain ⟨c, hc⟩ : ∃ c, List.find? (fun c => c.ptr == nx)
        (cs ++ [⟨nx, s, v⟩]) = some c := by
      apply Option.isSome_iff_exists.mp
      rw [List.find?_isSome]
      exact ⟨⟨nx, s, v⟩, by simp, by simp⟩
    simp only [hc, Option.some_bind, Option.map_some', emit]
    exact ⟨_, _, _, rfl⟩
  · exact ⟨sp.focusProxy, _, _, rfl⟩

theorem connectFinished_eq (st : ViewManager) (s : Nat) :
    ∃ fc, st.connectFinished s = { st with finishedConnections := fc } := by
  unfold connectFinished
  split
  · exact ⟨st.finishedConnections, rfl⟩
  · exact ⟨_, rfl⟩

theorem setActiveView_views (c : ViewContainer) (w : Nat) :
    (c.setActiveView w).views = c.views := by
  unfold ViewContainer.setActiveView
  split <;> rfl

theorem setActiveView_ptr (c : ViewContainer) (w : Nat) :
    (c.setActiveView w).ptr = c.ptr := by
  unfold ViewContainer.setActiveView
  split <;> rfl

theorem addView_ptr (c : ViewContainer) (w : Nat) (i : Int) :
    (c.addView w i).ptr = c.ptr := rfl

theorem viewsOf_of_containers (a st : ViewManager) (g : ViewContainer → ViewContainer)
    (hg : ∀ x, (g x).ptr = x.ptr) (h : a.containers = st.containers.map g) (c1 : Nat) :
    a.viewsOf c1 = match st.findContainer c1 with
      | some x => (g x).views
      | none => [] := by
  have : a.findContainer c1 = (st.findContainer c1).map g := by
    rw [← findContainer_map st g hg c1]
    unfold findContainer
    rw [h]
  unfold viewsOf
  rw [this]
  cases st.findContainer c1 <;> rfl

theorem findContainer_isSome_of_containers (a st : ViewManager)
    (g : ViewContainer → ViewContainer)
    (hg : ∀ x, (g x).ptr = x.ptr) (h : a.containers = st.containers.map g) (c1 : Nat) :
    (a.findContainer c1).isSome = (st.findContainer c1).isSome := by
  have : a.findContainer c1 = (st.findContainer c1).map g := by
    rw [← findContainer_map st g hg c1]
    unfold findContainer
    rw [h]
  rw [this]
  cases st.findContainer c1 <;> rfl

theorem createViewInContainer_total (st : ViewManager) (s c : Nat) (i : Int)
    (sp : ViewSplitter) (cont : ViewContainer)
    (hsp : st.viewSplitter = some sp) (hc : st.findContainer c = some cont) :
    ∃ st1 sp1, st.createViewInContainer (some s) c i = some st1 ∧
      st1.viewSplitter = some sp1 ∧ sp1.containers = sp.containers ∧
      sp1.activeContainerIndex = sp.activeContainerIndex ∧
      st1.sessionMap = st.sessionMap.insert st.nextPtr (some s) ∧
      st1.mtdTrees = st.mtdTrees ++ [(st.nextPtr + 1, .Leaf st.nextPtr s)] ∧
      st1.nextPtr = st.nextPtr + 3 ∧
      (∀ c1, st1.viewsOf c1 =
        if c1 = c then qInsert cont.views i (st.nextPtr + 1) else st.viewsOf c1) ∧
      (∀ c1, (st1.findContainer c1).isSome = (st.findContainer c1).isSome) ∧
      st1.newTabBehavior = st.newTabBehavior ∧
      st1.closeCalls = st.closeCalls ∧
      st1.sessionViews = st.sessionViews ++ [(s, st.nextPtr)] ∧
      st1.terminalDisplays = st.terminalDisplays ++ [st.nextPtr] := by
  obtain ⟨fc, hfc⟩ := connectFinished_eq st s
  unfold createViewInContainer
  simp only [Option.bind_eq_bind, Option.some_bind, hfc, createTerminalDisplay,
    createRootTerminalDisplay, applyProfileToView, emit]
  obtain ⟨fp, p, e, hctl⟩ := createController_total
    { st with
      finishedConnections := fc
      nextPtr := st.nextPtr + 1 + 1
      terminalDisplays := st.terminalDisplays ++ [st.nextPtr]
      mtdTrees := st.mtdTrees ++ [(st.nextPtr + 1, .Leaf st.nextPtr s)]
      emitted := st.emitted ++ [.updateWindowIcon] } s st.nextPtr sp hsp
  simp only [hctl, Option.some_bind]
  have hc1 := hc
  unfold findContainer at hc1
  simp only [findContainer, hc1, Option.some_bind, sessionAddView, modifyContainer]
  have hptr := findContainer_ptr hc
  have hval : ∀ (g : ViewContainer → ViewContainer), (∀ x, (g x).views = x.views) →
      ∀ c1, (match st.findContainer c1 with
        | some x => (g (if x.ptr = c then x.addView (st.nextPtr + 1) i else x)).views
        | none => []) =
        if c1 = c then qInsert cont.views i (st.nextPtr + 1) else st.viewsOf c1 := by
    intro g hgv c1
    by_cases h1 : c1 = c
    · subst h1
      simp [hc, hptr, hgv, ViewContainer.addView]
    · cases hx : st.findContainer c1 with
      | none => simp [h1, viewsOf, hx]
      | some x =>
        have := findContainer_ptr hx
        simp [h1, viewsOf, hx, this, hgv]
  split
  · -- the container is the active one
    obtain ⟨ac, hupd⟩ := updateDetachViewState_total
      ({ ((({ st with
            viewSplitter := some { sp with focusProxy := fp }
            finishedConnections := fc
            nextPtr := st.nextPtr + 1 + 1 + 1
            terminalDisplays := st.terminalDisplays ++ [st.nextPtr]
            mtdTrees := st.mtdTrees ++ [(st.nextPtr + 1, .Leaf st.nextPtr s)]
            emitted := e
            controllers := st.controllers ++ [⟨st.nextPtr + 1 + 1, s, st.nextPtr⟩]
            pluggedController := p
            sessionMap := st.sessionMap.insert st.nextPtr (some s)
            sessionViews := st.sessionViews ++ [(s, st.nextPtr)] } : ViewManager).modifyContainer c
              (fun x => x.addView (st.nextPtr + 1) i)).modifyContainer c
              (fun x => x.setActiveView (st.nextPtr + 1))) with focus := some st.nextPtr })
      { sp with focusProxy := fp } rfl
    have hg : ∀ x : ViewContainer,
        ((fun x : ViewContainer => if x.ptr = c then x.setActiveView (st.nextPtr + 1) else x)
          ((fun x : ViewContainer => if x.ptr = c then x.addView (st.nextPtr + 1) i else x) x)).ptr
          = x.ptr := by
      intro x
      dsimp only
      by_cases h : x.ptr = c <;> simp [h, addView_ptr, setActiveView_ptr]
    refine ⟨_, _, hupd, rfl, rfl, rfl, rfl, rfl, rfl, ?_, ?_, rfl, rfl, rfl, rfl⟩
    · intro c1
      rw [viewsOf_of_containers _ st _ hg (by simp [modifyContainer, List.map_map])]
      refine hval (fun x => if x.ptr = c then x.setActiveView (st.nextPtr + 1) else x) ?_ c1
      intro x
      by_cases h : x.ptr = c <;> simp [h, setActiveView_views]
    · intro c1
      exact findContainer_isSome_of_containers _ st _ hg
        (by simp [modifyContainer, List.map_map]) c1
  · obtain ⟨ac, hupd⟩ := updateDetachViewState_total
      (({ st with
            viewSplitter := some { sp with focusProxy := fp }
            finishedConnections := fc
            nextPtr := st.nextPtr + 1 + 1 + 1
            terminalDisplays := st.terminalDisplays ++ [st.nextPtr]
            mtdTrees := st.mtdTrees ++ [(st.nextPtr + 1, .Leaf st.nextPtr s)]
            emitted := e
            controllers := st.controllers ++ [⟨st.nextPtr + 1 + 1, s, st.nextPtr⟩]
            pluggedController := p
            sessionMap := st.sessionMap.insert st.nextPtr (some s)
            sessionViews := st.sessionViews ++ [(s, st.nextPtr)] } : ViewManager).modifyContainer c
              (fun x => x.addView (st.nextPtr + 1) i))
      { sp with focusProxy := fp } rfl
    have hg : ∀ x : ViewContainer,
        ((fun x : ViewContainer => if x.ptr = c then x.addView (st.nextPtr + 1) i else x) x).ptr
          = x.ptr := by
      intro x
      dsimp only
      by_cases h : x.ptr = c <;> simp [h, addView_ptr]
    refine ⟨_, _, hupd, rfl, rfl, rfl, rfl, rfl, rfl, ?_, ?_, rfl, rfl, rfl, rfl⟩
    · intro c1
      rw [viewsOf_of_containers _ st _ hg (by simp [modifyContainer])]
      exact hval id (fun _ => rfl) c1
    · intro c1
      exact findContainer_isSome_of_containers _ st _ hg (by simp [modifyContainer]) c1

theorem find?_eq_none_of_fresh {st : ViewManager} (h : st.Fresh) {v : Nat}
    (hv : st.nextPtr ≤ v) : st.sessionMap.find? v = none := by
  unfold SessionMap.find?
  rw [List.lookup_eq_none_iff]
  intro p hp
  have hk : p.1 ∈ st.sessionMap.keys := List.mem_map_of_mem Prod.fst hp
  have := h.1 _ hk
  have hne : v ≠ p.1 := by omega
  simpa using hne

theorem lookup_append_of_fresh {β : Type} (l : List (Nat × β)) (k : Nat) (b : β)
    (h : ∀ e ∈ l, e.1 ≠ k) : List.lookup k (l ++ [(k, b)]) = some b := by
  induction l with
  | nil => simp [List.lookup]
  | cons e es ih =>
    obtain ⟨a, x⟩ := e
    have ha : k ≠ a := fun hh => h (a, x) (List.mem_cons_self _ _) hh.symm
    rw [List.cons_append, lookup_cons_ite, if_neg ha]
    exact ih (fun e he => h e (List.mem_cons_of_mem _ he))

theorem viewsOf_lt_of_fresh {st : ViewManager} (h : st.Fresh) (c w : Nat)
    (hw : w ∈ st.viewsOf c) : w < st.nextPtr := by
  unfold viewsOf at hw
  cases hx : st.findContainer c with
  | none => simp [hx] at hw
  | some x =>
    simp only [hx] at hw
    unfold findContainer at hx
    exact (h.2.1 x (List.mem_of_find?_eq_some hx)).2 w hw

theorem qInsert_getElem? (l : List Nat) (i : Int) (w : Nat) (h0 : 0 ≤ i)
    (h1 : i ≤ l.length) : (qInsert l i w)[i.toNat]? = some w := by
  unfold qInsert
  rw [if_neg (by omega)]
  have hlen : (l.take i.toNat).length = i.toNat := by
    rw [List.length_take]; omega
  rw [List.getElem?_append_right (by omega)]
  simp [hlen]

theorem qInsert_perm (l : List Nat) (i : Int) (w : Nat) :
    (qInsert l i w).Perm (w :: l) := by
  unfold qInsert
  split
  · exact List.perm_append_singleton w l
  · refine List.perm_middle.trans ?_
    rw [List.take_append_drop]

end ViewManager

/-- C8 (amended): for every session `s`, every live container `c` and every
index `i`, `createView(s, c, i)` returns; it adds exactly one new view to
the view/session map, mapped to `s`, and exactly one new tab, showing that
view, to `c`: at the end when `i < 0`, at position `i` when `0 ≤ i` and `i`
is at most the number of tabs of `c`.  The tabs of every other container and
every earlier map entry are unchanged. -/
theorem createViewInContainer_adds_one_view (st : ViewManager) (s c : Nat) (i : Int)
    (sp : ViewSplitter) (hsp : st.viewSplitter = some sp)
    (hc : (st.findContainer c).isSome = true) (hfresh : st.Fresh) :
    ∃ st1 display tab, st.createViewInContainer (some s) c i = some st1 ∧
      st.sessionMap.find? display = none ∧
      st1.sessionMap.find? display = some (some s) ∧
      (∀ v, v ≠ display → st1.sessionMap.find? v = st.sessionMap.find? v) ∧
      tab ∉ st.viewsOf c ∧
      st1.mtdOf tab = some (.Leaf display s) ∧
      st1.viewsOf c = qInsert (st.viewsOf c) i tab ∧
      (st1.viewsOf c).Perm (tab :: st.viewsOf c) ∧
      (i < 0 → st1.viewsOf c = st.viewsOf c ++ [tab]) ∧
      (0 ≤ i → i ≤ (st.viewsOf c).length → (st1.viewsOf c)[i.toNat]? = some tab) ∧
      (∀ c1, c1 ≠ c → st1.viewsOf c1 = st.viewsOf c1) := by
  obtain ⟨cont, hcont⟩ := Option.isSome_iff_exists.mp hc
  obtain ⟨st1, sp1, h, _, _, _, hmap, htrees, _, hviews, _⟩ :=
    ViewManager.createViewInContainer_total st s c i sp cont hsp hcont
  have hvc : st.viewsOf c = cont.views := by simp [ViewManager.viewsOf, hcont]
  have hv1 : st1.viewsOf c = qInsert (st.viewsOf c) i (st.nextPtr + 1) := by
    rw [hviews c, if_pos rfl, hvc]
  refine ⟨st1, st.nextPtr, st.nextPtr + 1, h, ?_, ?_, ?_, ?_, ?_, hv1,
    hv1 ▸ ViewManager.qInsert_perm _ _ _, ?_, ?_, ?_⟩
  · exact ViewManager.find?_eq_none_of_fresh hfresh (le_refl _)
  · rw [hmap, SessionMap.find?_insert, if_pos rfl]
  · intro v hv
    rw [hmap, SessionMap.find?_insert, if_neg hv]
  · intro hmem
    have := ViewManager.viewsOf_lt_of_fresh hfresh c _ hmem
    omega
  · unfold ViewManager.mtdOf
    rw [htrees]
    apply ViewManager.lookup_append_of_fresh
    intro e he heq
    have := (hfresh.2.2 e he).1
    omega
  · intro hi
    rw [hv1]; simp [qInsert, hi]
  · intro h0 h1
    rw [hv1]
    exact ViewManager.qInsert_getElem? _ _ _ h0 h1
  · intro c1 hc1
    rw [hviews c1, if_neg hc1]

/-- C8 (as stated) fails: container 1 of `exampleWindow` has two tabs, and
`createView(52, 1, 5)` puts the new tab at position 2; there is no tab at
position 5. -/
theorem createViewInContainer_counterexample :
    ∃ st1, exampleWindow.createViewInContainer (some 52) 1 5 = some st1 ∧
      exampleWindow.viewsOf 1 = [3, 6] ∧
      st1.viewsOf 1 = [3, 6, 9] ∧
      (st1.viewsOf 1)[5]? = none :=
  ⟨_, rfl, by decide, by decide, by decide⟩

/-- The allocator of `exampleWindow` is ahead of its pointers. -/
theorem exampleWindow_fresh : exampleWindow.Fresh := by
  unfold ViewManager.Fresh
  decide

/-- The amended C8 at `exampleWindow`, session 52, container 1, index 1. -/
theorem createViewInContainer_adds_one_view_witness :
    ∃ st1 display tab, exampleWindow.createViewInContainer (some 52) 1 1 = some st1 ∧
      exampleWindow.sessionMap.find? display = none ∧
      st1.sessionMap.find? display = some (some 52) ∧
      (∀ v, v ≠ display → st1.sessionMap.find? v = exampleWindow.sessionMap.find? v) ∧
      tab ∉ exampleWindow.viewsOf 1 ∧
      st1.mtdOf tab = some (.Leaf display 52) ∧
      st1.viewsOf 1 = qInsert (exampleWindow.viewsOf 1) 1 tab ∧
      (st1.viewsOf 1).Perm (tab :: exampleWindow.viewsOf 1) ∧
      ((1 : Int) < 0 → st1.viewsOf 1 = exampleWindow.viewsOf 1 ++ [tab]) ∧
      ((0 : Int) ≤ 1 → (1 : Int) ≤ (exampleWindow.viewsOf 1).length →
        (st1.viewsOf 1)[(1 : Int).toNat]? = some tab) ∧
      (∀ c1, c1 ≠ 1 → st1.viewsOf c1 = exampleWindow.viewsOf c1) :=
  createViewInContainer_adds_one_view exampleWindow 52 1 1
    { containers := [1], activeContainerIndex := 0, focusProxy := some 2 } rfl (by decide)
    exampleWindow_fresh

/-- C10: for every non-null session `s`, with a live splitter and an
allocator ahead of the stored pointers, `createAndSetupTerminalDisplay(s)`
returns a view `v` that is fresh (no key of the map, no tab, no pane of any
tree); afterwards the map sends `v` to `s`, every other key has the entry it
had, and neither the containers (their tab lists) nor the pane trees nor the
splitter's list of containers has changed. -/
theorem createAndSetupTerminalDisplay_registers_view (st : ViewManager) (s : Nat)
    (sp : ViewSplitter) (hsp : st.viewSplitter = some sp) (hfresh : st.Fresh) :
    ∃ v st1, st.createAndSetupTerminalDisplay (some s) = some (some v, st1) ∧
      st.sessionMap.find? v = none ∧
      (∀ c ∈ st.containers, v ∉ c.views) ∧
      (∀ e ∈ st.mtdTrees, v ≠ e.1 ∧ v ∉ e.2.leaves) ∧
      st1.sessionMap.find? v = some (some s) ∧
      (∀ k, k ≠ v → st1.sessionMap.find? k = st.sessionMap.find? k) ∧
      st1.containers = st.containers ∧
      st1.mtdTrees = st.mtdTrees ∧
      (∃ sp1, st1.viewSplitter = some sp1 ∧ sp1.containers = sp.containers) := by
  unfold ViewManager.createAndSetupTerminalDisplay
  simp only [Option.bind_eq_bind, Option.some_bind, ViewManager.createTerminalDisplay,
    ViewManager.applyProfileToView, ViewManager.emit]
  obtain ⟨fp, p, e, hctl⟩ := ViewManager.createController_total
    { st with
      nextPtr := st.nextPtr + 1
      terminalDisplays := st.terminalDisplays ++ [st.nextPtr]
      emitted := st.emitted ++ [.updateWindowIcon] } s st.nextPtr sp hsp
  simp only [hctl, Option.some_bind, ViewManager.sessionAddView]
  refine ⟨st.nextPtr, _, rfl, ?_, ?_, ?_, ?_, ?_, rfl, rfl, ⟨_, rfl, rfl⟩⟩
  · exact ViewManager.find?_eq_none_of_fresh hfresh (le_refl _)
  · intro c hc hmem
    have := (hfresh.2.1 c hc).2 _ hmem
    omega
  · intro e he
    have h1 := (hfresh.2.2 e he).1
    refine ⟨by omega, fun hmem => ?_⟩
    have := (hfresh.2.2 e he).2 _ hmem
    omega
  · show (st.sessionMap.insert st.nextPtr (some s)).find? st.nextPtr = _
    rw [SessionMap.find?_insert, if_pos rfl]
  · intro k hk
    show (st.sessionMap.insert st.nextPtr (some s)).find? k = _
    rw [SessionMap.find?_insert, if_neg hk]

/-- C10 at `exampleWindow` and session 52. -/
theorem createAndSetupTerminalDisplay_registers_view_witness :
    ∃ v st1, exampleWindow.createAndSetupTerminalDisplay (some 52) = some (some v, st1) ∧
      exampleWindow.sessionMap.find? v = none ∧
      (∀ c ∈ exampleWindow.containers, v ∉ c.views) ∧
      (∀ e ∈ exampleWindow.mtdTrees, v ≠ e.1 ∧ v ∉ e.2.leaves) ∧
      st1.sessionMap.find? v = some (some 52) ∧
      (∀ k, k ≠ v → st1.sessionMap.find? k = exampleWindow.sessionMap.find? k) ∧
      st1.containers = exampleWindow.containers ∧
      st1.mtdTrees = exampleWindow.mtdTrees ∧
      (∃ sp1, st1.viewSplitter = some sp1 ∧ sp1.containers = [1]) :=
  createAndSetupTerminalDisplay_registers_view exampleWindow 52
    { containers := [1], activeContainerIndex := 0, focusProxy := some 2 } rfl
    exampleWindow_fresh


/-! ## One view in every container -/

namespace ViewManager

theorem lookup_append_left {β : Type} (l l1 : List (Nat × β)) (k : Nat) (b : β)
    (h : List.lookup k l = some b) : List.lookup k (l ++ l1) = some b := by
  induction l with
  | nil => simp [List.lookup] at h
  | cons e es ih =>
    obtain ⟨a, x⟩ := e
    rw [List.cons_append, lookup_cons_ite]
    rw [lookup_cons_ite] at h
    by_cases hk : k = a
    · simpa [hk] using h
    · rw [if_neg hk] at h ⊢
      exact ih h

theorem newTabIndex_total (st : ViewManager) (sp : ViewSplitter)
    (hsp : st.viewSplitter = some sp)
    (hlive : ∀ c ∈ sp.containers, (st.findContainer c).isSome = true) :
    ∃ i, st.newTabIndex = some i := by
  unfold newTabIndex
  split
  · unfold activeView
    simp only [hsp, Option.bind_eq_bind, Option.some_bind]
    cases hac : sp.activeContainer with
    | none => exact ⟨-1, rfl⟩
    | some c =>
      have hmem : c ∈ sp.containers := by
        unfold ViewSplitter.activeContainer at hac
        exact List.getElem?_mem hac
      obtain ⟨cont, hcont⟩ := Option.isSome_iff_exists.mp (hlive c hmem)
      simp only [hcont, Option.some_bind, pure]
      cases cont.activeView with
      | none => exact ⟨-1, rfl⟩
      | some v => exact ⟨_, rfl⟩
  · exact ⟨-1, rfl⟩

/-- The tabs made by `k` rounds of the loop of `createView(session)` that
starts with the allocator at `n`. -/
theorem createViewLoop_total (s : Nat) (i : Int) (l : List Nat) :
    ∀ (st : ViewManager) (sp : ViewSplitter), st.viewSplitter = some sp →
      (∀ c ∈ l, (st.findContainer c).isSome = true) → l.Nodup →
      ∃ st1 sp1, createViewLoop (some s) i st l = some st1 ∧
        st1.viewSplitter = some sp1 ∧ sp1.containers = sp.containers ∧
        (∀ v, st1.sessionMap.find? v =
          if (∃ j, j < l.length ∧ v = st.nextPtr + 3 * j) then some (some s)
          else st.sessionMap.find? v) ∧
        (∀ j c, l[j]? = some c →
          st1.viewsOf c = qInsert (st.viewsOf c) i (st.nextPtr + 3 * j + 1)) ∧
        (∀ c, c ∉ l → st1.viewsOf c = st.viewsOf c) ∧
        st1.mtdTrees = st.mtdTrees ++
          (List.range l.length).map
            (fun j => (st.nextPtr + 3 * j + 1, PaneTreeNode.Leaf (st.nextPtr + 3 * j) s)) := by
  induction l with
  | nil =>
    intro st sp hsp _ _
    refine ⟨st, sp, rfl, hsp, rfl, ?_, ?_, ?_, ?_⟩
    · intro v; simp
    · intro j c h; simp at h
    · intro c _; rfl
    · simp
  | cons c rest ih =>
    intro st sp hsp hlive hnd
    obtain ⟨cont, hcont⟩ := Option.isSome_iff_exists.mp (hlive c (List.mem_cons_self _ _))
    obtain ⟨sa, spa, ha, hspa, hca, _, hmapa, htra, hnxa, hva, hfa, _⟩ :=
      createViewInContainer_total st s c i sp cont hsp hcont
    have hcrest : c ∉ rest := (List.nodup_cons.mp hnd).1
    obtain ⟨st1, sp1, h1, hsp1, hc1, hmap1, hv1, hvo1, htr1⟩ := ih sa spa hspa
      (fun x hx => by rw [hfa x]; exact hlive x (List.mem_cons_of_mem _ hx))
      (List.nodup_cons.mp hnd).2
    have hvc : st.viewsOf c = cont.views := by simp [viewsOf, hcont]
    refine ⟨st1, sp1, ?_, hsp1, hc1.trans hca, ?_, ?_, ?_, ?_⟩
    · simp only [createViewLoop, Option.bind_eq_bind, ha, Option.some_bind]
      exact h1
    · intro v
      rw [hmap1 v, hnxa, hmapa, SessionMap.find?_insert]
      by_cases hv0 : v = st.nextPtr
      · subst hv0
        have : ∃ j, j < (c :: rest).length ∧ st.nextPtr = st.nextPtr + 3 * j :=
          ⟨0, by simp, by simp⟩
        rw [if_pos this]
        split <;> simp
      · by_cases hex : ∃ j, j < rest.length ∧ v = st.nextPtr + 3 + 3 * j
        · obtain ⟨j, hj, hv⟩ := hex
          rw [if_pos ⟨j, hj, hv⟩, if_pos ⟨j + 1, by simp; omega, by omega⟩]
        · rw [if_neg hex, if_neg hv0, if_neg]
          rintro ⟨j, hj, hv⟩
          cases j with
          | zero => exact hv0 (by simpa using hv)
          | succ j =>
            exact hex ⟨j, by simpa using hj, by omega⟩
    · intro j x hx
      cases j with
      | zero =>
        simp only [List.getElem?_cons_zero, Option.some.injEq] at hx
        subst hx
        rw [hvo1 _ hcrest, hva, if_pos rfl, hvc]
      | succ j =>
        simp only [List.getElem?_cons_succ] at hx
        have hxr : x ∈ rest := List.getElem?_mem hx
        have hxc : x ≠ c := fun h => hcrest (h ▸ hxr)
        rw [hv1 j x hx, hva, if_neg hxc, hnxa]
        congr 1
        omega
    · intro x hx
      have hxc : x ≠ c := fun h => hx (h ▸ List.mem_cons_self _ _)
      have hxr : x ∉ rest := fun h => hx (List.mem_cons_of_mem _ h)
      rw [hvo1 x hxr, hva, if_neg hxc]
    · rw [htr1, htra, hnxa, List.append_assoc]
      congr 1
      rw [List.length_cons, List.range_succ_eq_map, List.map_cons, List.map_map]
      simp only [List.singleton_append, Nat.mul_zero, Nat.add_zero, List.cons.injEq, true_and]
      apply List.map_congr_left
      intro j _
      simp only [Function.comp, Nat.succ_eq_add_one]
      refine Prod.ext ?_ ?_
      · show st.nextPtr + 3 + 3 * j + 1 = st.nextPtr + 3 * (j + 1) + 1
        omega
      · show PaneTreeNode.Leaf (st.nextPtr + 3 + 3 * j) s
          = PaneTreeNode.Leaf (st.nextPtr + 3 * (j + 1)) s
        congr 1
        omega

theorem lookup_range_fresh (T : List (Nat × PaneTreeNode)) (n s : Nat)
    (hT : ∀ e ∈ T, e.1 < n) (k : Nat) :
    ∀ j, j < k →
      List.lookup (n + 3 * j + 1)
        (T ++ (List.range k).map (fun j => (n + 3 * j + 1, PaneTreeNode.Leaf (n + 3 * j) s)))
        = some (PaneTreeNode.Leaf (n + 3 * j) s) := by
  induction k with
  | zero => intro j hj; omega
  | succ k ih =>
    intro j hj
    rw [List.range_succ, List.map_append, ← List.append_assoc]
    by_cases hjk : j < k
    · exact lookup_append_left _ _ _ _ (ih j hjk)
    · have hjk2 : j = k := by omega
      subst hjk2
      simp only [List.map_cons, List.map_nil]
      apply lookup_append_of_fresh
      intro e he
      rcases List.mem_append.mp he with h1 | h1
      · have := hT e h1; omega
      · obtain ⟨j1, hj1, rfl⟩ := List.mem_map.mp h1
        have := List.mem_range.mp hj1
        simp only
        omega

theorem qInsert_nil (i : Int) (w : Nat) : qInsert [] i w = [w] := by
  unfold qInsert
  split <;> simp

end ViewManager

/-- C9: for every session `s`, a live splitter whose containers are distinct
live objects, and an allocator ahead of the stored pointers.  When the
splitter holds `k ≥ 1` containers, `createView(s)` returns, keeps the list
of containers, and creates `k` pairwise distinct new views, one per
container: the container at position `j` gets exactly one new tab, whose
pane tree is the leaf of the `j`-th view, every new view is mapped to `s`,
and every other key of the map keeps its entry.  When the splitter holds no
container, one new container is created and put in the splitter, and
exactly one view is created, shown in the only tab of that container. -/
theorem createView_in_every_container (st : ViewManager) (s : Nat) (sp : ViewSplitter)
    (hsp : st.viewSplitter = some sp) (hnd : sp.containers.Nodup)
    (hlive : ∀ c ∈ sp.containers, (st.findContainer c).isSome = true)
    (hfresh : st.Fresh) :
    (1 ≤ sp.containers.length →
      ∃ (st1 : ViewManager) (i : Int) (displays tabs : List Nat),
        st.createView (some s) = some st1 ∧
        st1.viewSplitter.map (fun x => x.containers) = some sp.containers ∧
        displays.length = sp.containers.length ∧
        tabs.length = sp.containers.length ∧
        displays.Nodup ∧
        (∀ (j c : Nat), sp.containers[j]? = some c →
          ∃ (d t : Nat), displays[j]? = some d ∧ tabs[j]? = some t ∧
            t ∉ st.viewsOf c ∧
            st1.viewsOf c = qInsert (st.viewsOf c) i t ∧
            (st1.viewsOf c).Perm (t :: st.viewsOf c) ∧
            st1.mtdOf t = some (.Leaf d s)) ∧
        (∀ d ∈ displays,
          st.sessionMap.find? d = none ∧ st1.sessionMap.find? d = some (some s)) ∧
        (∀ v, v ∉ displays → st1.sessionMap.find? v = st.sessionMap.find? v)) ∧
    (sp.containers = [] →
      ∃ (st1 : ViewManager) (c d t : Nat),
        st.createView (some s) = some st1 ∧
        st.findContainer c = none ∧
        st1.viewSplitter.map (fun x => x.containers) = some [c] ∧
        st1.viewsOf c = [t] ∧
        st1.mtdOf t = some (.Leaf d s) ∧
        st.sessionMap.find? d = none ∧
        st1.sessionMap.find? d = some (some s) ∧
        (∀ v, v ≠ d → st1.sessionMap.find? v = st.sessionMap.find? v)) := by
  constructor
  · intro hk
    obtain ⟨i, hi⟩ := ViewManager.newTabIndex_total st sp hsp hlive
    obtain ⟨st1, sp1, h1, hsp1, hc1, hmap1, hv1, _, htr1⟩ :=
      ViewManager.createViewLoop_total s i sp.containers st sp hsp hlive hnd
    have hne : ¬ sp.containers.length = 0 := by omega
    refine ⟨st1, i, (List.range sp.containers.length).map (fun j => st.nextPtr + 3 * j),
      (List.range sp.containers.length).map (fun j => st.nextPtr + 3 * j + 1),
      ?_, ?_, by simp, by simp, ?_, ?_, ?_, ?_⟩
    · unfold ViewManager.createView
      simp only [hsp, Option.bind_eq_bind, Option.some_bind, hne, if_false, hi]
      exact h1
    · simp [hsp1, hc1]
    · apply List.Nodup.map _ (List.nodup_range _)
      intro a b hab
      simp only at hab
      omega
    · intro j c hjc
      have hj : j < sp.containers.length := by
        by_contra hcon
        rw [List.getElem?_eq_none (by omega)] at hjc
        cases hjc
      refine ⟨st.nextPtr + 3 * j, st.nextPtr + 3 * j + 1, by simp [hj], by simp [hj], ?_,
        hv1 j c hjc, hv1 j c hjc ▸ ViewManager.qInsert_perm _ _ _, ?_⟩
      · intro hmem
        have := ViewManager.viewsOf_lt_of_fresh hfresh c _ hmem
        omega
      · unfold ViewManager.mtdOf
        rw [htr1]
        exact ViewManager.lookup_range_fresh _ _ _ (fun e he => (hfresh.2.2 e he).1) _ j hj
    · intro d hd
      obtain ⟨j, hj, rfl⟩ := List.mem_map.mp hd
      have hj2 := List.mem_range.mp hj
      refine ⟨ViewManager.find?_eq_none_of_fresh hfresh (by omega), ?_⟩
      rw [hmap1, if_pos ⟨j, hj2, rfl⟩]
    · intro v hv
      rw [hmap1, if_neg]
      rintro ⟨j, hj, rfl⟩
      exact hv (List.mem_map.mpr ⟨j, List.mem_range.mpr hj, rfl⟩)
  · intro hnil
    have hfind0 : st.findContainer st.nextPtr = none := by
      unfold ViewManager.findContainer
      rw [List.find?_eq_none]
      intro x hx
      have := (hfresh.2.1 x hx).1
      simp only [beq_iff_eq]
      omega
    let sta : ViewManager :=
      { st with
        viewSplitter := some (sp.addContainer st.nextPtr .Vertical)
        containers := st.containers ++ [⟨st.nextPtr, [], none⟩]
        nextPtr := st.nextPtr + 1 }
    have hfa : sta.findContainer st.nextPtr = some ⟨st.nextPtr, [], none⟩ := by
      unfold ViewManager.findContainer at hfind0 ⊢
      show List.find? _ (st.containers ++ [_]) = _
      rw [List.find?_append, hfind0]
      simp
    have hspa : (sp.addContainer st.nextPtr Orientation.Vertical).containers = [st.nextPtr] := by
      simp [ViewSplitter.addContainer, hnil]
    have hlivea : ∀ c ∈ (sp.addContainer st.nextPtr Orientation.Vertical).containers,
        (sta.findContainer c).isSome = true := by
      intro c hc
      rw [hspa] at hc
      simp only [List.mem_singleton] at hc
      subst hc
      rw [hfa]; rfl
    obtain ⟨i, hi⟩ := ViewManager.newTabIndex_total sta _ rfl hlivea
    obtain ⟨st1, sp1, h1, hsp1, hc1, hmap1, hv1, _, htr1⟩ :=
      ViewManager.createViewLoop_total s i [st.nextPtr] sta _ rfl
        (by rw [← hspa]; exact hlivea) (by simp)
    refine ⟨st1, st.nextPtr, st.nextPtr + 1, st.nextPtr + 2, ?_, hfind0, ?_, ?_, ?_, ?_, ?_, ?_⟩
    · unfold ViewManager.createView
      simp only [hsp, Option.bind_eq_bind, Option.some_bind, hnil, List.length_nil, if_true,
        ViewManager.createContainer]
      rw [show ViewManager.newTabIndex _ = some i from hi]
      simp only [Option.some_bind]
      rw [hspa]
      exact h1
    · simp [hsp1, hc1, hspa]
    · have := hv1 0 st.nextPtr rfl
      rw [this]
      have hv0 : sta.viewsOf st.nextPtr = [] := by
        simp [ViewManager.viewsOf, hfa]
      rw [hv0, ViewManager.qInsert_nil]
    · unfold ViewManager.mtdOf
      rw [htr1]
      have := ViewManager.lookup_range_fresh st.mtdTrees (st.nextPtr + 1) s
        (fun e he => by have := (hfresh.2.2 e he).1; omega) 1 0 (by omega)
      simpa using this
    · exact ViewManager.find?_eq_none_of_fresh hfresh (by omega)
    · rw [hmap1, if_pos ⟨0, by simp, rfl⟩]
    · intro v hv
      rw [hmap1, if_neg]
      rintro ⟨j, hj, rfl⟩
      simp only [List.length_singleton, Nat.lt_one_iff] at hj
      subst hj
      exact hv rfl

/-- The allocator of `exampleSplit` is ahead of its pointers. -/
theorem exampleSplit_fresh : exampleSplit.Fresh := by
  unfold ViewManager.Fresh
  decide

/-- The allocator of a new manager is ahead of its pointers: it stores none. -/
theorem new_fresh (enableDetaching : Bool) (defaultProfile nextPtr : Nat) :
    (ViewManager.new enableDetaching defaultProfile nextPtr).Fresh := by
  unfold ViewManager.Fresh ViewManager.new SessionMap.keys
  simp

/-- C9 at `exampleSplit` (two containers) and at a new manager (none), for
session 52. -/
theorem createView_in_every_container_witness :
    (∃ (st1 : ViewManager) (i : Int) (displays tabs : List Nat),
        exampleSplit.createView (some 52) = some st1 ∧
        st1.viewSplitter.map (fun x => x.containers) = some [1, 5] ∧
        displays.length = 2 ∧
        tabs.length = 2 ∧
        displays.Nodup ∧
        (∀ (j c : Nat), [1, 5][j]? = some c →
          ∃ (d t : Nat), displays[j]? = some d ∧ tabs[j]? = some t ∧
            t ∉ exampleSplit.viewsOf c ∧
            st1.viewsOf c = qInsert (exampleSplit.viewsOf c) i t ∧
            (st1.viewsOf c).Perm (t :: exampleSplit.viewsOf c) ∧
            st1.mtdOf t = some (.Leaf d 52)) ∧
        (∀ d ∈ displays,
          exampleSplit.sessionMap.find? d = none ∧
            st1.sessionMap.find? d = some (some 52)) ∧
        (∀ v, v ∉ displays → st1.sessionMap.find? v = exampleSplit.sessionMap.find? v)) ∧
    (∃ (st1 : ViewManager) (c d t : Nat),
        (ViewManager.new true 0 1).createView (some 52) = some st1 ∧
        (ViewManager.new true 0 1).findContainer c = none ∧
        st1.viewSplitter.map (fun x => x.containers) = some [c] ∧
        st1.viewsOf c = [t] ∧
        st1.mtdOf t = some (.Leaf d 52) ∧
        (ViewManager.new true 0 1).sessionMap.find? d = none ∧
        st1.sessionMap.find? d = some (some 52) ∧
        (∀ v, v ≠ d → st1.sessionMap.find? v = (ViewManager.new true 0 1).sessionMap.find? v)) :=
  ⟨(createView_in_every_container exampleSplit 52
      { containers := [1, 5], activeContainerIndex := 1, focusProxy := some 2 } rfl
      (by decide) (by decide) exampleSplit_fresh).1 (by decide),
   (createView_in_every_container (ViewManager.new true 0 1) 52
      { containers := [], activeContainerIndex := 0, focusProxy := none } rfl
      (by decide) (by decide) (new_fresh true 0 1)).2 rfl⟩

/-! ## Detaching a tab -/

/-- C13: with detaching disabled by configuration, `detachView` returns the
state it was given, for every container and view: the map, the tabs of every
container and the emitted signals are those of before. -/
theorem detachView_disabled (st : ViewManager) (container : Nat) (widgetView : Option Nat)
    (h : st.enableDetaching = false) :
    st.detachView container widgetView = some st := by
  simp [ViewManager.detachView, h]

/-- C13 at `exampleWindow` built without detaching, for its tab 3. -/
theorem detachView_disabled_witness :
    ({ exampleWindow with enableDetaching := false } : ViewManager).detachView 1 (some 3)
      = some { exampleWindow with enableDetaching := false } :=
  detachView_disabled { exampleWindow with enableDetaching := false } 1 (some 3) rfl

namespace ViewManager

/-- The loop of `detachView` over distinct displays: what it emits, what it
leaves in the map, and nothing else. -/
theorem detachViewLoop_spec (l : List Nat) :
    ∀ st : ViewManager, l.Nodup →
      (detachViewLoop st l).emitted
        = st.emitted ++ l.map (fun td => Signal.viewDetached (st.sessionMap.value td)) ∧
      (∀ v, (detachViewLoop st l).sessionMap.find? v
        = if v ∈ l then none else st.sessionMap.find? v) ∧
      (detachViewLoop st l).containers = st.containers ∧
      (detachViewLoop st l).viewSplitter = st.viewSplitter ∧
      (detachViewLoop st l).deleteLater = st.deleteLater ∧
      (detachViewLoop st l).mtdTrees = st.mtdTrees := by
  induction l with
  | nil => intro st _; simp [detachViewLoop]
  | cons td rest ih =>
    intro st hnd
    have htd : td ∉ rest := (List.nodup_cons.mp hnd).1
    obtain ⟨he, hm, hc, hs, hd, ht⟩ := ih
      (emit { st with sessionMap := (st.sessionMap.index td).2.remove td }
        (.viewDetached (st.sessionMap.index td).1)) (List.nodup_cons.mp hnd).2
    simp only [detachViewLoop]
    refine ⟨?_, ?_, hc, hs, hd, ht⟩
    · rw [he]
      simp only [emit, List.map_cons, List.append_assoc, List.singleton_append,
        SessionMap.index_fst]
      congr 2
      apply List.map_congr_left
      intro x hx
      have hxt : x ≠ td := fun h => htd (h ▸ hx)
      simp only [SessionMap.value, emit, SessionMap.find?_index_remove, if_neg hxt]
    · intro v
      rw [hm v]
      simp only [emit, SessionMap.find?_index_remove, List.mem_cons]
      by_cases hvt : v = td
      · subst hvt; simp
      · by_cases hvr : v ∈ rest <;> simp [hvt, hvr]

end ViewManager

/-- C14: with detaching enabled, `detachView(container, view)` of a tab of
the container that is a pane tree emits `viewDetached` once for each terminal
display of the tab (the distinct leaves of its tree), each with the session
the map held for that display, removes exactly those displays from the map,
and removes the tab from the container, whose other tabs and the tabs of the
other containers stay. -/
theorem detachView_detaches_tab (st : ViewManager) (container view : Nat)
    (sp : ViewSplitter) (tree : PaneTreeNode)
    (hen : st.enableDetaching = true) (hsp : st.viewSplitter = some sp)
    (hc : (st.findContainer container).isSome = true)
    (htab : view ∈ st.viewsOf container) (htree : st.mtdOf view = some tree) :
    ∃ (st1 : ViewManager) (tds : List Nat),
      st.detachView container (some view) = some st1 ∧
      tds.Nodup ∧ (∀ td, td ∈ tds ↔ td ∈ tree.leaves) ∧
      st1.emitted = st.emitted ++
        tds.map (fun td => Signal.viewDetached (st.sessionMap.value td)) ∧
      (∀ v, st1.sessionMap.find? v
        = if v ∈ tree.leaves then none else st.sessionMap.find? v) ∧
      st1.viewsOf container = (st.viewsOf container).filter (fun w => w != view) ∧
      view ∉ st1.viewsOf container ∧
      (∀ c1, c1 ≠ container → st1.viewsOf c1 = st.viewsOf c1) := by
  obtain ⟨cont, hcont⟩ := Option.isSome_iff_exists.mp hc
  have hnd : (ViewManager.getTerminalDisplaysOfContainer tree).Nodup := by
    unfold ViewManager.getTerminalDisplaysOfContainer; exact List.nodup_dedup _
  obtain ⟨he, hm, hcs, hs, _, _⟩ :=
    ViewManager.detachViewLoop_spec (ViewManager.getTerminalDisplaysOfContainer tree) st hnd
  have hcont1 : (ViewManager.detachViewLoop st
      (ViewManager.getTerminalDisplaysOfContainer tree)).findContainer container = some cont := by
    unfold ViewManager.findContainer at hcont ⊢
    rw [hcs]; exact hcont
  have hvc : st.viewsOf container = cont.views := by simp [ViewManager.viewsOf, hcont]
  have hg : ∀ x : ViewContainer,
      ((fun x : ViewContainer => if x.ptr = container then x.removeView view else x) x).ptr
        = x.ptr := by
    intro x
    dsimp only
    by_cases h : x.ptr = container <;> simp [h, ViewContainer.removeView]
  have hviews : ∀ (a : ViewManager), a.containers = st.containers.map
      (fun x : ViewContainer => if x.ptr = container then x.removeView view else x) →
      ∀ c1, a.viewsOf c1 = if c1 = container then
        (st.viewsOf container).filter (fun w => w != view) else st.viewsOf c1 := by
    intro a ha c1
    rw [ViewManager.viewsOf_of_containers a st _ hg ha c1]
    by_cases h1 : c1 = container
    · subst h1
      simp [hcont, ViewManager.findContainer_ptr hcont, ViewContainer.removeView, hvc]
    · cases hx : st.findContainer c1 with
      | none => simp [h1, ViewManager.viewsOf, hx]
      | some x =>
        have := ViewManager.findContainer_ptr hx
        simp [h1, ViewManager.viewsOf, hx, this]
  have hres : ∃ st1, st.detachView container (some view) = some st1 ∧
      st1.emitted = (ViewManager.detachViewLoop st
        (ViewManager.getTerminalDisplaysOfContainer tree)).emitted ∧
      st1.sessionMap = (ViewManager.detachViewLoop st
        (ViewManager.getTerminalDisplaysOfContainer tree)).sessionMap ∧
      st1.containers = st.containers.map
        (fun x : ViewContainer => if x.ptr = container then x.removeView view else x) := by
    unfold ViewManager.detachView
    simp only [hen, Bool.not_true, Bool.false_eq_true, if_false, Option.bind, htree,
      Option.map_some', Option.bind_eq_bind, hcont1, Option.some_bind,
      ViewManager.modifyContainer, hs, hsp, ViewManager.removeContainer, ite_self]
    exact ⟨_, rfl, rfl, rfl, by rw [hcs]⟩
  obtain ⟨st1, h1, hem, hmap, hcont2⟩ := hres
  refine ⟨st1, ViewManager.getTerminalDisplaysOfContainer tree, h1, hnd, ?_, ?_, ?_, ?_, ?_, ?_⟩
  · intro td
    unfold ViewManager.getTerminalDisplaysOfContainer
    exact List.mem_dedup
  · rw [hem, he]
  · intro v
    rw [hmap, hm v]
    have : v ∈ ViewManager.getTerminalDisplaysOfContainer tree ↔ v ∈ tree.leaves := by
      unfold ViewManager.getTerminalDisplaysOfContainer
      exact List.mem_dedup
    by_cases hv : v ∈ tree.leaves
    · rw [if_pos (this.mpr hv), if_pos hv]
    · rw [if_neg (fun h => hv (this.mp h)), if_neg hv]
  · rw [hviews st1 hcont2 container, if_pos rfl]
  · rw [hviews st1 hcont2 container, if_pos rfl]
    simp
  · intro c1 hc1
    rw [hviews st1 hcont2 c1, if_neg hc1]

/-- C14 at `exampleWindow`: detaching tab 3 of container 1. -/
theorem detachView_detaches_tab_witness :
    ∃ (st1 : ViewManager) (tds : List Nat),
      exampleWindow.detachView 1 (some 3) = some st1 ∧
      tds.Nodup ∧ (∀ td, td ∈ tds ↔ td ∈ (PaneTreeNode.Leaf 2 50).leaves) ∧
      st1.emitted = exampleWindow.emitted ++
        tds.map (fun td => Signal.viewDetached (exampleWindow.sessionMap.value td)) ∧
      (∀ v, st1.sessionMap.find? v
        = if v ∈ (PaneTreeNode.Leaf 2 50).leaves then none
          else exampleWindow.sessionMap.find? v) ∧
      st1.viewsOf 1 = (exampleWindow.viewsOf 1).filter (fun w => w != 3) ∧
      3 ∉ st1.viewsOf 1 ∧
      (∀ c1, c1 ≠ 1 → st1.viewsOf c1 = exampleWindow.viewsOf c1) :=
  detachView_detaches_tab exampleWindow 1 3
    { containers := [1], activeContainerIndex := 0, focusProxy := some 2 } (.Leaf 2 50)
    rfl rfl (by decide) (by decide) rfl

/-! ## Saving sessions -/

/-- State `exampleTwice` is reached from a new manager by two `createView`
of session 50. -/
theorem exampleTwice_reachable :
    run (ViewManager.new true 0 1) [.createView (some 50), .createView (some 50)]
      = some exampleTwice := rfl

/-- C15 at `exampleTwice`, where two tabs of the active container show
session 50: `saveSessions` writes restore ID 50 twice under `Sessions`. -/
theorem saveSessions_repeats_id :
    (exampleTwice.saveSessions exampleRestoreId ⟨none, none⟩).map (fun r => r.2.sessions)
      = some (some [50, 50]) := by
  decide

/-- C17 at `exampleWindow`, whose container has the active tab 6:
`saveSessions` writes `Sessions` and leaves `Active` unwritten. -/
theorem saveSessions_writes_no_active :
    exampleWindow.containers.map (fun c => c.activeView) = [some 6] ∧
    (exampleWindow.saveSessions exampleRestoreId ⟨none, none⟩).map (fun r => r.2)
      = some ⟨some [50, 51], none⟩ := by
  decide

namespace ViewManager

/-- Indexing the map at a key it holds reads the value and changes nothing. -/
theorem index_of_contains {m : SessionMap} {v : Nat} (h : m.contains v = true) :
    m.index v = (m.value v, m) := by
  obtain ⟨x, hx⟩ : ∃ x, m.find? v = some x := by
    simpa [SessionMap.contains, Option.isSome_iff_exists] using h
  simp [SessionMap.index, SessionMap.value, hx]

/-- The first loop of `saveSessions` over displays that all have an entry. -/
theorem saveSessionsViews_spec (gri : Option Nat → Int) (av : Option Nat) (m : SessionMap)
    (tds : List Nat) :
    (∀ v ∈ tds, m.contains v = true) →
    ∀ (ids : List Int) (unique : List (Option Nat)) (group : KConfigGroup) (tab : Int),
      ∃ g1 : KConfigGroup,
        saveSessionsViews gri av m ids unique group tab tds
          = (m, ids ++ tds.map (fun v => gri (m.value v)),
              unique ++ tds.map (fun v => m.value v), g1) ∧
        g1.sessions = group.sessions := by
  induction tds with
  | nil => intro _ ids unique group tab; exact ⟨group, by simp [saveSessionsViews], rfl⟩
  | cons v rest ih =>
    intro hall ids unique group tab
    have hv := index_of_contains (hall v (List.mem_cons_self _ _))
    simp only [saveSessionsViews, hv]
    obtain ⟨g1, h1, h2⟩ := ih (fun x hx => hall x (List.mem_cons_of_mem _ hx))
      (ids ++ [gri (m.value v)]) (unique ++ [m.value v])
      (if some v = av then { group with active := some tab } else group) (tab + 1)
    refine ⟨g1, ?_, ?_⟩
    · rw [h1]; simp
    · rw [h2]; split <;> rfl

/-- The second loop of `saveSessions`: the sessions it adds. -/
theorem saveSessionsOthers_spec (gri : Option Nat → Int) (vals : List (Option Nat)) :
    ∀ (ids : List Int) (unique : List (Option Nat)),
      ∃ others : List (Option Nat),
        saveSessionsOthers gri ids unique vals = ids ++ others.map gri ∧
        others.Nodup ∧
        ∀ s, s ∈ others ↔ s ∈ vals ∧ s ∉ unique := by
  induction vals with
  | nil => intro ids unique; exact ⟨[], by simp [saveSessionsOthers], List.nodup_nil, by simp⟩
  | cons x rest ih =>
    intro ids unique
    simp only [saveSessionsOthers]
    by_cases hx : x ∈ unique
    · obtain ⟨others, h1, h2, h3⟩ := ih ids unique
      refine ⟨others, by rw [if_pos hx]; exact h1, h2, ?_⟩
      intro s
      rw [h3 s]
      constructor
      · rintro ⟨h, hn⟩; exact ⟨List.mem_cons_of_mem _ h, hn⟩
      · rintro ⟨h, hn⟩
        rcases List.mem_cons.mp h with rfl | h
        · exact absurd hx hn
        · exact ⟨h, hn⟩
    · obtain ⟨others, h1, h2, h3⟩ := ih (ids ++ [gri x]) (unique ++ [x])
      refine ⟨x :: others, by rw [if_neg hx, h1]; simp, ?_, ?_⟩
      · refine List.nodup_cons.mpr ⟨?_, h2⟩
        intro hmem
        have := ((h3 x).mp hmem).2
        simp at this
      · intro s
        rw [List.mem_cons, h3 s]
        constructor
        · rintro (rfl | ⟨h, hn⟩)
          · exact ⟨List.mem_cons_self _ _, hx⟩
          · exact ⟨List.mem_cons_of_mem _ h, fun hh => hn (List.mem_append_left _ hh)⟩
        · rintro ⟨h, hn⟩
          by_cases hsx : s = x
          · exact Or.inl hsx
          · right
            rcases List.mem_cons.mp h with rfl | h
            · exact absurd rfl hsx
            · refine ⟨h, ?_⟩
              intro hh
              rcases List.mem_append.mp hh with hh | hh
              · exact hn hh
              · simp at hh; exact hsx hh

end ViewManager

/-- C16: when every display of the active container has an entry in the
view/session map, the list `saveSessions` writes under `Sessions` starts with
the restore IDs of the sessions shown in the active container, display by
display in the order of its tabs, and goes on with the restore ID of every
other session of the map, each once. -/
theorem saveSessions_active_container_first (st : ViewManager) (getRestoreId : Option Nat → Int)
    (group : KConfigGroup) (sp : ViewSplitter) (c : Nat)
    (hsp : st.viewSplitter = some sp) (hac : sp.activeContainer = some c)
    (hc : (st.findContainer c).isSome = true)
    (hall : ∀ v ∈ st.getTerminalDisplays, st.sessionMap.contains v = true) :
    ∃ (st1 : ViewManager) (g1 : KConfigGroup) (others : List (Option Nat)),
      st.saveSessions getRestoreId group = some (st1, g1) ∧
      st.getTerminalDisplays = (st.viewsOf c).flatMap st.tabDisplays ∧
      g1.sessions = some
        (st.getTerminalDisplays.map (fun v => getRestoreId (st.sessionMap.value v))
          ++ others.map getRestoreId) ∧
      others.Nodup ∧
      (∀ s, s ∈ others ↔
        s ∈ st.sessionMap.entries.map Prod.snd ∧
        s ∉ st.getTerminalDisplays.map (fun v => st.sessionMap.value v)) ∧
      st1.sessionMap = st.sessionMap := by
  obtain ⟨cont, hcont⟩ := Option.isSome_iff_exists.mp hc
  obtain ⟨g1, h1, _⟩ := ViewManager.saveSessionsViews_spec getRestoreId
    (cont.activeView.filter (fun w => decide (w ∈ st.terminalDisplays))) st.sessionMap
    st.getTerminalDisplays hall [] [] group 1
  obtain ⟨others, h2, h3, h4⟩ := ViewManager.saveSessionsOthers_spec getRestoreId
    (st.sessionMap.entries.map Prod.snd)
    ([] ++ st.getTerminalDisplays.map (fun v => getRestoreId (st.sessionMap.value v)))
    ([] ++ st.getTerminalDisplays.map (fun v => st.sessionMap.value v))
  refine ⟨{ st with sessionMap := st.sessionMap },
    { g1 with sessions := some (ViewManager.saveSessionsOthers getRestoreId
        ([] ++ st.getTerminalDisplays.map (fun v => getRestoreId (st.sessionMap.value v)))
        ([] ++ st.getTerminalDisplays.map (fun v => st.sessionMap.value v))
        (st.sessionMap.entries.map Prod.snd)) }, others, ?_, ?_, ?_, h3, ?_, rfl⟩
  · unfold ViewManager.saveSessions ViewManager.saveSessionsWith
    simp only [hsp, hac, hcont, Option.bind_eq_bind, Option.some_bind, h1]
  · simp [ViewManager.getTerminalDisplays, hsp, hac]
  · simp only [List.nil_append] at h2
    simp only [List.nil_append, h2]
  · intro s
    rw [h4 s]
    simp

/-- C16 at `exampleWindow`, whose active container shows sessions 50 and 51. -/
theorem saveSessions_active_container_first_witness :
    ∃ (st1 : ViewManager) (g1 : KConfigGroup) (others : List (Option Nat)),
      exampleWindow.saveSessions exampleRestoreId ⟨none, none⟩ = some (st1, g1) ∧
      exampleWindow.getTerminalDisplays
        = (exampleWindow.viewsOf 1).flatMap exampleWindow.tabDisplays ∧
      g1.sessions = some
        (exampleWindow.getTerminalDisplays.map
            (fun v => exampleRestoreId (exampleWindow.sessionMap.value v))
          ++ others.map exampleRestoreId) ∧
      others.Nodup ∧
      (∀ s, s ∈ others ↔
        s ∈ exampleWindow.sessionMap.entries.map Prod.snd ∧
        s ∉ exampleWindow.getTerminalDisplays.map (fun v => exampleWindow.sessionMap.value v)) ∧
      st1.sessionMap = exampleWindow.sessionMap :=
  saveSessions_active_container_first exampleWindow exampleRestoreId ⟨none, none⟩
    ⟨[1], 0, some 2⟩ 1 rfl rfl (by decide) (by decide)

/-! ## Restoring sessions -/

/-- State `exampleEmptySplit` is reached from a new manager by `createView`,
`detachView` of the tab and `splitView`. -/
theorem exampleEmptySplit_reachable :
    run (ViewManager.new true 0 1)
        [.createView (some 50), .detachView 1 (some 3), .splitView .Horizontal]
      = some exampleEmptySplit := rfl

/-- C18 at `exampleOne` with IDs 50 and 3, of which `exampleIdToSession`
resolves only 50: `restoreSessions` has no result, the null session of ID 3
being dereferenced. -/
theorem restoreSessions_unresolved_id :
    (exampleOne.restoreSessions exampleIdToSession ⟨some [50, 3], some 1⟩).isNone = true := by
  decide

/-- C19 at a new manager with the one ID 3, which `exampleIdToSession` does
not resolve: `restoreSessions` has no result and makes no default session. -/
theorem restoreSessions_all_unresolved :
    ((ViewManager.new true 0 1).restoreSessions exampleIdToSession ⟨some [3], some 0⟩).isNone
      = true := by
  decide

namespace ViewManager

/-- The method `updateDetachViewState()` leaves the record of the sessions'
profiles as it is. -/
theorem updateDetachViewState_registry {st st1 : ViewManager}
    (h : st.updateDetachViewState = some st1) : st1.sessionProfiles = st.sessionProfiles := by
  obtain ⟨ac, rfl⟩ := updateDetachViewState_eq h
  rfl

/-- The method `controllerChanged(controller)` leaves the record of the
sessions' profiles as it is. -/
theorem controllerChanged_registry {st st1 : ViewManager} {c : Nat}
    (h : st.controllerChanged c = some st1) : st1.sessionProfiles = st.sessionProfiles := by
  unfold controllerChanged at h
  split at h
  · cases h; rfl
  · simp only [Option.bind_eq_bind, Option.bind_eq_some] at h
    obtain ⟨sp, hsp, ctl, _, h⟩ := h
    cases h
    rfl

/-- The method `createController(session, view)` leaves the record of the
sessions' profiles as it is. -/
theorem createController_registry {st st1 : ViewManager} {s v c : Nat}
    (h : st.createController s v = some (c, st1)) :
    st1.sessionProfiles = st.sessionProfiles := by
  unfold createController at h
  simp only at h
  split at h
  · simp only [Option.map_eq_some'] at h
    obtain ⟨st2, h2, h3⟩ := h
    cases h3
    exact (controllerChanged_registry h2).trans rfl
  · cases h; rfl

/-- The method `createTerminalDisplay(session)` leaves the record of the
sessions' profiles as it is. -/
theorem createTerminalDisplay_registry {st st1 : ViewManager} {s : Option Nat} {d : Nat}
    (h : st.createTerminalDisplay s = some (d, st1)) :
    st1.sessionProfiles = st.sessionProfiles := by
  unfold createTerminalDisplay at h
  simp only [Option.bind_eq_bind, Option.bind_eq_some] at h
  obtain ⟨_, _, h⟩ := h
  cases h; rfl

/-- The method `createView(session, container, index)` creates no session:
the record of the sessions' profiles is as before. -/
theorem createViewInContainer_registry {st st1 : ViewManager} {s : Option Nat} {c : Nat}
    {i : Int} (h : st.createViewInContainer s c i = some st1) :
    st1.sessionProfiles = st.sessionProfiles := by
  unfold createViewInContainer at h
  simp only [Option.bind_eq_bind, Option.bind_eq_some] at h
  obtain ⟨s0, _, ⟨d, sa⟩, h1, ⟨ctl, sb⟩, h2, cont, _, sp, hsp, h3⟩ := h
  rw [updateDetachViewState_registry h3]
  have hb : sb.sessionProfiles = st.sessionProfiles := by
    rw [createController_registry h2]
    show sa.sessionProfiles = _
    rw [createTerminalDisplay_registry h1]
    unfold connectFinished; split <;> rfl
  split
  · exact hb
  · exact hb

/-- The loop of `createView(session)` leaves the record of the sessions'
profiles as it is. -/
theorem createViewLoop_registry {s : Option Nat} {i : Int} (l : List Nat) :
    ∀ {st st1 : ViewManager}, createViewLoop s i st l = some st1 →
      st1.sessionProfiles = st.sessionProfiles := by
  induction l with
  | nil => intro st st1 h; simp only [createViewLoop] at h; cases h; rfl
  | cons c rest ih =>
    intro st st1 h
    simp only [createViewLoop, Option.bind_eq_bind, Option.bind_eq_some] at h
    obtain ⟨sa, h1, h2⟩ := h
    rw [ih h2, createViewInContainer_registry h1]

/-- The method `createView(session)` creates no session: the record of the
sessions' profiles is as before. -/
theorem createView_registry {st st1 : ViewManager} {s : Option Nat}
    (h : st.createView s = some st1) : st1.sessionProfiles = st.sessionProfiles := by
  unfold createView at h
  simp only [Option.bind_eq_bind, Option.bind_eq_some] at h
  obtain ⟨sp, hsp, i, _, sp1, hsp1, h⟩ := h
  rw [createViewLoop_registry _ h]
  split <;> rfl

/-- Running a session leaves the record of the sessions' profiles as it is. -/
theorem runIfNotRunning_registry (st : ViewManager) (s : Nat) :
    (st.runIfNotRunning s).sessionProfiles = st.sessionProfiles := by
  unfold runIfNotRunning; split <;> rfl

/-- On a splitter with at most one container and no tab, `createView(s)`
returns and leaves one container with one tab, the leaf of a view of `s`. -/
theorem createView_single (st : ViewManager) (s : Nat) (sp : ViewSplitter)
    (hsp : st.viewSplitter = some sp) (hlen : sp.containers.length ≤ 1)
    (hlive : ∀ c ∈ sp.containers, (st.findContainer c).isSome = true)
    (hempty : ∀ c ∈ sp.containers, st.viewsOf c = [])
    (hfresh : st.Fresh) :
    ∃ (st1 : ViewManager) (c d t : Nat),
      st.createView (some s) = some st1 ∧
      st1.viewSplitter.map (fun x => x.containers) = some [c] ∧
      st1.viewsOf c = [t] ∧
      st1.mtdOf t = some (.Leaf d s) ∧
      st1.sessionMap.find? d = some (some s) := by
  cases hcs : sp.containers with
  | nil =>
    have hfind0 : st.findContainer st.nextPtr = none := by
      unfold findContainer
      rw [List.find?_eq_none]
      intro x hx
      have := (hfresh.2.1 x hx).1
      simp only [beq_iff_eq]
      omega
    let sta : ViewManager :=
      { st with
        viewSplitter := some (sp.addContainer st.nextPtr .Vertical)
        containers := st.containers ++ [⟨st.nextPtr, [], none⟩]
        nextPtr := st.nextPtr + 1 }
    have hfa : sta.findContainer st.nextPtr = some ⟨st.nextPtr, [], none⟩ := by
      unfold findContainer at hfind0 ⊢
      show List.find? _ (st.containers ++ [_]) = _
      rw [List.find?_append, hfind0]
      simp
    have hspa : (sp.addContainer st.nextPtr Orientation.Vertical).containers = [st.nextPtr] := by
      simp [ViewSplitter.addContainer, hcs]
    have hlivea : ∀ c ∈ (sp.addContainer st.nextPtr Orientation.Vertical).containers,
        (sta.findContainer c).isSome = true := by
      intro c hc
      rw [hspa] at hc
      simp only [List.mem_singleton] at hc
      subst hc
      rw [hfa]; rfl
    obtain ⟨i, hi⟩ := newTabIndex_total sta _ rfl hlivea
    obtain ⟨st1, sp1, h1, hsp1, hc1, hmap1, hv1, _, htr1⟩ :=
      createViewLoop_total s i [st.nextPtr] sta _ rfl
        (by rw [← hspa]; exact hlivea) (by simp)
    refine ⟨st1, st.nextPtr, st.nextPtr + 1, st.nextPtr + 2, ?_, ?_, ?_, ?_, ?_⟩
    · unfold createView
      simp only [hsp, Option.bind_eq_bind, Option.some_bind, hcs, List.length_nil, if_true,
        createContainer]
      rw [show newTabIndex _ = some i from hi]
      simp only [Option.some_bind]
      rw [hspa]
      exact h1
    · simp [hsp1, hc1, hspa]
    · have := hv1 0 st.nextPtr rfl
      rw [this]
      have hv0 : sta.viewsOf st.nextPtr = [] := by
        simp [viewsOf, hfa]
      rw [hv0, qInsert_nil]
    · unfold mtdOf
      rw [htr1]
      have := lookup_range_fresh st.mtdTrees (st.nextPtr + 1) s
        (fun e he => by have := (hfresh.2.2 e he).1; omega) 1 0 (by omega)
      simpa using this
    · rw [hmap1, if_pos ⟨0, by simp, rfl⟩]
  | cons c rest =>
    have hrest : rest = [] := by
      rw [hcs] at hlen
      simp only [List.length_cons] at hlen
      exact List.length_eq_zero.mp (by omega)
    subst hrest
    obtain ⟨i, hi⟩ := newTabIndex_total st sp hsp hlive
    obtain ⟨st1, sp1, h1, hsp1, hc1, hmap1, hv1, _, htr1⟩ :=
      createViewLoop_total s i sp.containers st sp hsp hlive (by rw [hcs]; simp)
    refine ⟨st1, c, st.nextPtr, st.nextPtr + 1, ?_, ?_, ?_, ?_, ?_⟩
    · unfold createView
      simp only [hsp, Option.bind_eq_bind, Option.some_bind, hcs, List.length_singleton,
        Nat.succ_ne_zero, if_false, hi]
      rw [← hcs]
      exact h1
    · simp [hsp1, hc1, hcs]
    · have := hv1 0 c (by rw [hcs]; rfl)
      rw [this, hempty c (by rw [hcs]; simp), qInsert_nil]
    · unfold mtdOf
      rw [htr1, hcs]
      have := lookup_range_fresh st.mtdTrees st.nextPtr s
        (fun e he => (hfresh.2.2 e he).1) 1 0 (by omega)
      simpa using this
    · rw [hmap1, if_pos ⟨0, by rw [hcs]; simp, rfl⟩]

end ViewManager

/-- C20 as stated fails at `exampleEmptySplit`, a window without tabs whose
splitter holds the containers 1 and 5: `restoreSessions` with an empty
`Sessions` list and `Active = 0` leaves a tab in each of the two. -/
theorem restoreSessions_empty_counterexample :
    (∀ c ∈ [1, 5], exampleEmptySplit.viewsOf c = []) ∧
    exampleEmptySplit.viewSplitter.map (fun x => x.containers) = some [1, 5] ∧
    (exampleEmptySplit.restoreSessions exampleIdToSession ⟨some [], some 0⟩).map
      (fun st1 => (st1.viewSplitter.map (fun x => x.containers), st1.viewsOf 1, st1.viewsOf 5))
      = some (some [1, 5], [8], [11]) := by
  decide

/-- C20, amended: on a window with no tabs whose splitter holds at most one
container, `restoreSessions` with an empty `Sessions` list and `Active = 0`
returns and leaves one container with exactly one tab, the leaf of a view
mapped to a new session: its pointer is the one the allocator hands out
next, and the call added to the record of the sessions' profiles the one
entry that gives this session the default profile. -/
theorem restoreSessions_empty_gives_default_tab (st : ViewManager)
    (idToSession : Int → Option Nat) (sp : ViewSplitter)
    (hsp : st.viewSplitter = some sp) (hlen : sp.containers.length ≤ 1)
    (hlive : ∀ c ∈ sp.containers, (st.findContainer c).isSome = true)
    (hempty : ∀ c ∈ sp.containers, st.viewsOf c = [])
    (hfresh : st.Fresh) :
    ∃ (st1 : ViewManager) (c d t session : Nat),
      st.restoreSessions idToSession ⟨some [], some 0⟩ = some st1 ∧
      st1.viewSplitter.map (fun x => x.containers) = some [c] ∧
      st1.viewsOf c = [t] ∧
      st1.mtdOf t = some (.Leaf d session) ∧
      st1.sessionMap.find? d = some (some session) ∧
      session = st.nextPtr ∧
      st1.sessionProfiles = st.sessionProfiles ++ [(session, st.defaultProfile)] := by
  have hf : (st.createSession st.defaultProfile).2.Fresh := by
    obtain ⟨h1, h2, h3⟩ := hfresh
    refine ⟨fun k hk => Nat.lt_succ_of_lt (h1 k hk), fun c hc => ?_, fun e he => ?_⟩
    · exact ⟨Nat.lt_succ_of_lt (h2 c hc).1, fun w hw => Nat.lt_succ_of_lt ((h2 c hc).2 w hw)⟩
    · exact ⟨Nat.lt_succ_of_lt (h3 e he).1, fun v hv => Nat.lt_succ_of_lt ((h3 e he).2 v hv)⟩
  obtain ⟨st1, c, d, t, h1, h2, h3, h4, h5⟩ :=
    ViewManager.createView_single (st.createSession st.defaultProfile).2
      (st.createSession st.defaultProfile).1 sp hsp hlen hlive hempty hf
  refine ⟨st1.runIfNotRunning (st.createSession st.defaultProfile).1, c, d, t,
    (st.createSession st.defaultProfile).1, ?_, ?_, ?_, ?_, ?_, rfl, ?_⟩
  · simp only [ViewManager.restoreSessions, Option.getD_some, ViewManager.restoreSessionsLoop,
      Option.bind_eq_bind, Option.some_bind, ViewManager.restoreActiveView,
      ViewManager.restoreDefaultSession, List.isEmpty_nil, if_true]
    rw [h1]
    rfl
  · unfold ViewManager.runIfNotRunning; split <;> exact h2
  · unfold ViewManager.runIfNotRunning; split <;> exact h3
  · unfold ViewManager.runIfNotRunning; split <;> exact h4
  · unfold ViewManager.runIfNotRunning; split <;> exact h5
  · rw [ViewManager.runIfNotRunning_registry, ViewManager.createView_registry h1]
    rfl

/-- C20, amended, at a new manager whose default profile is the profile 7. -/
theorem restoreSessions_empty_gives_default_tab_witness :
    ∃ (st1 : ViewManager) (c d t session : Nat),
      (ViewManager.new true 7 1).restoreSessions exampleIdToSession ⟨some [], some 0⟩
        = some st1 ∧
      st1.viewSplitter.map (fun x => x.containers) = some [c] ∧
      st1.viewsOf c = [t] ∧
      st1.mtdOf t = some (.Leaf d session) ∧
      st1.sessionMap.find? d = some (some session) ∧
      session = (ViewManager.new true 7 1).nextPtr ∧
      st1.sessionProfiles
        = (ViewManager.new true 7 1).sessionProfiles
          ++ [(session, (ViewManager.new true 7 1).defaultProfile)] :=
  restoreSessions_empty_gives_default_tab (ViewManager.new true 7 1) exampleIdToSession
    { containers := [], activeContainerIndex := 0, focusProxy := none } rfl
    (by decide) (by decide) (by decide) (new_fresh true 7 1)

/-! ## Splitting the view -/

namespace ViewManager

/-- The empty step is quiet. -/
theorem quiet_refl (st : ViewManager) : st.Quiet st :=
  ⟨[], by simp, by simp⟩

/-- Quiet steps compose. -/
theorem quiet_trans {a b c : ViewManager} (h1 : a.Quiet b) (h2 : b.Quiet c) : a.Quiet c := by
  obtain ⟨n1, e1, q1⟩ := h1
  obtain ⟨n2, e2, q2⟩ := h2
  refine ⟨n1 ++ n2, by rw [e2, e1, List.append_assoc], fun b hb => ?_⟩
  rcases List.mem_append.mp hb with hb | hb
  · exact q1 b hb
  · exact q2 b hb

/-- A step that keeps the record is quiet. -/
theorem quiet_of_eq {a b : ViewManager} (h : b.emitted = a.emitted) : a.Quiet b :=
  ⟨[], by simp [h], by simp⟩

theorem controllerChanged_quiet {st st1 : ViewManager} {c : Nat}
    (h : st.controllerChanged c = some st1) : st.Quiet st1 := by
  unfold controllerChanged at h
  split at h
  · cases h; exact quiet_refl _
  · simp only [Option.bind_eq_bind, Option.bind_eq_some] at h
    obtain ⟨sp, hsp, ctl, _, h⟩ := h
    cases h
    exact ⟨[.activeViewChanged c], rfl, by simp⟩

theorem createController_quiet {st st1 : ViewManager} {s v c : Nat}
    (h : st.createController s v = some (c, st1)) : st.Quiet st1 := by
  unfold createController at h
  simp only at h
  split at h
  · simp only [Option.map_eq_some'] at h
    obtain ⟨st2, h2, h3⟩ := h
    cases h3
    exact quiet_trans (b := _) (by exact quiet_of_eq rfl) (controllerChanged_quiet h2)
  · cases h; exact quiet_of_eq rfl

theorem createTerminalDisplay_quiet {st st1 : ViewManager} {s : Option Nat} {d : Nat}
    (h : st.createTerminalDisplay s = some (d, st1)) : st.Quiet st1 := by
  unfold createTerminalDisplay at h
  simp only [Option.bind_eq_bind, Option.bind_eq_some] at h
  obtain ⟨_, _, h⟩ := h
  cases h; exact quiet_of_eq rfl

theorem createAndSetupTerminalDisplay_quiet {st st1 : ViewManager} {s : Option Nat}
    {d : Option Nat} (h : st.createAndSetupTerminalDisplay s = some (d, st1)) :
    st.Quiet st1 := by
  unfold createAndSetupTerminalDisplay at h
  split at h
  · cases h; exact quiet_refl _
  · simp only [Option.bind_eq_bind, Option.bind_eq_some] at h
    obtain ⟨⟨td, sa⟩, h1, ⟨c, sb⟩, h2, h3⟩ := h
    cases h3
    refine quiet_trans (createTerminalDisplay_quiet h1) ?_
    refine quiet_trans (⟨[.updateWindowIcon], rfl, by simp⟩ :
      sa.Quiet (applyProfileToView sa td)) ?_
    refine quiet_trans (createController_quiet h2) ?_
    exact quiet_of_eq rfl

mutual
theorem cloneTree_quiet : ∀ (t : PaneTreeNode) {st st1 : ViewManager} {t1 : PaneTreeNode},
    cloneTree st t = some (t1, st1) → st.Quiet st1
  | .Leaf v s, st, st1, t1, h => by
    unfold cloneTree at h
    split at h
    · next td sa heq =>
      cases h
      exact createAndSetupTerminalDisplay_quiet heq
    · cases h
  | .Split o cs f, st, st1, t1, h => by
    unfold cloneTree at h
    split at h
    · next cs1 sa heq =>
      cases h
      exact cloneTreeList_quiet cs heq
    · cases h
theorem cloneTreeList_quiet : ∀ (ts : List PaneTreeNode) {st st1 : ViewManager}
    {ts1 : List PaneTreeNode}, cloneTreeList st ts = some (ts1, st1) → st.Quiet st1
  | [], st, st1, ts1, h => by
    unfold cloneTreeList at h
    cases h; exact quiet_refl _
  | t :: ts, st, st1, ts1, h => by
    unfold cloneTreeList at h
    split at h
    · next c1 sa heq =>
      split at h
      · next cs1 sb heq2 =>
        cases h
        exact quiet_trans (cloneTree_quiet t heq) (cloneTreeList_quiet ts heq2)
      · cases h
    · cases h
end

theorem cloneMtd_quiet {st st1 : ViewManager} {m c : Nat}
    (h : st.cloneMtd m c = some st1) : st.Quiet st1 := by
  unfold cloneMtd at h
  simp only [Option.bind_eq_bind, Option.bind_eq_some] at h
  obtain ⟨tree, _, ⟨t1, sa⟩, h1, cont, _, h2⟩ := h
  cases h2
  exact quiet_trans (cloneTree_quiet tree h1) (quiet_of_eq rfl)

theorem splitViewLoop_quiet {c : Nat} (l : List Nat) :
    ∀ {st st1 : ViewManager} {b : Bool}, splitViewLoop c st l = some (b, st1) →
      st.Quiet st1 := by
  induction l with
  | nil => intro st st1 b h; simp only [splitViewLoop] at h; cases h; exact quiet_refl _
  | cons v rest ih =>
    intro st st1 b h
    simp only [splitViewLoop] at h
    split at h
    · cases h; exact quiet_refl _
    · simp only [Option.bind_eq_bind, Option.bind_eq_some] at h
      obtain ⟨sa, h1, h2⟩ := h
      exact quiet_trans (cloneMtd_quiet h1) (ih h2)

end ViewManager

/-- C12: whenever `splitView` returns, the signals it added to the record
hold `splitViewToggle(b)` only with `b` true exactly when the splitter holds
at least two containers after the split. -/
theorem splitView_toggle_value (st st1 : ViewManager) (o : Orientation)
    (h : st.splitView o = some st1) :
    ∃ (new : List Signal) (sp1 : ViewSplitter),
      st1.emitted = st.emitted ++ new ∧ st1.viewSplitter = some sp1 ∧
      ∀ b, Signal.splitViewToggle b ∈ new → (b = true ↔ 2 ≤ sp1.containers.length) := by
  unfold ViewManager.splitView at h
  simp only [Option.bind_eq_bind, Option.bind_eq_some] at h
  obtain ⟨sp, hsp, a, ha, ac, _, ⟨b, sa⟩, h1, h2⟩ := h
  obtain ⟨n1, e1, q1⟩ := ViewManager.splitViewLoop_quiet _ h1
  have e1 : sa.emitted = st.emitted ++ n1 := e1
  obtain ⟨spa, hspa, hpre⟩ := (ViewManager.splitViewLoop_extends _ h1).2 sp hsp
  have hlen : 1 ≤ spa.containers.length := by
    have h0 : sp.activeContainerIndex < sp.containers.length := by
      unfold ViewSplitter.activeContainer at ha
      exact (List.getElem?_eq_some_iff.mp ha).1
    have := hpre.length_le
    omega
  dsimp only at h2
  split at h2
  · cases h2
    exact ⟨n1, spa, e1, hspa, fun b hb => absurd hb (q1 b)⟩
  · simp only [Option.bind_eq_bind, Option.bind_eq_some] at h2
    obtain ⟨sp2, hsp2, sb, h3, av, _, h4⟩ := h2
    rw [hspa] at hsp2; cases hsp2
    obtain ⟨acoll, rfl⟩ := ViewManager.emitSplitViewToggle_eq h3
    have hl2 : 2 ≤ ((spa.addContainer st.createContainer.1 o).focusContainer
          st.createContainer.1).containers.length := by
      unfold ViewSplitter.focusContainer
      split <;> simp [ViewSplitter.addContainer] <;> omega
    have hmem : ∀ b0, Signal.splitViewToggle b0 ∈
        n1 ++ [Signal.splitViewToggle
          (decide ((spa.addContainer st.createContainer.1 o).containers.length > 0))] →
        b0 = true := by
      intro b0 hb0
      rcases List.mem_append.mp hb0 with hb0 | hb0
      · exact absurd hb0 (q1 b0)
      · simp only [List.mem_singleton, Signal.splitViewToggle.injEq] at hb0
        rw [hb0]
        simp [ViewSplitter.addContainer]
    split at h4 <;> cases h4
    · refine ⟨_, _, ?_, rfl, fun b0 hb0 => ⟨fun _ => hl2, fun _ => hmem b0 hb0⟩⟩
      simp only [e1, List.append_assoc]
    · refine ⟨_, _, ?_, rfl, fun b0 hb0 => ⟨fun _ => hl2, fun _ => hmem b0 hb0⟩⟩
      simp only [e1, List.append_assoc]

/-- C12 at `exampleOne`, which `splitView` takes to `exampleSplit`. -/
theorem splitView_toggle_value_witness :
    ∃ (new : List Signal) (sp1 : ViewSplitter),
      exampleSplit.emitted = exampleOne.emitted ++ new ∧ exampleSplit.viewSplitter = some sp1 ∧
      ∀ b, Signal.splitViewToggle b ∈ new → (b = true ↔ 2 ≤ sp1.containers.length) :=
  splitView_toggle_value exampleOne exampleSplit .Horizontal exampleOne_splitView

namespace ViewManager

/-- A state grows into itself. -/
theorem grows_refl (st : ViewManager) : st.Grows st :=
  ⟨rfl, rfl, Nat.le_refl _, fun _ _ => rfl, fun sp h => ⟨sp, h, rfl, rfl⟩⟩

/-- Growth composes. -/
theorem grows_trans {a b c : ViewManager} (h1 : a.Grows b) (h2 : b.Grows c) : a.Grows c := by
  obtain ⟨c1, t1, n1, m1, s1⟩ := h1
  obtain ⟨c2, t2, n2, m2, s2⟩ := h2
  refine ⟨c2.trans c1, t2.trans t1, Nat.le_trans n1 n2, fun k hk => ?_, fun sp h => ?_⟩
  · rw [m2 k (Nat.lt_of_lt_of_le hk n1), m1 k hk]
  · obtain ⟨spb, hb, e1, e2⟩ := s1 sp h
    obtain ⟨spc, hc, e3, e4⟩ := s2 spb hb
    exact ⟨spc, hc, e3.trans e1, e4.trans e2⟩

/-- With a live splitter `createAndSetupTerminalDisplay(session)` returns a
new display, registered in the map for the session. -/
theorem createAndSetupTerminalDisplay_total (st : ViewManager) (s : Nat) (sp : ViewSplitter)
    (hsp : st.viewSplitter = some sp) :
    ∃ st1, st.createAndSetupTerminalDisplay (some s) = some (some st.nextPtr, st1) ∧
      st.Grows st1 ∧ st.nextPtr < st1.nextPtr ∧
      st1.sessionMap.find? st.nextPtr = some (some s) := by
  let st2 : ViewManager := applyProfileToView
    { st with nextPtr := st.nextPtr + 1
              terminalDisplays := st.terminalDisplays ++ [st.nextPtr] } st.nextPtr
  obtain ⟨fp, p, e, hcc⟩ := createController_total st2 s st.nextPtr sp hsp
  let st3 : ViewManager :=
    { st2 with
      viewSplitter := some { sp with focusProxy := fp }
      controllers := st2.controllers ++ [⟨st2.nextPtr, s, st.nextPtr⟩]
      pluggedController := p
      emitted := e
      nextPtr := st2.nextPtr + 1 }
  refine ⟨sessionAddView
    { st3 with sessionMap := st3.sessionMap.insert st.nextPtr (some s) } s st.nextPtr,
    ?_, ?_, ?_, ?_⟩
  · unfold createAndSetupTerminalDisplay
    simp only [createTerminalDisplay, Option.bind_eq_bind, Option.some_bind]
    rw [show createController (applyProfileToView _ st.nextPtr) s st.nextPtr = _ from hcc]
    rfl
  · refine ⟨rfl, rfl, ?_, fun k hk => ?_, fun sp0 h0 => ?_⟩
    · show st.nextPtr ≤ st.nextPtr + 1 + 1
      omega
    · show (st.sessionMap.insert st.nextPtr (some s)).find? k = _
      rw [SessionMap.find?_insert, if_neg (by omega)]
    · rw [hsp] at h0; cases h0
      exact ⟨_, rfl, rfl, rfl⟩
  · show st.nextPtr < st.nextPtr + 1 + 1
    omega
  · show (st.sessionMap.insert st.nextPtr (some s)).find? st.nextPtr = _
    rw [SessionMap.find?_insert, if_pos rfl]

/-! The copies made by `cloneTree`: same arrangement, new displays mapped to
the same sessions. -/
mutual
theorem cloneTree_total : ∀ (t : PaneTreeNode) (st : ViewManager) (sp : ViewSplitter),
    st.viewSplitter = some sp →
    ∃ t1 st1, cloneTree st t = some (t1, st1) ∧ st.Grows st1 ∧
      t1.shape = t.shape ∧
      (∀ d ∈ t1.leaves, st.nextPtr ≤ d ∧ d < st1.nextPtr) ∧
      t1.leaves.map (fun d => st1.sessionMap.find? d)
        = t.sessions.map (fun s => some (some s))
  | .Leaf v s, st, sp, hsp => by
    obtain ⟨st1, h1, hg, hn, hm⟩ := createAndSetupTerminalDisplay_total st s sp hsp
    refine ⟨.Leaf st.nextPtr s, st1, ?_, hg, ?_, ?_, ?_⟩
    · unfold cloneTree
      rw [h1]
    · simp [PaneTreeNode.shape]
    · intro d hd
      simp only [PaneTreeNode.leaves, List.mem_singleton] at hd
      omega
    · simp [PaneTreeNode.leaves, PaneTreeNode.sessions, hm]
  | .Split o cs f, st, sp, hsp => by
    obtain ⟨cs1, st1, h1, hg, hs, hl, hm⟩ := cloneTreeList_total cs st sp hsp
    refine ⟨.Split o cs1 f, st1, ?_, hg, ?_, ?_, ?_⟩
    · unfold cloneTree
      rw [h1]
    · simp [PaneTreeNode.shape, hs]
    · simpa [PaneTreeNode.leaves] using hl
    · simpa [PaneTreeNode.leaves, PaneTreeNode.sessions] using hm
theorem cloneTreeList_total : ∀ (ts : List PaneTreeNode) (st : ViewManager)
    (sp : ViewSplitter), st.viewSplitter = some sp →
    ∃ ts1 st1, cloneTreeList st ts = some (ts1, st1) ∧ st.Grows st1 ∧
      PaneTreeNode.shapeOfList ts1 = PaneTreeNode.shapeOfList ts ∧
      (∀ d ∈ PaneTreeNode.leavesOfList ts1, st.nextPtr ≤ d ∧ d < st1.nextPtr) ∧
      (PaneTreeNode.leavesOfList ts1).map (fun d => st1.sessionMap.find? d)
        = (PaneTreeNode.sessionsOfList ts).map (fun s => some (some s))
  | [], st, sp, hsp => by
    refine ⟨[], st, ?_, grows_refl _, rfl, ?_, ?_⟩
    · unfold cloneTreeList; rfl
    · intro d hd; simp [PaneTreeNode.leavesOfList] at hd
    · simp [PaneTreeNode.leavesOfList, PaneTreeNode.sessionsOfList]
  | t :: ts, st, sp, hsp => by
    obtain ⟨t1, sa, h1, hg1, hs1, hl1, hm1⟩ := cloneTree_total t st sp hsp
    obtain ⟨spa, hspa, _, _⟩ := hg1.2.2.2.2 sp hsp
    obtain ⟨ts1, sb, h2, hg2, hs2, hl2, hm2⟩ := cloneTreeList_total ts sa spa hspa
    refine ⟨t1 :: ts1, sb, ?_, grows_trans hg1 hg2, ?_, ?_, ?_⟩
    · unfold cloneTreeList
      rw [h1]
      simp only [h2]
    · simp [PaneTreeNode.shapeOfList, hs1, hs2]
    · intro d hd
      simp only [PaneTreeNode.leavesOfList, List.mem_append] at hd
      have n1 := hg1.2.2.1
      have n2 := hg2.2.2.1
      rcases hd with hd | hd
      · have := hl1 d hd
        omega
      · have := hl2 d hd
        omega
    · simp only [PaneTreeNode.leavesOfList, PaneTreeNode.sessionsOfList, List.map_append]
      rw [← hm1, ← hm2]
      congr 1
      apply List.map_congr_left
      intro d hd
      exact hg2.2.2.2.1 d (hl1 d hd).2
end


/-- Index `-1` appends the tab. -/
theorem qInsert_append (l : List Nat) (w : Nat) : qInsert l (-1) w = l ++ [w] := by
  unfold qInsert
  rw [if_pos (by omega)]

/-- With a live splitter, a tab that is a pane tree and a live container,
`cloneMtd(mtd, container)` returns: a copy of the tree, over new displays,
is the tree of a new tab appended to the container. -/
theorem cloneMtd_total (st : ViewManager) (mtd container : Nat) (sp : ViewSplitter)
    (cont : ViewContainer) (tree : PaneTreeNode)
    (hsp : st.viewSplitter = some sp) (htree : st.mtdOf mtd = some tree)
    (hcont : st.findContainer container = some cont)
    (hkeys : ∀ e ∈ st.mtdTrees, e.1 < st.nextPtr) :
    ∃ (st1 : ViewManager) (t : Nat) (tree1 : PaneTreeNode) (sp1 : ViewSplitter),
      st.cloneMtd mtd container = some st1 ∧
      st1.viewSplitter = some sp1 ∧ sp1.containers = sp.containers ∧
      sp1.activeContainerIndex = sp.activeContainerIndex ∧
      st.nextPtr ≤ t ∧ t < st1.nextPtr ∧
      (∀ e ∈ st1.mtdTrees, e.1 < st1.nextPtr) ∧
      (∀ w tr, st.mtdOf w = some tr → st1.mtdOf w = some tr) ∧
      st1.mtdOf t = some tree1 ∧
      (∀ k, k < st.nextPtr → st1.sessionMap.find? k = st.sessionMap.find? k) ∧
      (∀ c1, st1.findContainer c1 = (st.findContainer c1).map
        (fun x => if x.ptr = container then x.addView t (-1) else x)) ∧
      tree1.shape = tree.shape ∧
      (∀ d ∈ tree1.leaves, st.nextPtr ≤ d ∧ d < st1.nextPtr) ∧
      tree1.leaves.map (fun d => st1.sessionMap.find? d)
        = tree.sessions.map (fun s => some (some s)) := by
  obtain ⟨tree1, sa, h1, hg, hshape, hl, hm⟩ := cloneTree_total tree st sp hsp
  obtain ⟨hgc, hgt, hgn, hgm, hgs⟩ := hg
  obtain ⟨spa, hspa, hc1, hc2⟩ := hgs sp hsp
  let st2 : ViewManager :=
    { sa with nextPtr := sa.nextPtr + 1, mtdTrees := sa.mtdTrees ++ [(sa.nextPtr, tree1)] }
  have hf2 : ∀ c1, st2.findContainer c1 = st.findContainer c1 := by
    intro c1
    show List.find? _ sa.containers = List.find? _ st.containers
    rw [hgc]
  refine ⟨st2.modifyContainer container (fun c => c.addView sa.nextPtr (-1)), sa.nextPtr,
    tree1, spa, ?_, hspa, hc1, hc2, hgn, ?_, ?_, ?_, ?_, hgm, ?_, hshape, ?_, hm⟩
  · unfold cloneMtd
    simp only [htree, Option.bind_eq_bind, Option.some_bind, h1]
    rw [show findContainer _ container = some cont from (hf2 container).trans hcont]
    rfl
  · show sa.nextPtr < sa.nextPtr + 1
    omega
  · intro e he
    have he2 : e ∈ sa.mtdTrees ++ [(sa.nextPtr, tree1)] := he
    show e.1 < sa.nextPtr + 1
    rcases List.mem_append.mp he2 with h | h
    · rw [hgt] at h
      have := hkeys e h
      omega
    · simp only [List.mem_singleton] at h
      subst h
      simp
  · intro w tr hw
    show List.lookup w (sa.mtdTrees ++ [(sa.nextPtr, tree1)]) = some tr
    rw [hgt]
    exact lookup_append_left _ _ _ _ hw
  · show List.lookup sa.nextPtr (sa.mtdTrees ++ [(sa.nextPtr, tree1)]) = some tree1
    apply lookup_append_of_fresh
    intro e he
    rw [hgt] at he
    have := hkeys e he
    omega
  · intro c1
    rw [findContainer_modifyContainer st2 container (fun c => c.addView sa.nextPtr (-1))
      (fun x => rfl) c1, hf2 c1]
  · intro d hd
    have := hl d hd
    refine ⟨this.1, ?_⟩
    show d < sa.nextPtr + 1
    omega


/-- With a live splitter and a live new container, the loop of `splitView`
over tabs that are pane trees runs to its end: the new container gets one
new tab per tab of the list, in order, each with a copy of that tab's tree
over new displays mapped to the same sessions. -/
theorem splitViewLoop_total (cnew : Nat) (l : List Nat) :
    ∀ (st : ViewManager) (sp : ViewSplitter) (cont : ViewContainer),
      st.viewSplitter = some sp → st.findContainer cnew = some cont →
      (∀ w ∈ l, (st.mtdOf w).isSome = true) →
      (∀ e ∈ st.mtdTrees, e.1 < st.nextPtr) →
      ∃ (st1 : ViewManager) (sp1 : ViewSplitter) (cont1 : ViewContainer) (tabs : List Nat),
        splitViewLoop cnew st l = some (true, st1) ∧
        st1.viewSplitter = some sp1 ∧ sp1.containers = sp.containers ∧
        sp1.activeContainerIndex = sp.activeContainerIndex ∧
        st.nextPtr ≤ st1.nextPtr ∧
        (∀ w tr, st.mtdOf w = some tr → st1.mtdOf w = some tr) ∧
        (∀ k, k < st.nextPtr → st1.sessionMap.find? k = st.sessionMap.find? k) ∧
        (∀ c1, c1 ≠ cnew → st1.findContainer c1 = st.findContainer c1) ∧
        st1.findContainer cnew = some cont1 ∧
        cont1.views = cont.views ++ tabs ∧
        tabs.length = l.length ∧
        (∀ (j w : Nat), l[j]? = some w →
          ∃ (t : Nat) (tree tree1 : PaneTreeNode),
            tabs[j]? = some t ∧ st.nextPtr ≤ t ∧
            st.mtdOf w = some tree ∧ st1.mtdOf t = some tree1 ∧
            tree1.shape = tree.shape ∧
            (∀ d ∈ tree1.leaves, st.nextPtr ≤ d ∧ d < st1.nextPtr) ∧
            tree1.leaves.map (fun d => st1.sessionMap.find? d)
              = tree.sessions.map (fun s => some (some s))) := by
  induction l with
  | nil =>
    intro st sp cont hsp hcont _ _
    refine ⟨st, sp, cont, [], rfl, hsp, rfl, rfl, Nat.le_refl _, fun _ _ h => h,
      fun _ _ => rfl, fun _ _ => rfl, hcont, by simp, rfl, ?_⟩
    intro j w h
    simp at h
  | cons v rest ih =>
    intro st sp cont hsp hcont hmtd hkeys
    obtain ⟨tree, htree⟩ := Option.isSome_iff_exists.mp (hmtd v (List.mem_cons_self _ _))
    obtain ⟨sa, t, tree1, spa, ha, hspa, hca, hia, hta, htb, hkeysa, hpres, hnewt, hmapa,
      hfa, hshape, hleaves, hsess⟩ := cloneMtd_total st v cnew sp cont tree hsp htree hcont hkeys
    have hptr := findContainer_ptr hcont
    have hna : st.nextPtr ≤ sa.nextPtr := by omega
    have hconta : sa.findContainer cnew = some (cont.addView t (-1)) := by
      rw [hfa cnew, hcont]
      simp [hptr]
    obtain ⟨st1, sp1, cont1, tabs, h1, hsp1, hc1, hi1, hn1, hpres1, hmap1, hf1, hcont1,
      hviews1, hlen1, hidx1⟩ := ih sa spa (cont.addView t (-1)) hspa hconta
        (fun w hw => by
          obtain ⟨tr, htr⟩ := Option.isSome_iff_exists.mp (hmtd w (List.mem_cons_of_mem _ hw))
          rw [hpres w tr htr]; rfl)
        hkeysa
    refine ⟨st1, sp1, cont1, t :: tabs, ?_, hsp1, hc1.trans hca, hi1.trans hia, by omega,
      fun w tr h => hpres1 w tr (hpres w tr h),
      fun k hk => by rw [hmap1 k (by omega), hmapa k hk], ?_, hcont1, ?_, by simp [hlen1], ?_⟩
    · simp only [splitViewLoop, htree, Option.bind_eq_bind, ha, Option.some_bind]
      exact h1
    · intro c1 hc1n
      rw [hf1 c1 hc1n, hfa c1]
      cases hx : st.findContainer c1 with
      | none => rfl
      | some x =>
        have := findContainer_ptr hx
        simp [this, hc1n]
    · rw [hviews1]
      simp [ViewContainer.addView, qInsert_append]
    · intro j w hj
      cases j with
      | zero =>
        simp only [List.getElem?_cons_zero, Option.some.injEq] at hj
        subst hj
        refine ⟨t, tree, tree1, by simp, hta, htree, hpres1 t tree1 hnewt, hshape, ?_, ?_⟩
        · intro d hd
          have := hleaves d hd
          omega
        · rw [← hsess]
          apply List.map_congr_left
          intro d hd
          exact hmap1 d (hleaves d hd).2
      | succ j =>
        simp only [List.getElem?_cons_succ] at hj
        obtain ⟨t2, tr, tr1, e1, e2, e3, e4, e5, e6, e7⟩ := hidx1 j w hj
        obtain ⟨tr0, htr0⟩ := Option.isSome_iff_exists.mp
          (hmtd w (List.mem_cons_of_mem _ (List.getElem?_mem hj)))
        have : tr = tr0 := by
          have := hpres w tr0 htr0
          rw [e3] at this
          exact Option.some.inj this
        subst this
        refine ⟨t2, tr, tr1, by simpa using e1, by omega, htr0, e4, e5, ?_, e7⟩
        intro d hd
        have := e6 d hd
        omega


/-- With a live splitter `emit splitViewToggle(b)` returns. -/
theorem emitSplitViewToggle_total (st : ViewManager) (sp : ViewSplitter) (b : Bool)
    (h : st.viewSplitter = some sp) :
    ∃ acoll, st.emitSplitViewToggle b = some
      { st with actionCollection := acoll
                emitted := st.emitted ++ [.splitViewToggle b] } := by
  unfold emitSplitViewToggle
  dsimp only
  split
  · obtain ⟨acoll, hac⟩ := updateDetachViewState_total (emit st (.splitViewToggle b)) sp h
    exact ⟨acoll, hac⟩
  · exact ⟨st.actionCollection, rfl⟩

end ViewManager

/-- C11: for a live splitter whose active container is a live object with
`n` tabs that are all pane trees, and an allocator ahead of the stored
pointers, `splitView(orientation)` returns and appends exactly one new
container to the splitter; that container has `n` new tabs, the tab at
position `j` holding a copy of the tree of the active container's tab `j`:
the same arrangement, over new displays that the map binds to the same
sessions, pane by pane.  The tabs of the active container and their trees
are those of before. -/
theorem splitView_clones_active_container (st : ViewManager) (o : Orientation)
    (sp : ViewSplitter) (a : Nat) (ac : ViewContainer)
    (hsp : st.viewSplitter = some sp) (hac : sp.activeContainer = some a)
    (hcont : st.findContainer a = some ac)
    (htabs : ∀ w ∈ ac.views, (st.mtdOf w).isSome = true)
    (hfresh : st.Fresh) :
    ∃ (st1 : ViewManager) (cnew : Nat) (tabs : List Nat),
      st.splitView o = some st1 ∧
      st.findContainer cnew = none ∧
      st1.viewSplitter.map (fun x => x.containers) = some (sp.containers ++ [cnew]) ∧
      st1.viewsOf cnew = tabs ∧
      tabs.length = ac.views.length ∧
      (∀ (j w : Nat), ac.views[j]? = some w →
        ∃ (t : Nat) (tree tree1 : PaneTreeNode),
          tabs[j]? = some t ∧ t ∉ ac.views ∧
          st.mtdOf w = some tree ∧ st1.mtdOf t = some tree1 ∧
          tree1.shape = tree.shape ∧
          (∀ d ∈ tree1.leaves, st.sessionMap.find? d = none) ∧
          tree1.leaves.map (fun d => st1.sessionMap.find? d)
            = tree.sessions.map (fun s => some (some s))) ∧
      st1.viewsOf a = ac.views ∧
      (∀ w ∈ ac.views, st1.mtdOf w = st.mtdOf w) := by
  have hfind0 : st.findContainer st.nextPtr = none := by
    unfold ViewManager.findContainer
    rw [List.find?_eq_none]
    intro x hx
    have := (hfresh.2.1 x hx).1
    simp only [beq_iff_eq]
    omega
  have hane : a ≠ st.nextPtr := by
    intro h
    rw [h, hfind0] at hcont
    cases hcont
  let st0 : ViewManager :=
    { st with viewSplitter := some sp
              nextPtr := st.nextPtr + 1
              containers := st.containers ++ [⟨st.nextPtr, [], none⟩] }
  have hf0new : st0.findContainer st.nextPtr = some ⟨st.nextPtr, [], none⟩ := by
    unfold ViewManager.findContainer at hfind0 ⊢
    show List.find? _ (st.containers ++ [_]) = _
    rw [List.find?_append, hfind0]
    simp
  have hf0a : st0.findContainer a = some ac := by
    unfold ViewManager.findContainer at hcont ⊢
    show List.find? _ (st.containers ++ [_]) = _
    rw [List.find?_append, hcont]
    rfl
  obtain ⟨st2, sp2, cont1, tabs, h1, hsp2, hc2, hi2, hn2, hpres2, hmap2, hf2, hcont2,
    hviews2, hlen2, hidx2⟩ :=
    ViewManager.splitViewLoop_total st.nextPtr ac.views st0 sp ⟨st.nextPtr, [], none⟩
      rfl hf0new htabs
      (fun e he => by
        have := (hfresh.2.2 e he).1
        show e.1 < st.nextPtr + 1
        omega)
  have hmem : st.nextPtr ∈ (sp2.addContainer st.nextPtr o).containers := by
    simp [ViewSplitter.addContainer]
  have hsp4c : ((sp2.addContainer st.nextPtr o).focusContainer st.nextPtr).containers
      = sp.containers ++ [st.nextPtr] := by
    unfold ViewSplitter.focusContainer
    rw [if_pos hmem]
    simp [ViewSplitter.addContainer, hc2]
  have hsp4a : ((sp2.addContainer st.nextPtr o).focusContainer st.nextPtr).activeContainer
      = some st.nextPtr := by
    unfold ViewSplitter.focusContainer
    rw [if_pos hmem]
    unfold ViewSplitter.activeContainer
    exact List.getElem?_indexOf hmem
  obtain ⟨acoll, hemit⟩ := ViewManager.emitSplitViewToggle_total
    { st2 with viewSplitter := some (sp2.addContainer st.nextPtr o) }
    (sp2.addContainer st.nextPtr o)
    (decide ((sp2.addContainer st.nextPtr o).containers.length > 0)) rfl
  have hres : ∃ st1, st.splitView o = some st1 ∧ st1.containers = st2.containers ∧
      st1.mtdTrees = st2.mtdTrees ∧ st1.sessionMap = st2.sessionMap ∧
      st1.viewSplitter
        = some ((sp2.addContainer st.nextPtr o).focusContainer st.nextPtr) := by
    unfold ViewManager.splitView
    simp only [ViewManager.createContainer, Option.bind_eq_bind, Option.some_bind]
    rw [hsp]
    simp only [Option.some_bind, hac]
    rw [show ViewManager.findContainer _ a = some ac from hf0a]
    simp only [Option.some_bind]
    rw [show ViewManager.splitViewLoop st.nextPtr _ ac.views = some (true, st2) from h1]
    simp only [Option.some_bind, Bool.not_true, Bool.false_eq_true, if_false, hsp2]
    rw [hemit]
    simp only [Option.some_bind, ViewManager.activeView, Option.bind_eq_bind]
    rw [hsp4a]
    have hfind2 := hcont2
    unfold ViewManager.findContainer at hfind2
    simp only [ViewManager.findContainer, hfind2, Option.some_bind, pure]
    cases cont1.activeView with
    | none => exact ⟨_, rfl, rfl, rfl, rfl, rfl⟩
    | some v => exact ⟨_, rfl, rfl, rfl, rfl, rfl⟩
  obtain ⟨st1, hres, hcs, hts, hms, hss⟩ := hres
  have hfc : ∀ c, st1.findContainer c = st2.findContainer c := by
    intro c
    unfold ViewManager.findContainer
    rw [hcs]
  have hmt : ∀ w, st1.mtdOf w = st2.mtdOf w := by
    intro w
    unfold ViewManager.mtdOf
    rw [hts]
  refine ⟨st1, st.nextPtr, tabs, hres, hfind0, ?_, ?_, hlen2, ?_, ?_, ?_⟩
  · rw [hss, Option.map_some', hsp4c]
  · unfold ViewManager.viewsOf
    rw [hfc, hcont2]
    simpa using hviews2
  · intro j w hj
    obtain ⟨t, tree, tree1, e1, e2, e3, e4, e5, e6, e7⟩ := hidx2 j w hj
    refine ⟨t, tree, tree1, e1, ?_, e3, (hmt t).trans e4, e5, ?_, ?_⟩
    · intro hmem
      have := (hfresh.2.1 ac (List.mem_of_find?_eq_some hcont)).2 t hmem
      have e2 : st.nextPtr + 1 ≤ t := e2
      omega
    · intro d hd
      have := (e6 d hd).1
      have : st.nextPtr + 1 ≤ d := this
      exact ViewManager.find?_eq_none_of_fresh hfresh (by omega)
    · rw [hms]
      exact e7
  · unfold ViewManager.viewsOf
    rw [hfc, hf2 a hane, hf0a]
  · intro w hw
    obtain ⟨tr, htr⟩ := Option.isSome_iff_exists.mp (htabs w hw)
    rw [hmt, htr]
    exact hpres2 w tr htr

/-- The allocator of `exampleOne` is ahead of its pointers. -/
theorem exampleOne_fresh : exampleOne.Fresh := by
  unfold ViewManager.Fresh
  decide

/-- C11 at `exampleOne`, whose active container 1 has the one tab 3. -/
theorem splitView_clones_active_container_witness :
    ∃ (st1 : ViewManager) (cnew : Nat) (tabs : List Nat),
      exampleOne.splitView .Horizontal = some st1 ∧
      exampleOne.findContainer cnew = none ∧
      st1.viewSplitter.map (fun x => x.containers) = some ([1] ++ [cnew]) ∧
      st1.viewsOf cnew = tabs ∧
      tabs.length = [3].length ∧
      (∀ (j w : Nat), [3][j]? = some w →
        ∃ (t : Nat) (tree tree1 : PaneTreeNode),
          tabs[j]? = some t ∧ t ∉ [3] ∧
          exampleOne.mtdOf w = some tree ∧ st1.mtdOf t = some tree1 ∧
          tree1.shape = tree.shape ∧
          (∀ d ∈ tree1.leaves, exampleOne.sessionMap.find? d = none) ∧
          tree1.leaves.map (fun d => st1.sessionMap.find? d)
            = tree.sessions.map (fun s => some (some s))) ∧
      st1.viewsOf 1 = [3] ∧
      (∀ w ∈ [3], st1.mtdOf w = exampleOne.mtdOf w) :=
  splitView_clones_active_container exampleOne .Horizontal
    { containers := [1], activeContainerIndex := 0, focusProxy := some 2 } 1
    { ptr := 1, views := [3], activeView := some 3 } rfl rfl rfl (by decide) exampleOne_fresh

/-! ## Controllers and the detach action -/

/-- C25: `controllerChanged(c)` returns the state unchanged, with nothing
emitted, when `c` is the plugged controller; when it is not (and the splitter
and the controller are live) it emits `activeViewChanged(c)` once, makes `c`
the plugged controller and the controller's view the focus proxy, and keeps
the map, the containers and the pane trees.  When no controller is plugged,
`createController` plugs the controller it creates. -/
theorem controllerChanged_plugs_controller (st : ViewManager) (c : Nat) :
    (st.pluggedController = some c → st.controllerChanged c = some st) ∧
    (st.pluggedController ≠ some c →
      ∀ (sp : ViewSplitter) (ctl : SessionController), st.viewSplitter = some sp →
        st.controllers.find? (fun x => x.ptr == c) = some ctl →
        ∃ st1, st.controllerChanged c = some st1 ∧
          st1.emitted = st.emitted ++ [.activeViewChanged c] ∧
          st1.pluggedController = some c ∧
          st1.viewSplitter = some { sp with focusProxy := some ctl.view } ∧
          st1.sessionMap = st.sessionMap ∧ st1.containers = st.containers ∧
          st1.mtdTrees = st.mtdTrees) ∧
    (st.pluggedController = none →
      ∀ (sp : ViewSplitter) (s v : Nat), st.viewSplitter = some sp →
        ∃ st1, st.createController s v = some (st.nextPtr, st1) ∧
          st1.pluggedController = some st.nextPtr ∧
          st1.emitted = st.emitted ++ [.activeViewChanged st.nextPtr]) := by
  refine ⟨fun h => ?_, fun h sp ctl hsp hctl => ?_, fun h sp s v hsp => ?_⟩
  · unfold ViewManager.controllerChanged
    rw [if_pos h]
  · unfold ViewManager.controllerChanged
    rw [if_neg h]
    simp only [hsp, hctl, Option.bind_eq_bind, Option.some_bind]
    exact ⟨_, rfl, rfl, rfl, rfl, rfl, rfl, rfl⟩
  · obtain ⟨ctl, hctl⟩ : ∃ ctl, List.find? (fun x : SessionController => x.ptr == st.nextPtr)
        (st.controllers ++ [⟨st.nextPtr, s, v⟩]) = some ctl := by
      apply Option.isSome_iff_exists.mp
      rw [List.find?_isSome]
      exact ⟨⟨st.nextPtr, s, v⟩, by simp, by simp⟩
    unfold ViewManager.createController ViewManager.controllerChanged
    simp only [h, Option.isNone_none, if_true, hsp, hctl, Option.bind_eq_bind,
      Option.some_bind, Option.map_some']
    rw [if_neg (by simp)]
    exact ⟨_, rfl, rfl, rfl⟩

/-- C25 at `exampleWindow` (plugged controller 4, other controller 7) and at a
new manager. -/
theorem controllerChanged_plugs_controller_witness :
    (exampleWindow.controllerChanged 4 = some exampleWindow) ∧
    (∃ st1, exampleWindow.controllerChanged 7 = some st1 ∧
      st1.emitted = exampleWindow.emitted ++ [.activeViewChanged 7] ∧
      st1.pluggedController = some 7 ∧
      st1.viewSplitter = some
        { ({ containers := [1], activeContainerIndex := 0, focusProxy := some 2 } :
            ViewSplitter) with focusProxy := some (⟨7, 51, 5⟩ : SessionController).view } ∧
      st1.sessionMap = exampleWindow.sessionMap ∧ st1.containers = exampleWindow.containers ∧
      st1.mtdTrees = exampleWindow.mtdTrees) ∧
    (∃ st1, (ViewManager.new true 0 1).createController 50 9
        = some ((ViewManager.new true 0 1).nextPtr, st1) ∧
      st1.pluggedController = some (ViewManager.new true 0 1).nextPtr ∧
      st1.emitted = (ViewManager.new true 0 1).emitted
        ++ [.activeViewChanged (ViewManager.new true 0 1).nextPtr]) :=
  ⟨(controllerChanged_plugs_controller exampleWindow 4).1 rfl,
   (controllerChanged_plugs_controller exampleWindow 7).2.1 (by decide)
     { containers := [1], activeContainerIndex := 0, focusProxy := some 2 } ⟨7, 51, 5⟩ rfl rfl,
   (controllerChanged_plugs_controller (ViewManager.new true 0 1) 9).2.2 rfl
     { containers := [], activeContainerIndex := 0, focusProxy := none } 50 9 rfl⟩

/-- C30: with a live splitter, an action collection and a `detach-view`
action, `updateDetachViewState` returns and changes at most that action,
which is enabled afterwards exactly when the splitter holds at least two
containers or the active container holds at least two tabs.  Without an
action collection the state is returned unchanged.  A second call in a row
changes nothing more. -/
theorem updateDetachViewState_enables_detach (st : ViewManager) :
    (∀ (sp : ViewSplitter) (coll : ActionCollection) (enabled : Bool),
      st.viewSplitter = some sp → st.actionCollection = some coll →
      coll.detachView = some enabled →
      ∃ (e : Bool), st.updateDetachViewState
          = some { st with actionCollection := some ⟨some e⟩ } ∧
        (e = true ↔ (2 ≤ sp.containers.length ∨
          ∃ c, sp.activeContainer = some c ∧ 2 ≤ (st.viewsOf c).length))) ∧
    (st.actionCollection = none → st.updateDetachViewState = some st) ∧
    (st.updateDetachViewState.bind ViewManager.updateDetachViewState
      = st.updateDetachViewState) := by
  rcases st with ⟨vs, cts, trees, sm, cs, pc, ntb, ac, ed, dp, tds, sv, sps, rn, fc, fo,
    dl, em, cc, nx⟩
  refine ⟨fun sp coll enabled hsp hac hd => ?_, fun h => ?_, ?_⟩
  · simp only at hsp hac
    subst hsp hac
    obtain ⟨dv⟩ := coll
    simp only at hd
    subst hd
    unfold ViewManager.updateDetachViewState
    simp only [Option.bind_eq_bind, Option.some_bind]
    have hiff : ∀ e : Bool, e = (decide (2 ≤ sp.containers.length) ||
        match sp.activeContainer with
        | some c => decide (2 ≤ (ViewManager.viewsOf ⟨some sp, cts, trees, sm, cs, pc, ntb,
            some ⟨some enabled⟩, ed, dp, tds, sv, sps, rn, fc, fo, dl, em, cc, nx⟩ c).length)
        | none => false) →
        (e = true ↔ (2 ≤ sp.containers.length ∨
          ∃ c, sp.activeContainer = some c ∧ 2 ≤ (ViewManager.viewsOf ⟨some sp, cts, trees, sm,
            cs, pc, ntb, some ⟨some enabled⟩, ed, dp, tds, sv, sps, rn, fc, fo, dl, em, cc,
            nx⟩ c).length)) := by
      intro e he
      rw [he]
      cases sp.activeContainer <;> simp
    split
    · exact ⟨_, rfl, hiff _ rfl⟩
    · next hne =>
      simp only [bne_iff_ne, ne_eq, not_not] at hne
      refine ⟨enabled, rfl, hiff _ hne.symm⟩
  · simp only at h
    subst h
    rfl
  · unfold ViewManager.updateDetachViewState
    cases ac with
    | none => rfl
    | some coll =>
      cases vs with
      | none => rfl
      | some sp =>
        obtain ⟨dv⟩ := coll
        cases dv with
        | none => rfl
        | some enabled =>
          simp only [Option.bind_eq_bind, Option.some_bind]
          split
          · simp only [Option.some_bind, ViewManager.viewsOf, ViewManager.findContainer,
              bne_self_eq_false, Bool.false_eq_true, if_false]
          · next hne =>
            simp only [Option.some_bind, hne, Bool.false_eq_true, if_false]

/-- C30 at `exampleOne` and at `exampleOne` without an action collection. -/
theorem updateDetachViewState_enables_detach_witness :
    (∃ (e : Bool), exampleOne.updateDetachViewState
        = some { exampleOne with actionCollection := some ⟨some e⟩ } ∧
      (e = true ↔ (2 ≤ [1].length ∨
        ∃ c, ViewSplitter.activeContainer
            { containers := [1], activeContainerIndex := 0, focusProxy := some 2 } = some c ∧
          2 ≤ (exampleOne.viewsOf c).length))) ∧
    (({ exampleOne with actionCollection := none } : ViewManager).updateDetachViewState
      = some { exampleOne with actionCollection := none }) :=
  ⟨(updateDetachViewState_enables_detach exampleOne).1
      { containers := [1], activeContainerIndex := 0, focusProxy := some 2 } ⟨some false⟩ false
      rfl rfl rfl,
   (updateDetachViewState_enables_detach { exampleOne with actionCollection := none }).2.1 rfl⟩

/-! ## Moving a tab between windows -/

/-- C26 fails at `exampleWindow` receiving, at index 0, the tab of controller
7 from `exampleSource`, the one container of another window, which holds
that window's only tab: the view is created in container 1 and `moved` is
set. -/
theorem containerMoveViewRequest_moves_last_tab :
    exampleSource.views.length = 1 ∧ exampleSource.managerContainers = 1 ∧
    exampleWindow.viewsOf 1 = [3, 6] ∧
    (exampleWindow.containerMoveViewRequest (some 1) examplePropertiesById 0 7 false
        (some exampleSource)).map (fun r => (r.1, r.2.viewsOf 1))
      = some (true, [9, 3, 6]) := by
  decide

/-- C26, amended: `containerMoveViewRequest` never moves the last tab of a
split window: for a live splitter and every request whose source container
holds one tab and belongs to a window whose splitter holds more than one
container, the method returns the flag `moved` and the state it was given,
so no view is created.  The refusal comes from the count of containers alone,
whatever the sender, the index and the id are. -/
theorem containerMoveViewRequest_keeps_last_tab_of_split (st : ViewManager)
    (sender : Option Nat) (propertiesById : Int → Option SessionController) (index : Int)
    (id : Int) (moved : Bool) (src : SourceContainer) (sp : ViewSplitter)
    (hsp : st.viewSplitter = some sp) (_hlast : src.views.length = 1)
    (hsplit : 1 < src.managerContainers) :
    st.containerMoveViewRequest sender propertiesById index id moved (some src)
      = some (moved, st) := by
  have href : st.moveViewRefused (some src) = some true := by
    simp only [ViewManager.moveViewRefused, hsp, Option.bind_eq_bind, Option.some_bind]
    by_cases hin : src.ptr ∈ sp.containers
    · rw [if_pos hin]
    · rw [if_neg hin, if_pos hsplit]
  cases hctl : propertiesById id with
  | none => simp only [ViewManager.containerMoveViewRequest, hctl]
  | some ctl =>
    simp only [ViewManager.containerMoveViewRequest, hctl, href, Option.bind_eq_bind,
      Option.some_bind, if_true]

/-- C26, amended, at `exampleWindow` receiving the request for the tab of
controller 7 from `exampleSplitSource`, whose window is split: nothing is
moved. -/
theorem containerMoveViewRequest_keeps_last_tab_of_split_witness :
    exampleSplitSource.views.length = 1 ∧ 1 < exampleSplitSource.managerContainers ∧
    exampleWindow.containerMoveViewRequest (some 1) examplePropertiesById 0 7 false
        (some exampleSplitSource)
      = some (false, exampleWindow) :=
  ⟨rfl, by decide,
   containerMoveViewRequest_keeps_last_tab_of_split exampleWindow (some 1) examplePropertiesById
    0 7 false exampleSplitSource ⟨[1], 0, some 2⟩ rfl rfl (by decide)⟩

/-- C28: for a live splitter and a live receiving container,
`containerMoveViewRequest` creates a view of the controller's session in the
receiving container at `index` and returns `moved = true` when `id` resolves
to a session controller and the source is null, or is not a container of this
splitter and its manager holds at most one container; in every other case it
returns the flag and the state it was given. -/
theorem containerMoveViewRequest_moves_iff (st : ViewManager) (container : Nat)
    (propertiesById : Int → Option SessionController) (index : Int) (id : Int) (moved : Bool)
    (source : Option SourceContainer) (sp : ViewSplitter) (cont : ViewContainer)
    (hsp : st.viewSplitter = some sp) (hc : st.findContainer container = some cont) :
    (∀ ctl, propertiesById id = some ctl →
      (source = none ∨ ∃ src, source = some src ∧ src.ptr ∉ sp.containers ∧
        src.managerContainers ≤ 1) →
      ∃ st1, st.containerMoveViewRequest (some container) propertiesById index id moved source
          = some (true, st1) ∧
        st1.viewsOf container = qInsert cont.views index (st.nextPtr + 1) ∧
        st1.mtdTrees = st.mtdTrees ++ [(st.nextPtr + 1, .Leaf st.nextPtr ctl.session)] ∧
        st1.sessionMap = st.sessionMap.insert st.nextPtr (some ctl.session) ∧
        (∀ c1, c1 ≠ container → st1.viewsOf c1 = st.viewsOf c1)) ∧
    (¬ (∃ ctl, propertiesById id = some ctl ∧
        (source = none ∨ ∃ src, source = some src ∧ src.ptr ∉ sp.containers ∧
          src.managerContainers ≤ 1)) →
      st.containerMoveViewRequest (some container) propertiesById index id moved source
        = some (moved, st)) := by
  constructor
  · intro ctl hctl hsrc
    obtain ⟨st1, sp1, h1, _, _, _, hmap, htrees, _, hviews, _⟩ :=
      ViewManager.createViewInContainer_total st ctl.session container index sp cont hsp hc
    have href : st.moveViewRefused source = some false := by
      rcases hsrc with rfl | ⟨src, rfl, hnot, hle⟩
      · rfl
      · simp only [ViewManager.moveViewRefused, hsp, Option.bind_eq_bind, Option.some_bind,
          if_neg hnot]
        rw [if_neg (by omega)]
    refine ⟨st1, ?_, ?_, htrees, hmap, ?_⟩
    · simp only [ViewManager.containerMoveViewRequest, hctl, href, Option.bind_eq_bind,
        Option.some_bind, Bool.false_eq_true, if_false, h1]
    · rw [hviews container, if_pos rfl]
    · intro c1 hc1
      rw [hviews c1, if_neg hc1]
  · intro hnot
    cases hctl : propertiesById id with
    | none => simp only [ViewManager.containerMoveViewRequest, hctl]
    | some ctl =>
      have hsrc : ¬ (source = none ∨ ∃ src, source = some src ∧ src.ptr ∉ sp.containers ∧
          src.managerContainers ≤ 1) := fun h => hnot ⟨ctl, hctl, h⟩
      have href : st.moveViewRefused source = some true := by
        cases source with
        | none => exact absurd (Or.inl rfl) hsrc
        | some src =>
          simp only [ViewManager.moveViewRefused, hsp, Option.bind_eq_bind, Option.some_bind]
          by_cases hin : src.ptr ∈ sp.containers
          · rw [if_pos hin]
          · rw [if_neg hin, if_pos]
            by_contra hgt
            exact hsrc (Or.inr ⟨src, rfl, hin, by omega⟩)
      simp only [ViewManager.containerMoveViewRequest, hctl, href, Option.bind_eq_bind,
        Option.some_bind, if_true]

/-- C28 at `exampleWindow`: the request of `exampleSource` is granted, and
one whose id resolves to no controller is not. -/
theorem containerMoveViewRequest_moves_iff_witness :
    (∃ st1, exampleWindow.containerMoveViewRequest (some 1) examplePropertiesById 0 7 false
          (some exampleSource) = some (true, st1) ∧
        st1.viewsOf 1 = qInsert [3, 6] 0 (exampleWindow.nextPtr + 1) ∧
        st1.mtdTrees = exampleWindow.mtdTrees
          ++ [(exampleWindow.nextPtr + 1, .Leaf exampleWindow.nextPtr 60)] ∧
        st1.sessionMap = exampleWindow.sessionMap.insert exampleWindow.nextPtr (some 60) ∧
        (∀ c1, c1 ≠ 1 → st1.viewsOf c1 = exampleWindow.viewsOf c1)) ∧
    (exampleWindow.containerMoveViewRequest (some 1) examplePropertiesById 0 8 false
        (some exampleSource) = some (false, exampleWindow)) :=
  ⟨(containerMoveViewRequest_moves_iff exampleWindow 1 examplePropertiesById 0 7 false
      (some exampleSource) { containers := [1], activeContainerIndex := 0, focusProxy := some 2 }
      ⟨1, [3, 6], some 6⟩ rfl rfl).1 ⟨70, 60, 61⟩ rfl
      (Or.inr ⟨exampleSource, rfl, by decide, by decide⟩),
   (containerMoveViewRequest_moves_iff exampleWindow 1 examplePropertiesById 0 8 false
      (some exampleSource) { containers := [1], activeContainerIndex := 0, focusProxy := some 2 }
      ⟨1, [3, 6], some 6⟩ rfl rfl).2 (by
        rintro ⟨ctl, hctl, _⟩
        cases hctl)⟩

/-! ## New sessions by profile name -/

namespace ViewManager

/-- The loop of `newSession` ends with the first profile of the name, or with
the pointer it started from when no profile has the name. -/
theorem newSessionProfile_spec (profile : String) (profileptr : Nat) (l : List Profile) :
    (∃ (i : Nat) (p : Profile), l[i]? = some p ∧ p.name = profile ∧
        (∀ (j : Nat) (q : Profile), j < i → l[j]? = some q → q.name ≠ profile) ∧
        newSessionProfile profile profileptr l = p.ptr) ∨
    ((∀ p ∈ l, p.name ≠ profile) ∧ newSessionProfile profile profileptr l = profileptr) := by
  induction l with
  | nil => right; exact ⟨by simp, rfl⟩
  | cons p rest ih =>
    by_cases hp : p.name = profile
    · left
      refine ⟨0, p, by simp, hp, fun j q hj => by omega, ?_⟩
      simp [newSessionProfile, hp]
    · rcases ih with ⟨i, q, hq, hname, hbefore, hres⟩ | ⟨hall, hres⟩
      · left
        refine ⟨i + 1, q, by simpa using hq, hname, ?_, ?_⟩
        · intro j r hj hr
          cases j with
          | zero =>
            simp only [List.getElem?_cons_zero, Option.some.injEq] at hr
            subst hr
            exact hp
          | succ j =>
            simp only [List.getElem?_cons_succ] at hr
            exact hbefore j r (by omega) hr
        · simp [newSessionProfile, hp, hres]
      · right
        refine ⟨?_, by simp [newSessionProfile, hp, hres]⟩
        intro r hr
        rcases List.mem_cons.mp hr with rfl | hr
        · exact hp
        · exact hall r hr

/-- With a live splitter of distinct live containers and the allocator ahead,
`createView(s)` returns and a new view of `s` is shown in a tab of a
container of the splitter. -/
theorem createView_opens_view (st : ViewManager) (s : Nat) (sp : ViewSplitter)
    (hsp : st.viewSplitter = some sp) (hnd : sp.containers.Nodup)
    (hlive : ∀ c ∈ sp.containers, (st.findContainer c).isSome = true)
    (hfresh : st.Fresh) :
    ∃ (st1 : ViewManager) (sp1 : ViewSplitter) (c d t : Nat),
      st.createView (some s) = some st1 ∧
      st1.viewSplitter = some sp1 ∧ c ∈ sp1.containers ∧
      t ∈ st1.viewsOf c ∧
      st1.mtdOf t = some (.Leaf d s) ∧
      st.sessionMap.find? d = none ∧
      st1.sessionMap.find? d = some (some s) := by
  cases hcs : sp.containers with
  | nil =>
    have hfind0 : st.findContainer st.nextPtr = none := by
      unfold findContainer
      rw [List.find?_eq_none]
      intro x hx
      have := (hfresh.2.1 x hx).1
      simp only [beq_iff_eq]
      omega
    let sta : ViewManager :=
      { st with
        viewSplitter := some (sp.addContainer st.nextPtr .Vertical)
        containers := st.containers ++ [⟨st.nextPtr, [], none⟩]
        nextPtr := st.nextPtr + 1 }
    have hfa : sta.findContainer st.nextPtr = some ⟨st.nextPtr, [], none⟩ := by
      unfold findContainer at hfind0 ⊢
      show List.find? _ (st.containers ++ [_]) = _
      rw [List.find?_append, hfind0]
      simp
    have hspa : (sp.addContainer st.nextPtr Orientation.Vertical).containers = [st.nextPtr] := by
      simp [ViewSplitter.addContainer, hcs]
    have hlivea : ∀ c ∈ (sp.addContainer st.nextPtr Orientation.Vertical).containers,
        (sta.findContainer c).isSome = true := by
      intro c hc
      rw [hspa] at hc
      simp only [List.mem_singleton] at hc
      subst hc
      rw [hfa]; rfl
    obtain ⟨i, hi⟩ := newTabIndex_total sta _ rfl hlivea
    obtain ⟨st1, sp1, h1, hsp1, hc1, hmap1, hv1, _, htr1⟩ :=
      createViewLoop_total s i [st.nextPtr] sta _ rfl
        (by rw [← hspa]; exact hlivea) (by simp)
    refine ⟨st1, sp1, st.nextPtr, st.nextPtr + 1, st.nextPtr + 2, ?_, hsp1, ?_, ?_, ?_, ?_, ?_⟩
    · unfold createView
      simp only [hsp, Option.bind_eq_bind, Option.some_bind, hcs, List.length_nil, if_true,
        createContainer]
      rw [show newTabIndex _ = some i from hi]
      simp only [Option.some_bind]
      rw [hspa]
      exact h1
    · rw [hc1, hspa]; simp
    · have := hv1 0 st.nextPtr rfl
      rw [this]
      have hv0 : sta.viewsOf st.nextPtr = [] := by
        simp [viewsOf, hfa]
      rw [hv0, qInsert_nil]
      simp
    · unfold mtdOf
      rw [htr1]
      have := lookup_range_fresh st.mtdTrees (st.nextPtr + 1) s
        (fun e he => by have := (hfresh.2.2 e he).1; omega) 1 0 (by omega)
      simpa using this
    · exact find?_eq_none_of_fresh hfresh (by omega)
    · rw [hmap1, if_pos ⟨0, by simp, rfl⟩]
  | cons c rest =>
    obtain ⟨i, hi⟩ := newTabIndex_total st sp hsp hlive
    obtain ⟨st1, sp1, h1, hsp1, hc1, hmap1, hv1, _, htr1⟩ :=
      createViewLoop_total s i sp.containers st sp hsp hlive hnd
    have h0 : sp.containers[0]? = some c := by rw [hcs]; simp
    have hlen : 0 < sp.containers.length := by rw [hcs]; simp
    refine ⟨st1, sp1, c, st.nextPtr, st.nextPtr + 1, ?_, hsp1, ?_, ?_, ?_, ?_, ?_⟩
    · unfold createView
      simp only [hsp, Option.bind_eq_bind, Option.some_bind, hcs, List.length_cons,
        Nat.succ_ne_zero, if_false, hi]
      rw [← hcs]
      exact h1
    · rw [hc1, hcs]; simp
    · have := hv1 0 c h0
      rw [this]
      exact (qInsert_perm _ _ _).mem_iff.mpr (List.mem_cons_self _ _)
    · unfold mtdOf
      rw [htr1]
      have := lookup_range_fresh st.mtdTrees st.nextPtr s
        (fun e he => (hfresh.2.2 e he).1) sp.containers.length 0 hlen
      simpa using this
    · exact find?_eq_none_of_fresh hfresh (by omega)
    · rw [hmap1, if_pos ⟨0, hlen, rfl⟩]

/-- The state after `createSession` is as fresh as the one before. -/
theorem createSession_fresh (st : ViewManager) (profile : Nat) (hfresh : st.Fresh) :
    (st.createSession profile).2.Fresh := by
  obtain ⟨h1, h2, h3⟩ := hfresh
  refine ⟨fun k hk => Nat.lt_succ_of_lt (h1 k hk), fun c hc => ?_, fun e he => ?_⟩
  · exact ⟨Nat.lt_succ_of_lt (h2 c hc).1, fun w hw => Nat.lt_succ_of_lt ((h2 c hc).2 w hw)⟩
  · exact ⟨Nat.lt_succ_of_lt (h3 e he).1, fun v hv => Nat.lt_succ_of_lt ((h3 e he).2 v hv)⟩

end ViewManager

/-- C29: with a live splitter of distinct live containers and the allocator
ahead of the stored pointers, `newSession(profile, directory)` returns a new
session, and the call added to the record of the sessions' profiles the one
entry that gives this session the profile `chosen`: the first profile of
`allProfiles` whose name is `profile`, or the default profile when no
profile has that name; a new view of that session is shown in a tab of a
container of the splitter, and the session has been run. -/
theorem newSession_uses_named_profile (st : ViewManager) (allProfiles : List Profile)
    (profile directory : String) (sp : ViewSplitter)
    (hsp : st.viewSplitter = some sp) (hnd : sp.containers.Nodup)
    (hlive : ∀ c ∈ sp.containers, (st.findContainer c).isSome = true)
    (hfresh : st.Fresh) :
    ∃ (st1 : ViewManager) (sp1 : ViewSplitter) (session chosen c d t : Nat),
      st.newSession allProfiles profile directory = some (session, st1) ∧
      ((∃ (i : Nat) (p : Profile), allProfiles[i]? = some p ∧ p.name = profile ∧
          (∀ (j : Nat) (q : Profile), j < i → allProfiles[j]? = some q → q.name ≠ profile) ∧
          chosen = p.ptr) ∨
        ((∀ p ∈ allProfiles, p.name ≠ profile) ∧ chosen = st.defaultProfile)) ∧
      session = st.nextPtr ∧
      st1.sessionProfiles = st.sessionProfiles ++ [(session, chosen)] ∧
      st1.viewSplitter = some sp1 ∧ c ∈ sp1.containers ∧ t ∈ st1.viewsOf c ∧
      st1.mtdOf t = some (.Leaf d session) ∧
      st.sessionMap.find? d = none ∧
      st1.sessionMap.find? d = some (some session) ∧
      session ∈ st1.running := by
  obtain ⟨st2, sp1, c, d, t, h1, h2, h3, h4, h5, h6, h7⟩ :=
    ViewManager.createView_opens_view
      (st.createSession (ViewManager.newSessionProfile profile st.defaultProfile allProfiles)).2
      (st.createSession (ViewManager.newSessionProfile profile st.defaultProfile allProfiles)).1
      sp hsp hnd hlive (ViewManager.createSession_fresh st _ hfresh)
  refine ⟨{ st2 with running := st2.running ++ [st.nextPtr] }, sp1, st.nextPtr,
    ViewManager.newSessionProfile profile st.defaultProfile allProfiles, c, d, t,
    ?_, ?_, rfl, ?_, h2, h3, h4, h5, h6, h7, by simp⟩
  · unfold ViewManager.newSession
    simp only [Option.bind_eq_bind]
    rw [h1]
    rfl
  · rcases ViewManager.newSessionProfile_spec profile st.defaultProfile allProfiles with
      ⟨i, p, hp, hname, hbefore, hres⟩ | ⟨hall, hres⟩
    · exact Or.inl ⟨i, p, hp, hname, hbefore, hres⟩
    · exact Or.inr ⟨hall, hres⟩
  · show st2.sessionProfiles = _
    rw [ViewManager.createView_registry h1]
    rfl

/-- C29 at a new manager with `exampleProfiles`, for the name `Shell`, which
two profiles have: the first of them, profile 21, is the one recorded. -/
theorem newSession_uses_named_profile_witness :
    ∃ (st1 : ViewManager) (sp1 : ViewSplitter) (session chosen c d t : Nat),
      (ViewManager.new true 0 1).newSession exampleProfiles "Shell" "/tmp"
        = some (session, st1) ∧
      ((∃ (i : Nat) (p : Profile), exampleProfiles[i]? = some p ∧ p.name = "Shell" ∧
          (∀ (j : Nat) (q : Profile), j < i → exampleProfiles[j]? = some q →
            q.name ≠ "Shell") ∧
          chosen = p.ptr) ∨
        ((∀ p ∈ exampleProfiles, p.name ≠ "Shell") ∧
          chosen = (ViewManager.new true 0 1).defaultProfile)) ∧
      session = (ViewManager.new true 0 1).nextPtr ∧
      st1.sessionProfiles = (ViewManager.new true 0 1).sessionProfiles ++ [(session, chosen)] ∧
      st1.viewSplitter = some sp1 ∧ c ∈ sp1.containers ∧ t ∈ st1.viewsOf c ∧
      st1.mtdOf t = some (.Leaf d session) ∧
      (ViewManager.new true 0 1).sessionMap.find? d = none ∧
      st1.sessionMap.find? d = some (some session) ∧
      session ∈ st1.running :=
  newSession_uses_named_profile (ViewManager.new true 0 1) exampleProfiles "Shell" "/tmp"
    { containers := [], activeContainerIndex := 0, focusProxy := none } rfl
    (by decide) (by decide) (new_fresh true 0 1)

/-! ## Focus within a pane tree -/

/-- The tree `exampleRow` is built by two splits of pane 1. -/
theorem exampleRow_built :
    exampleRow = ((PaneTreeNode.Leaf 1 50).splitLeaf 1 .Horizontal 3 51).splitLeaf 1
      .Horizontal 2 52 := by
  simp [exampleRow, PaneTreeNode.splitLeaf, PaneTreeNode.splitLeafList]

/-- C23 as stated fails on `exampleRow`, built by two horizontal splits: the
Left neighbour of pane 3 is pane 1, whose Right neighbour is pane 2. -/
theorem neighbor_left_right_counterexample :
    exampleRow.neighbor 3 .LEFT = some 1 ∧ exampleRow.neighbor 1 .RIGHT = some 2 := by
  decide

namespace PaneTreeNode

mutual
/-- A walk for a leaf that is not in the tree finds nothing. -/
theorem walk_absent (d : Direction) (leaf : Nat) : ∀ (t : PaneTreeNode),
    leaf ∉ t.leaves → t.walk d leaf = .absent
  | .Leaf v s, h => by
    simp only [leaves, List.mem_singleton] at h
    simp only [walk]
    rw [if_neg (fun hv => h hv.symm)]
  | .Split o cs f, h => by
    simp only [leaves] at h
    simp only [walk]
    exact walkList_absent d leaf o cs h none
/-- A walk through trees none of which has the leaf finds nothing. -/
theorem walkList_absent (d : Direction) (leaf : Nat) (o : Orientation) :
    ∀ (cs : List PaneTreeNode), leaf ∉ leavesOfList cs →
      ∀ prev, walkList d leaf o prev cs = .absent
  | [], _, prev => by simp only [walkList]
  | c :: cs, h, prev => by
    simp only [leavesOfList, List.mem_append, not_or] at h
    simp only [walkList, walk_absent d leaf c h.1]
    exact walkList_absent d leaf o cs h.2 (some c)
end

/-- The leaves of two consecutive leaf children are leaves of the sequence. -/
theorem mem_of_adjacentIn (a b : Nat) : ∀ (cs : List PaneTreeNode),
    adjacentIn a b cs = true → a ∈ leavesOfList cs ∧ b ∈ leavesOfList cs
  | [], h => by simp [adjacentIn] at h
  | c :: rest, h => by
    simp only [adjacentIn, Bool.or_eq_true, Bool.and_eq_true] at h
    rcases h with ⟨hc, hn⟩ | h
    · cases c with
      | Split _ _ _ => simp [isLeafOf] at hc
      | Leaf v s =>
        simp only [isLeafOf, beq_iff_eq] at hc
        cases rest with
        | nil => simp at hn
        | cons n rest2 =>
          cases n with
          | Split _ _ _ => simp [isLeafOf] at hn
          | Leaf w s2 =>
            simp only [isLeafOf, beq_iff_eq] at hn
            simp [leavesOfList, leaves, hc, hn]
    · have := mem_of_adjacentIn a b rest h
      simp only [leavesOfList, List.mem_append]
      exact ⟨Or.inr this.1, Or.inr this.2⟩

mutual
/-- The leaves of two adjacent panes are leaves of the tree. -/
theorem mem_of_adjacent (o : Orientation) (a b : Nat) : ∀ (t : PaneTreeNode),
    t.adjacent o a b = true → a ∈ t.leaves ∧ b ∈ t.leaves
  | .Leaf v s, h => by simp [adjacent] at h
  | .Split o1 cs f, h => by
    simp only [adjacent, Bool.or_eq_true, Bool.and_eq_true] at h
    simp only [leaves]
    rcases h with ⟨_, h⟩ | h
    · exact mem_of_adjacentIn a b cs h
    · exact mem_of_adjacentBelow o a b cs h
/-- The same for a sequence of trees. -/
theorem mem_of_adjacentBelow (o : Orientation) (a b : Nat) : ∀ (cs : List PaneTreeNode),
    adjacentBelow o a b cs = true → a ∈ leavesOfList cs ∧ b ∈ leavesOfList cs
  | [], h => by simp [adjacentBelow] at h
  | c :: cs, h => by
    simp only [adjacentBelow, Bool.or_eq_true] at h
    simp only [leavesOfList, List.mem_append]
    rcases h with h | h
    · have := mem_of_adjacent o a b c h
      exact ⟨Or.inl this.1, Or.inl this.2⟩
    · have := mem_of_adjacentBelow o a b cs h
      exact ⟨Or.inr this.1, Or.inr this.2⟩
end

/-- In a split along the axis, the walk backward from the later of two
consecutive leaf children ends in the earlier one. -/
theorem walkList_backward_adjacentIn (d : Direction) (hb : d.backward = true) (a b : Nat) :
    ∀ (cs : List PaneTreeNode), adjacentIn a b cs = true → (leavesOfList cs).Nodup →
      ∀ prev, walkList d b d.axis prev cs = .found (some a)
  | [], h, _, _ => by simp [adjacentIn] at h
  | c :: rest, h, hnd, prev => by
    simp only [leavesOfList] at hnd
    have hdis := List.disjoint_of_nodup_append hnd
    simp only [adjacentIn, Bool.or_eq_true, Bool.and_eq_true] at h
    rcases h with ⟨hc, hn⟩ | h
    · cases c with
      | Split _ _ _ => simp [isLeafOf] at hc
      | Leaf v s =>
        simp only [isLeafOf, beq_iff_eq] at hc
        subst hc
        cases rest with
        | nil => simp at hn
        | cons n rest2 =>
          cases n with
          | Split _ _ _ => simp [isLeafOf] at hn
          | Leaf w s2 =>
            simp only [isLeafOf, beq_iff_eq] at hn
            subst hn
            have hne : v ≠ w := by
              intro hvw
              exact hdis (a := v) (by simp [leaves]) (by simp [leavesOfList, leaves, hvw])
            simp [walkList, walk, hne, hb, descend, leaves]
    · have hmem := (mem_of_adjacentIn a b rest h).2
      have hnot : b ∉ c.leaves := fun hbc => hdis hbc hmem
      simp only [walkList, walk_absent d b c hnot]
      exact walkList_backward_adjacentIn d hb a b rest h (List.Nodup.of_append_right hnd) (some c)

/-- In a split along the axis, the walk forward from the earlier of two
consecutive leaf children ends in the later one. -/
theorem walkList_forward_adjacentIn (d : Direction) (hb : d.backward = false) (a b : Nat) :
    ∀ (cs : List PaneTreeNode), adjacentIn a b cs = true → (leavesOfList cs).Nodup →
      ∀ prev, walkList d a d.axis prev cs = .found (some b)
  | [], h, _, _ => by simp [adjacentIn] at h
  | c :: rest, h, hnd, prev => by
    simp only [leavesOfList] at hnd
    have hdis := List.disjoint_of_nodup_append hnd
    simp only [adjacentIn, Bool.or_eq_true, Bool.and_eq_true] at h
    rcases h with ⟨hc, hn⟩ | h
    · cases c with
      | Split _ _ _ => simp [isLeafOf] at hc
      | Leaf v s =>
        simp only [isLeafOf, beq_iff_eq] at hc
        subst hc
        cases rest with
        | nil => simp at hn
        | cons n rest2 =>
          cases n with
          | Split _ _ _ => simp [isLeafOf] at hn
          | Leaf w s2 =>
            simp only [isLeafOf, beq_iff_eq] at hn
            subst hn
            simp [walkList, walk, hb, descend, leaves]
    · have hmem := (mem_of_adjacentIn a b rest h).1
      have hnot : a ∉ c.leaves := fun hac => hdis hac hmem
      simp only [walkList, walk_absent d a c hnot]
      exact walkList_forward_adjacentIn d hb a b rest h (List.Nodup.of_append_right hnd) (some c)

mutual
/-- The walk from one of two adjacent panes toward the other ends in it. -/
theorem walk_adjacent (d : Direction) (a b : Nat) : ∀ (t : PaneTreeNode),
    t.adjacent d.axis a b = true → t.leaves.Nodup →
      t.walk d (if d.backward then b else a) = .found (some (if d.backward then a else b))
  | .Leaf v s, h, _ => by simp [adjacent] at h
  | .Split o1 cs f, h, hnd => by
    simp only [adjacent, Bool.or_eq_true, Bool.and_eq_true, decide_eq_true_eq] at h
    simp only [leaves] at hnd
    simp only [walk]
    rcases h with ⟨ho, h⟩ | h
    · subst ho
      cases hb : d.backward with
      | true => simpa using walkList_backward_adjacentIn d hb a b cs h hnd none
      | false => simpa using walkList_forward_adjacentIn d hb a b cs h hnd none
    · exact walkList_adjacent d a b o1 cs h hnd none
/-- The same below the children of a split. -/
theorem walkList_adjacent (d : Direction) (a b : Nat) (o1 : Orientation) :
    ∀ (cs : List PaneTreeNode), adjacentBelow d.axis a b cs = true → (leavesOfList cs).Nodup →
      ∀ prev, walkList d (if d.backward then b else a) o1 prev cs
        = .found (some (if d.backward then a else b))
  | [], h, _, _ => by simp [adjacentBelow] at h
  | c :: cs, h, hnd, prev => by
    simp only [leavesOfList] at hnd
    have hdis := List.disjoint_of_nodup_append hnd
    simp only [adjacentBelow, Bool.or_eq_true] at h
    rcases h with h | h
    · simp only [walkList, walk_adjacent d a b c h (List.Nodup.of_append_left hnd)]
    · have hmem := mem_of_adjacentBelow d.axis a b cs h
      have hnot : (if d.backward then b else a) ∉ c.leaves := by
        intro hin
        cases hb : d.backward with
        | true => rw [hb] at hin; exact hdis hin hmem.2
        | false => rw [hb] at hin; exact hdis hin hmem.1
      simp only [walkList, walk_absent d _ c hnot]
      exact walkList_adjacent d a b o1 cs h (List.Nodup.of_append_right hnd) (some c)
end

end PaneTreeNode

/-- C23, amended: in every pane tree whose panes show distinct views, for
every two leaves `r` and `l` that are consecutive children of one horizontal
split, `r` before `l`, the Left neighbour of `l` is `r` and the Right
neighbour of `r` is `l`. -/
theorem neighbor_left_right_of_adjacent (t : PaneTreeNode) (r l : Nat)
    (hnd : t.leaves.Nodup) (hadj : t.adjacent .Horizontal r l = true) :
    t.neighbor l .LEFT = some r ∧ t.neighbor r .RIGHT = some l := by
  have h1 := PaneTreeNode.walk_adjacent .LEFT r l t hadj hnd
  have h2 := PaneTreeNode.walk_adjacent .RIGHT r l t hadj hnd
  simp only [Direction.backward, if_true, Bool.false_eq_true, if_false] at h1 h2
  simp only [PaneTreeNode.neighbor, h1, h2, and_self]

/-- C23, amended, at the panes 1 and 2 of `exampleRow`. -/
theorem neighbor_left_right_of_adjacent_witness :
    exampleRow.neighbor 2 .LEFT = some 1 ∧ exampleRow.neighbor 1 .RIGHT = some 2 :=
  neighbor_left_right_of_adjacent exampleRow 1 2 (by decide) (by decide)

/-! ## Splitting and closing panes -/

namespace PaneTreeNode

/-- The leaves after a split of a pane that the sequence does not have. -/
theorem flatMap_split_of_not_mem (tg nv : Nat) : ∀ (l : List Nat), tg ∉ l →
    l.flatMap (fun v => if v = tg then [v, nv] else [v]) = l
  | [], _ => rfl
  | a :: l, h => by
    simp only [List.mem_cons, not_or] at h
    have hne : ¬ a = tg := fun hh => h.1 hh.symm
    simp only [List.flatMap_cons, if_neg hne, List.singleton_append,
      flatMap_split_of_not_mem tg nv l h.2]

/-- The leaves after a split are those of before and the new one. -/
theorem mem_flatMap_split (tg nv x : Nat) (l : List Nat) :
    x ∈ l.flatMap (fun v => if v = tg then [v, nv] else [v]) → x ∈ l ∨ x = nv := by
  intro h
  simp only [List.mem_flatMap] at h
  obtain ⟨a, ha, hx⟩ := h
  split at hx
  · simp only [List.mem_cons, List.mem_singleton, List.not_mem_nil, or_false] at hx
    rcases hx with rfl | rfl
    · exact Or.inl ha
    · exact Or.inr rfl
  · simp only [List.mem_singleton] at hx
    subst hx
    exact Or.inl ha

/-- Distinct leaves stay distinct when a pane is split for a new view. -/
theorem nodup_flatMap_split (tg nv : Nat) : ∀ (l : List Nat), l.Nodup → nv ∉ l →
    (l.flatMap (fun v => if v = tg then [v, nv] else [v])).Nodup
  | [], _, _ => by simp
  | a :: l, hnd, hnv => by
    simp only [List.mem_cons, not_or] at hnv
    obtain ⟨ha, hl⟩ := List.nodup_cons.mp hnd
    by_cases hat : a = tg
    · subst hat
      simp only [List.flatMap_cons, if_true, flatMap_split_of_not_mem a nv l ha]
      simp only [List.cons_append, List.nil_append, List.nodup_cons, List.mem_cons, not_or]
      exact ⟨⟨fun h => hnv.1 h.symm, ha⟩, hnv.2, hl⟩
    · simp only [List.flatMap_cons, if_neg hat, List.singleton_append, List.nodup_cons]
      refine ⟨?_, nodup_flatMap_split tg nv l hl hnv.2⟩
      intro hin
      rcases mem_flatMap_split tg nv a l hin with h | h
      · exact ha h
      · exact hnv.1 h.symm

mutual
/-- The leaves of a tree after a split. -/
theorem leaves_splitLeaf (tg : Nat) (o : Orientation) (nv s : Nat) : ∀ (t : PaneTreeNode),
    (t.splitLeaf tg o nv s).leaves = t.leaves.flatMap (fun v => if v = tg then [v, nv] else [v])
  | .Leaf v s1 => by
    by_cases h : v = tg
    · simp [splitLeaf, leaves, leavesOfList, h]
    · simp [splitLeaf, leaves, h]
  | .Split o1 cs f => by
    simp only [splitLeaf, leaves]
    exact leaves_splitLeafList tg o nv s cs
/-- The leaves of a sequence of trees after a split. -/
theorem leaves_splitLeafList (tg : Nat) (o : Orientation) (nv s : Nat) :
    ∀ (cs : List PaneTreeNode),
      leavesOfList (splitLeafList tg o nv s cs)
        = (leavesOfList cs).flatMap (fun v => if v = tg then [v, nv] else [v])
  | [] => by simp [splitLeafList, leavesOfList]
  | c :: cs => by
    simp only [splitLeafList, leavesOfList, List.flatMap_append, leaves_splitLeaf tg o nv s c,
      leaves_splitLeafList tg o nv s cs]
end

mutual
/-- A split keeps every split of the tree at two children or more. -/
theorem wellFormed_splitLeaf (tg : Nat) (o : Orientation) (nv s : Nat) : ∀ (t : PaneTreeNode),
    t.wellFormed = true → (t.splitLeaf tg o nv s).wellFormed = true
  | .Leaf v s1, _ => by
    by_cases h : v = tg
    · simp [splitLeaf, wellFormed, wellFormedList, h]
    · simp [splitLeaf, wellFormed, h]
  | .Split o1 cs f, h => by
    simp only [wellFormed, Bool.and_eq_true, decide_eq_true_eq] at h
    have := wellFormed_splitLeafList tg o nv s cs h.2
    simp only [splitLeaf, wellFormed, Bool.and_eq_true, decide_eq_true_eq]
    exact ⟨by rw [this.2]; exact h.1, this.1⟩
/-- The same for a sequence of trees, whose length a split keeps. -/
theorem wellFormed_splitLeafList (tg : Nat) (o : Orientation) (nv s : Nat) :
    ∀ (cs : List PaneTreeNode), wellFormedList cs = true →
      wellFormedList (splitLeafList tg o nv s cs) = true ∧
      (splitLeafList tg o nv s cs).length = cs.length
  | [], _ => by simp [splitLeafList, wellFormedList]
  | c :: cs, h => by
    simp only [wellFormedList, Bool.and_eq_true] at h
    have h1 := wellFormed_splitLeaf tg o nv s c h.1
    have h2 := wellFormed_splitLeafList tg o nv s cs h.2
    simp only [splitLeafList, wellFormedList, Bool.and_eq_true, List.length_cons]
    exact ⟨⟨h1, h2.1⟩, by rw [h2.2]⟩
end

mutual
/-- The leaves left by a removal are leaves of before, in their order. -/
theorem leaves_removeLeaf (view : Nat) : ∀ (t t1 : PaneTreeNode),
    t.removeLeaf view = some t1 → t1.leaves.Sublist t.leaves
  | .Leaf v s, t1, h => by
    simp only [removeLeaf] at h
    split at h
    · cases h
    · cases h; exact List.Sublist.refl _
  | .Split o cs f, t1, h => by
    have hl := leaves_removeLeafList view cs
    simp only [removeLeaf] at h
    simp only [leaves]
    split at h
    · split at h
      · cases h
      · next c heq =>
        cases h
        rw [heq] at hl
        simpa [leavesOfList] using hl
      · next c c1 rest heq =>
        cases h
        rw [heq] at hl
        simpa [leaves] using hl
    · cases h
      simpa [leaves] using hl
/-- The same for a sequence of trees. -/
theorem leaves_removeLeafList (view : Nat) : ∀ (cs : List PaneTreeNode),
    (leavesOfList (removeLeafList view cs)).Sublist (leavesOfList cs)
  | [] => by simp [removeLeafList]
  | c :: cs => by
    have ih := leaves_removeLeafList view cs
    simp only [removeLeafList]
    cases hc : c.removeLeaf view with
    | none =>
      simp only [leavesOfList]
      exact List.Sublist.trans ih (List.sublist_append_right _ _)
    | some c1 =>
      simp only [leavesOfList]
      exact List.Sublist.append (leaves_removeLeaf view c c1 hc) ih
end

mutual
/-- A removal keeps every split of the tree at two children or more. -/
theorem wellFormed_removeLeaf (view : Nat) : ∀ (t t1 : PaneTreeNode),
    t.wellFormed = true → t.removeLeaf view = some t1 → t1.wellFormed = true
  | .Leaf v s, t1, _, h => by
    simp only [removeLeaf] at h
    split at h
    · cases h
    · cases h; rfl
  | .Split o cs f, t1, hw, h => by
    simp only [wellFormed, Bool.and_eq_true, decide_eq_true_eq] at hw
    have hl := wellFormed_removeLeafList view cs hw.2
    simp only [removeLeaf] at h
    split at h
    · split at h
      · cases h
      · next c heq =>
        cases h
        rw [heq] at hl
        simpa [wellFormedList] using hl
      · next c c1 rest heq =>
        cases h
        rw [heq] at hl
        simp only [wellFormed, Bool.and_eq_true, decide_eq_true_eq, List.length_cons]
        exact ⟨by omega, hl⟩
    · next hlen =>
      cases h
      simp only [wellFormed, Bool.and_eq_true, decide_eq_true_eq]
      exact ⟨by omega, hl⟩
/-- The same for a sequence of trees. -/
theorem wellFormed_removeLeafList (view : Nat) : ∀ (cs : List PaneTreeNode),
    wellFormedList cs = true → wellFormedList (removeLeafList view cs) = true
  | [], _ => by simp [removeLeafList, wellFormedList]
  | c :: cs, h => by
    simp only [wellFormedList, Bool.and_eq_true] at h
    have ih := wellFormed_removeLeafList view cs h.2
    simp only [removeLeafList]
    cases hc : c.removeLeaf view with
    | none => exact ih
    | some c1 =>
      simp only [wellFormedList, Bool.and_eq_true]
      exact ⟨wellFormed_removeLeaf view c c1 h.1 hc, ih⟩
end

end PaneTreeNode

namespace ViewManager

/-- The split of the focused pane changes the pane trees only: at most the
trees of one tab, in which one pane is split. -/
theorem splitFocusedPane_eq (st : ViewManager) (cm : Option (Nat × PaneTreeNode))
    (display session : Nat) (o : Orientation) :
    ∃ trees, splitFocusedPane st cm display session o = { st with mtdTrees := trees } ∧
      (trees = st.mtdTrees ∨
        ∃ root target, trees = st.mtdTrees.map (fun e =>
          if e.1 = root then (e.1, e.2.splitLeaf target o display session) else e)) := by
  unfold splitFocusedPane
  split
  · next root tree =>
    split
    · next leaf _ => exact ⟨_, rfl, Or.inr ⟨root, leaf, rfl⟩⟩
    · exact ⟨st.mtdTrees, rfl, Or.inl rfl⟩
  · exact ⟨st.mtdTrees, rfl, Or.inl rfl⟩

/-- What `createMultiTerminalView` does to the map, the allocator and the
pane trees. -/
theorem createMultiTerminalView_spec {st st1 : ViewManager} {o : Orientation}
    (h : st.createMultiTerminalView o = some st1) :
    st1.sessionMap = st.sessionMap.insert (st.nextPtr + 1) (some st.nextPtr) ∧
    st1.nextPtr = st.nextPtr + 3 ∧
    (st1.mtdTrees = st.mtdTrees ∨
      ∃ root target, st1.mtdTrees = st.mtdTrees.map (fun e =>
        if e.1 = root then (e.1, e.2.splitLeaf target o (st.nextPtr + 1) st.nextPtr)
        else e)) := by
  unfold createMultiTerminalView at h
  simp only [Option.bind_eq_bind, Option.bind_eq_some] at h
  obtain ⟨p, hp, ⟨d, sa⟩, h1, ⟨c, sb⟩, h2, cm, h3, h4⟩ := h
  obtain ⟨trees, heq, htrees⟩ := splitFocusedPane_eq sb cm d
    (st.createSession st.defaultProfile).1 o
  simp only at h4
  rw [heq] at h4
  obtain ⟨ac, rfl⟩ := updateDetachViewState_eq h4
  obtain ⟨fc, hfc⟩ := connectFinished_eq (st.createSession st.defaultProfile).2
    (st.createSession st.defaultProfile).1
  rw [hfc] at h1
  simp only [createTerminalDisplay, createSession, Option.bind_eq_bind, Option.some_bind,
    Option.some.injEq, Prod.mk.injEq] at h1
  obtain ⟨rfl, rfl⟩ := h1
  simp only [createController, applyProfileToView, emit, sessionAddView, hp,
    Option.isNone_some, Bool.false_eq_true, if_false, Option.some.injEq, Prod.mk.injEq] at h2
  obtain ⟨rfl, rfl⟩ := h2
  exact ⟨rfl, rfl, htrees⟩

/-- A key the map contains is one of its keys. -/
theorem mem_keys_of_contains {m : SessionMap} {k : Nat} (h : m.contains k = true) :
    k ∈ m.keys := by
  unfold SessionMap.contains SessionMap.find? at h
  obtain ⟨p, hp, hk⟩ := List.lookup_isSome_iff.mp h
  simp only [beq_iff_eq] at hk
  exact List.mem_map.mpr ⟨p, hp, hk.symm⟩

/-- The tree a tab is looked up with is one of the stored trees. -/
theorem mem_of_mtdOf {st : ViewManager} {w : Nat} {tree : PaneTreeNode}
    (h : st.mtdOf w = some tree) : (w, tree) ∈ st.mtdTrees := by
  unfold mtdOf at h
  obtain ⟨l1, l2, heq, _⟩ := List.lookup_eq_some_iff.mp h
  rw [heq]
  simp

/-- The tab that `activeContainerMtd` gives has its tree among the stored ones. -/
theorem mem_of_activeContainerMtd {st : ViewManager} {root : Nat} {tree : PaneTreeNode}
    (h : st.activeContainerMtd = some (some (root, tree))) : (root, tree) ∈ st.mtdTrees := by
  unfold activeContainerMtd at h
  simp only [Option.bind_eq_bind, Option.bind_eq_some, Option.some.injEq, Option.map_eq_some',
    Prod.mk.injEq] at h
  obtain ⟨sp, _, c, _, cont, _, w, _, t, ht, rfl, rfl⟩ := h
  exact mem_of_mtdOf ht

/-- A split for a new session keeps the panes registered. -/
theorem createMultiTerminalView_registered {st st1 : ViewManager} {o : Orientation}
    (hinv : st.PanesRegistered) (h : st.createMultiTerminalView o = some st1) :
    st1.PanesRegistered := by
  obtain ⟨hmap, hn, htrees⟩ := createMultiTerminalView_spec h
  have hcontains : ∀ v, st.sessionMap.contains v = true → st1.sessionMap.contains v = true := by
    intro v hv
    unfold SessionMap.contains at hv ⊢
    rw [hmap, SessionMap.find?_insert]
    split
    · rfl
    · exact hv
  have hnew : st1.sessionMap.contains (st.nextPtr + 1) = true := by
    unfold SessionMap.contains
    rw [hmap, SessionMap.find?_insert, if_pos rfl]
    rfl
  intro e1 he1
  rcases htrees with heq | ⟨root, target, heq⟩
  · rw [heq] at he1
    obtain ⟨hw, hnd, hl⟩ := hinv e1 he1
    exact ⟨hw, hnd, fun v hv => ⟨hcontains v (hl v hv).1, by have := (hl v hv).2; omega⟩⟩
  · rw [heq] at he1
    obtain ⟨e, he, rfl⟩ := List.mem_map.mp he1
    obtain ⟨hw, hnd, hl⟩ := hinv e he
    split
    · simp only
      have hfresh : st.nextPtr + 1 ∉ e.2.leaves := by
        intro hin
        have := (hl _ hin).2
        omega
      refine ⟨PaneTreeNode.wellFormed_splitLeaf _ _ _ _ _ hw, ?_, ?_⟩
      · rw [PaneTreeNode.leaves_splitLeaf]
        exact PaneTreeNode.nodup_flatMap_split _ _ _ hnd hfresh
      · intro v hv
        rw [PaneTreeNode.leaves_splitLeaf] at hv
        rcases PaneTreeNode.mem_flatMap_split _ _ _ _ hv with hv | rfl
        · exact ⟨hcontains v (hl v hv).1, by have := (hl v hv).2; omega⟩
        · exact ⟨hnew, by omega⟩
    · exact ⟨hw, hnd, fun v hv => ⟨hcontains v (hl v hv).1, by have := (hl v hv).2; omega⟩⟩

/-- The removal of a tab keeps the panes registered. -/
theorem removeTab_registered {st : ViewManager} (hinv : st.PanesRegistered) (root : Nat) :
    (st.removeTab root).PanesRegistered := by
  intro e he
  have he0 : e ∈ st.mtdTrees := List.mem_of_mem_filter he
  exact hinv e he0

/-- The removal of the focused pane keeps the panes registered. -/
theorem multiTerminalClose_registered {st st1 : ViewManager}
    (hinv : st.PanesRegistered) (h : st.multiTerminalClose = some st1) :
    st1.PanesRegistered := by
  unfold multiTerminalClose at h
  simp only [Option.bind_eq_bind, Option.bind_eq_some] at h
  obtain ⟨cm, hcm, h⟩ := h
  split at h
  · next root tree =>
    split at h
    · next leaf _ =>
      cases h
      have hmem := mem_of_activeContainerMtd hcm
      obtain ⟨hw, hnd, hl⟩ := hinv _ hmem
      unfold removeTerminalDisplay
      cases hr : tree.removeLeaf leaf with
      | none => exact removeTab_registered hinv root
      | some tree1 =>
        intro e1 he1
        obtain ⟨e, he, rfl⟩ := List.mem_map.mp he1
        split
        · have hsub := PaneTreeNode.leaves_removeLeaf leaf tree tree1 hr
          exact ⟨PaneTreeNode.wellFormed_removeLeaf leaf tree tree1 hw hr, hsub.nodup hnd,
            fun v hv => hl v (hsub.subset hv)⟩
        · exact hinv e he
    · cases h; exact hinv
  · cases h; exact hinv

/-- The removal of a tab by its close button keeps the panes registered. -/
theorem closeTabFromContainer_registered {st : ViewManager} (hinv : st.PanesRegistered)
    (c tab : Nat) : (st.closeTabFromContainer c tab).PanesRegistered := by
  unfold closeTabFromContainer dismissMultiTerminals
  split
  · exact removeTab_registered hinv _
  · exact hinv

end ViewManager

/-- Every sequence of operations on panes keeps the panes registered. -/
theorem runPanes_registered (ops : List PaneOp) :
    ∀ {st st1 : ViewManager}, st.PanesRegistered → runPanes st ops = some st1 →
      st1.PanesRegistered := by
  induction ops with
  | nil => intro st st1 hinv h; simp only [runPanes] at h; cases h; exact hinv
  | cons op ops ih =>
    intro st st1 hinv h
    simp only [runPanes, Option.bind_eq_some] at h
    obtain ⟨sa, h1, h2⟩ := h
    refine ih ?_ h2
    cases op with
    | createMultiTerminalView o =>
      exact ViewManager.createMultiTerminalView_registered hinv h1
    | multiTerminalClose => exact ViewManager.multiTerminalClose_registered hinv h1
    | closeTabFromContainer c t =>
      simp only [stepPane, Option.some.injEq] at h1
      subst h1
      exact ViewManager.closeTabFromContainer_registered hinv c t

/-- The one pane of `exampleOne` is registered. -/
theorem exampleOne_registered : exampleOne.PanesRegistered := by
  unfold ViewManager.PanesRegistered
  decide

/-- C22: for every direction, with a live splitter and a live active
container, `moveMtdFocus(direction)` gives the focus to the neighbour, in that
direction, of the focused leaf of the pane tree of the active tab when the
tree has such a neighbour, and changes nothing else; when there is no active
tab with a tree, no focused leaf or no neighbour, it returns the state
unchanged. -/
theorem moveMtdFocus_moves_to_neighbor (st : ViewManager) (direction : Direction)
    (sp : ViewSplitter) (c : Nat) (cont : ViewContainer)
    (hsp : st.viewSplitter = some sp) (hac : sp.activeContainer = some c)
    (hcont : st.findContainer c = some cont) :
    (∀ (tab : Nat) (tree : PaneTreeNode) (leaf n : Nat),
      cont.activeView = some tab → st.mtdOf tab = some tree →
      tree.focusedLeaf = some leaf → tree.neighbor leaf direction = some n →
      st.moveMtdFocus direction = some { st with focus := some n }) ∧
    ((∀ (tab : Nat) (tree : PaneTreeNode) (leaf : Nat),
      cont.activeView = some tab → st.mtdOf tab = some tree →
      tree.focusedLeaf = some leaf → tree.neighbor leaf direction = none) →
      st.moveMtdFocus direction = some st) := by
  have hcm : st.activeContainerMtd
      = some (cont.activeView.bind (fun w => (st.mtdOf w).map (fun t => (w, t)))) := by
    simp only [ViewManager.activeContainerMtd, hsp, hac, hcont, Option.bind_eq_bind,
      Option.some_bind]
  unfold ViewManager.moveMtdFocus
  rw [hcm]
  simp only [Option.bind_eq_bind, Option.some_bind]
  constructor
  · intro tab tree leaf n htab htree hleaf hn
    simp only [htab, htree, Option.some_bind, Option.map_some',
      ViewManager.getTerminalDisplayTo, hleaf, hn]
  · intro hnone
    cases htab : cont.activeView with
    | none => simp only [Option.none_bind, ViewManager.getTerminalDisplayTo]
    | some tab =>
      cases htree : st.mtdOf tab with
      | none =>
        simp only [Option.some_bind, htree, Option.map_none',
          ViewManager.getTerminalDisplayTo]
      | some tree =>
        cases hleaf : tree.focusedLeaf with
        | none =>
          simp only [Option.some_bind, htree, Option.map_some',
            ViewManager.getTerminalDisplayTo, hleaf]
        | some leaf =>
          simp only [Option.some_bind, htree, Option.map_some',
            ViewManager.getTerminalDisplayTo, hleaf, hnone tab tree leaf htab htree hleaf]

/-- C22 at `examplePanes`, whose focused pane 9 has pane 2 to its left and no
pane to its right. -/
theorem moveMtdFocus_moves_to_neighbor_witness :
    examplePanes.moveMtdFocus .LEFT = some { examplePanes with focus := some 2 } ∧
    examplePanes.moveMtdFocus .RIGHT = some examplePanes :=
  ⟨(moveMtdFocus_moves_to_neighbor examplePanes .LEFT
      { containers := [1], activeContainerIndex := 0, focusProxy := some 2 } 1
      ⟨1, [3], some 3⟩ rfl rfl rfl).1 3
      (.Split .Horizontal [.Leaf 2 50, .Split .Vertical [.Leaf 6 5, .Leaf 9 8] 1] 1) 9 2
      rfl rfl (by decide) (by decide),
   (moveMtdFocus_moves_to_neighbor examplePanes .RIGHT
      { containers := [1], activeContainerIndex := 0, focusProxy := some 2 } 1
      ⟨1, [3], some 3⟩ rfl rfl rfl).2 (by
        intro tab tree leaf htab htree hleaf
        have h3 : tab = 3 := by
          simp only [Option.some.injEq] at htab
          exact htab.symm
        subst h3
        have ht : tree = .Split .Horizontal
            [.Leaf 2 50, .Split .Vertical [.Leaf 6 5, .Leaf 9 8] 1] 1 := by
          have : examplePanes.mtdOf 3 = some (.Split .Horizontal
            [.Leaf 2 50, .Split .Vertical [.Leaf 6 5, .Leaf 9 8] 1] 1) := rfl
          rw [this] at htree
          exact (Option.some.inj htree).symm
        subst ht
        have hl : leaf = 9 := by
          have : (PaneTreeNode.Split .Horizontal
            [.Leaf 2 50, .Split .Vertical [.Leaf 6 5, .Leaf 9 8] 1] 1).focusedLeaf = some 9 := by
            decide
          rw [this] at hleaf
          exact (Option.some.inj hleaf).symm
        subst hl
        decide)⟩

/-! ## Restoring into one container -/

namespace ViewManager

/-- The container object behind a pointer after every container was changed
by a function that keeps the pointers. -/
theorem findContainer_of_containers (a st : ViewManager) (g : ViewContainer → ViewContainer)
    (hg : ∀ x, (g x).ptr = x.ptr) (h : a.containers = st.containers.map g) (c1 : Nat) :
    a.findContainer c1 = (st.findContainer c1).map g := by
  rw [← findContainer_map st g hg c1]
  unfold findContainer
  rw [h]

/-- The new tab is a tab of the container it was inserted into. -/
theorem mem_qInsert (l : List Nat) (i : Int) (w : Nat) : w ∈ qInsert l i w :=
  (qInsert_perm l i w).mem_iff.mpr (List.mem_cons_self _ _)

/-- With a live splitter and a live container, `createView(session,
container, index)` returns; the container has the new tab at the index, and
the tab is its active one when the container is the active one. -/
theorem createViewInContainer_active (st : ViewManager) (s c : Nat) (i : Int)
    (sp : ViewSplitter) (cont : ViewContainer)
    (hsp : st.viewSplitter = some sp) (hc : st.findContainer c = some cont) :
    ∃ (st1 : ViewManager) (sp1 : ViewSplitter) (cont1 : ViewContainer),
      st.createViewInContainer (some s) c i = some st1 ∧
      st1.viewSplitter = some sp1 ∧ sp1.containers = sp.containers ∧
      sp1.activeContainerIndex = sp.activeContainerIndex ∧
      st1.sessionMap = st.sessionMap.insert st.nextPtr (some s) ∧
      st1.mtdTrees = st.mtdTrees ++ [(st.nextPtr + 1, .Leaf st.nextPtr s)] ∧
      st1.nextPtr = st.nextPtr + 3 ∧
      st1.newTabBehavior = st.newTabBehavior ∧
      st1.defaultProfile = st.defaultProfile ∧
      st1.findContainer c = some cont1 ∧
      cont1.views = qInsert cont.views i (st.nextPtr + 1) ∧
      (sp.activeContainer = some c → cont1.activeView = some (st.nextPtr + 1)) := by
  obtain ⟨fc, hfc⟩ := connectFinished_eq st s
  unfold createViewInContainer
  simp only [Option.bind_eq_bind, Option.some_bind, hfc, createTerminalDisplay,
    createRootTerminalDisplay, applyProfileToView, emit]
  obtain ⟨fp, p, e, hctl⟩ := createController_total
    { st with
      finishedConnections := fc
      nextPtr := st.nextPtr + 1 + 1
      terminalDisplays := st.terminalDisplays ++ [st.nextPtr]
      mtdTrees := st.mtdTrees ++ [(st.nextPtr + 1, .Leaf st.nextPtr s)]
      emitted := st.emitted ++ [.updateWindowIcon] } s st.nextPtr sp hsp
  simp only [hctl, Option.some_bind]
  have hc1 := hc
  unfold findContainer at hc1
  simp only [findContainer, hc1, Option.some_bind, sessionAddView, modifyContainer]
  have hptr := findContainer_ptr hc
  split
  · -- the container is the active one
    obtain ⟨ac, hupd⟩ := updateDetachViewState_total
      ({ ((({ st with
            viewSplitter := some { sp with focusProxy := fp }
            finishedConnections := fc
            nextPtr := st.nextPtr + 1 + 1 + 1
            terminalDisplays := st.terminalDisplays ++ [st.nextPtr]
            mtdTrees := st.mtdTrees ++ [(st.nextPtr + 1, .Leaf st.nextPtr s)]
            emitted := e
            controllers := st.controllers ++ [⟨st.nextPtr + 1 + 1, s, st.nextPtr⟩]
            pluggedController := p
            sessionMap := st.sessionMap.insert st.nextPtr (some s)
            sessionViews := st.sessionViews ++ [(s, st.nextPtr)] } : ViewManager).modifyContainer c
              (fun x => x.addView (st.nextPtr + 1) i)).modifyContainer c
              (fun x => x.setActiveView (st.nextPtr + 1))) with focus := some st.nextPtr })
      { sp with focusProxy := fp } rfl
    have hg : ∀ x : ViewContainer,
        ((fun x : ViewContainer => if x.ptr = c then x.setActiveView (st.nextPtr + 1) else x)
          ((fun x : ViewContainer => if x.ptr = c then x.addView (st.nextPtr + 1) i else x) x)).ptr
          = x.ptr := by
      intro x
      dsimp only
      by_cases h : x.ptr = c <;> simp [h, addView_ptr, setActiveView_ptr]
    refine ⟨_, _, (cont.addView (st.nextPtr + 1) i).setActiveView (st.nextPtr + 1), hupd,
      rfl, rfl, rfl, rfl, rfl, rfl, rfl, rfl, ?_, ?_, ?_⟩
    · refine (findContainer_of_containers _ st _ hg
        (by simp [modifyContainer, List.map_map]) c).trans ?_
      rw [hc]
      simp [hptr, addView_ptr]
    · rw [setActiveView_views]; rfl
    · intro _
      unfold ViewContainer.setActiveView
      rw [if_pos (by exact mem_qInsert _ _ _)]
  · next hna =>
    obtain ⟨ac, hupd⟩ := updateDetachViewState_total
      (({ st with
            viewSplitter := some { sp with focusProxy := fp }
            finishedConnections := fc
            nextPtr := st.nextPtr + 1 + 1 + 1
            terminalDisplays := st.terminalDisplays ++ [st.nextPtr]
            mtdTrees := st.mtdTrees ++ [(st.nextPtr + 1, .Leaf st.nextPtr s)]
            emitted := e
            controllers := st.controllers ++ [⟨st.nextPtr + 1 + 1, s, st.nextPtr⟩]
            pluggedController := p
            sessionMap := st.sessionMap.insert st.nextPtr (some s)
            sessionViews := st.sessionViews ++ [(s, st.nextPtr)] } : ViewManager).modifyContainer c
              (fun x => x.addView (st.nextPtr + 1) i))
      { sp with focusProxy := fp } rfl
    have hg : ∀ x : ViewContainer,
        ((fun x : ViewContainer => if x.ptr = c then x.addView (st.nextPtr + 1) i else x) x).ptr
          = x.ptr := by
      intro x
      dsimp only
      by_cases h : x.ptr = c <;> simp [h, addView_ptr]
    refine ⟨_, _, cont.addView (st.nextPtr + 1) i, hupd,
      rfl, rfl, rfl, rfl, rfl, rfl, rfl, rfl, ?_, rfl, ?_⟩
    · refine (findContainer_of_containers _ st _ hg (by simp [modifyContainer]) c).trans ?_
      rw [hc]
      simp [hptr]
    · intro ha
      exact absurd ha hna

/-- The last of distinct tabs is at the last position. -/
theorem indexOf_getLast (l : List Nat) (v : Nat) (hnd : l.Nodup) (h : l.getLast? = some v) :
    l.indexOf v + 1 = l.length := by
  obtain ⟨ys, rfl⟩ := List.getLast?_eq_some_iff.mp h
  have hv : v ∉ ys := by
    intro hin
    have := List.disjoint_of_nodup_append hnd hin
    simp at this
  rw [List.indexOf_append_of_not_mem hv]
  simp

/-- A tab inserted at the length of the list comes last. -/
theorem qInsert_length (l : List Nat) (w : Nat) : qInsert l (l.length : Int) w = l ++ [w] := by
  unfold qInsert
  rw [if_neg (by omega)]
  simp

/-- In a window of one container the index `createView(session)` passes on
puts the new tab last, under both new-tab behaviours. -/
theorem newTabIndex_one {st : ViewManager} {c : Nat} {tabs : List Nat}
    (h : st.OneContainer c tabs) (w : Nat) :
    ∃ i, st.newTabIndex = some i ∧ qInsert tabs i w = tabs ++ [w] := by
  obtain ⟨sp, cont, hsp, hcs, hac, hcont, hviews, hnd, _, _, _, hact⟩ := h
  unfold newTabIndex
  split
  · simp only [activeView, hsp, hac, hcont, Option.bind_eq_bind, Option.some_bind, pure]
    cases hav : cont.activeView with
    | none => exact ⟨-1, rfl, qInsert_append tabs w⟩
    | some v =>
      simp only [hviews]
      refine ⟨_, rfl, ?_⟩
      rcases hact with rfl | hact
      · rw [qInsert_nil]; rfl
      · rw [hav] at hact
        have := indexOf_getLast tabs v hnd hact.symm
        have hmem : v ∈ tabs := by
          obtain ⟨ys, rfl⟩ := List.getLast?_eq_some_iff.mp hact.symm
          simp
        unfold qIndexOf
        rw [if_pos hmem]
        have h2 : ((List.indexOf v tabs : Nat) : Int) + 1 = (tabs.length : Int) := by
          exact_mod_cast this
        rw [h2]
        exact qInsert_length tabs w
  · exact ⟨-1, rfl, qInsert_append tabs w⟩

/-- The keys of the map after an assignment. -/
theorem mem_keys_insert {m : SessionMap} {k x : Nat} {v : Option Nat}
    (h : x ∈ (m.insert k v).keys) : x = k ∨ x ∈ m.keys := by
  simp only [SessionMap.keys, SessionMap.insert, SessionMap.remove, List.map_cons,
    List.mem_cons, List.mem_map, List.mem_filter] at h ⊢
  rcases h with h | ⟨e, ⟨he, _⟩, rfl⟩
  · exact Or.inl h
  · exact Or.inr ⟨e, he, rfl⟩

/-- The values of the map after an assignment. -/
theorem mem_values_insert {m : SessionMap} {k : Nat} {v x : Option Nat}
    (h : x ∈ (m.insert k v).entries.map Prod.snd) : x = v ∨ x ∈ m.entries.map Prod.snd := by
  simp only [SessionMap.insert, SessionMap.remove, List.map_cons,
    List.mem_cons, List.mem_map, List.mem_filter] at h ⊢
  rcases h with h | ⟨e, ⟨he, _⟩, rfl⟩
  · exact Or.inl h
  · exact Or.inr ⟨e, he, rfl⟩

/-- In a window of one container `createView(s)` returns and appends one tab,
the leaf of a new view of `s`, which becomes the active tab. -/
theorem createView_one {st : ViewManager} {c : Nat} {tabs : List Nat}
    (h : st.OneContainer c tabs) (s : Nat) :
    ∃ st1, st.createView (some s) = some st1 ∧
      st1.OneContainer c (tabs ++ [st.nextPtr + 1]) ∧
      st1.sessionMap = st.sessionMap.insert st.nextPtr (some s) ∧
      st1.mtdTrees = st.mtdTrees ++ [(st.nextPtr + 1, .Leaf st.nextPtr s)] ∧
      st1.nextPtr = st.nextPtr + 3 ∧
      st1.defaultProfile = st.defaultProfile := by
  obtain ⟨i, hi, hins⟩ := newTabIndex_one h (st.nextPtr + 1)
  obtain ⟨sp, cont, hsp, hcs, hac, hcont, hviews, hnd, hlt, htr, hkeys, hact⟩ := h
  obtain ⟨st1, sp1, cont1, h1, hsp1, hc1, hi1, hmap, htrees, hn, _, hdp, hcont1, hviews1,
    hact1⟩ := createViewInContainer_active st s c i sp cont hsp hcont
  refine ⟨st1, ?_, ⟨sp1, cont1, hsp1, hc1.trans hcs, ?_, hcont1, ?_, ?_, ?_, ?_, ?_, Or.inr ?_⟩,
    hmap, htrees, hn, hdp⟩
  · unfold createView
    simp only [hsp, Option.bind_eq_bind, Option.some_bind, hcs, List.length_singleton,
      Nat.succ_ne_zero, if_false, hi, createViewLoop, h1]
  · unfold ViewSplitter.activeContainer at hac ⊢
    rw [hc1, hi1]; exact hac
  · rw [hviews1, hviews, hins]
  · rw [List.nodup_append]
    refine ⟨hnd, by simp, ?_⟩
    intro a ha hb
    simp only [List.mem_singleton] at hb
    have := hlt a ha
    omega
  · intro w hw
    rw [hn]
    rcases List.mem_append.mp hw with hw | hw
    · have := hlt w hw; omega
    · simp only [List.mem_singleton] at hw; omega
  · intro e he
    rw [htrees] at he
    rw [hn]
    rcases List.mem_append.mp he with he | he
    · have := htr e he; omega
    · simp only [List.mem_singleton] at he; subst he; simp
  · intro k hk
    rw [hmap] at hk
    rw [hn]
    rcases mem_keys_insert hk with rfl | hk
    · omega
    · have := hkeys k hk; omega
  · rw [hact1 hac, List.getLast?_concat]

/-- The statement `if (!session->isRunning()) session->run();` changes the
record of running sessions only. -/
theorem runIfNotRunning_eq (st : ViewManager) (s : Nat) :
    ∃ r, st.runIfNotRunning s = { st with running := r } := by
  unfold runIfNotRunning
  split
  · exact ⟨st.running, rfl⟩
  · exact ⟨_, rfl⟩

/-- In a window of one container the new value of `display` is defined. -/
theorem restoreDisplay_one {st : ViewManager} {c : Nat} {tabs : List Nat}
    (h : st.OneContainer c tabs) (tab a : Int) (display : Option Nat) :
    ∃ d1, st.restoreDisplay tab a display = some d1 := by
  obtain ⟨sp, cont, hsp, hcs, hac, hcont, _⟩ := h
  unfold restoreDisplay
  split
  · simp only [activeView, hsp, hac, hcont, Option.bind_eq_bind, Option.some_bind, pure,
      Option.map_some']
    exact ⟨_, rfl⟩
  · exact ⟨display, rfl⟩

/-- In a window of one container the loop of `restoreSessions` over IDs that
all resolve runs to its end and appends one tab per ID, in order, each the
leaf of a new view of the session of its ID. -/
theorem restoreSessionsLoop_one (f : Int → Option Nat) (a : Int) (c : Nat) (ids : List Int) :
    ∀ (st : ViewManager) (tabs : List Nat) (display : Option Nat) (tab : Int),
      st.OneContainer c tabs → (∀ id ∈ ids, (f id).isSome = true) →
      ∃ (st1 : ViewManager) (d1 : Option Nat) (triples : List (Nat × Nat × Nat)),
        restoreSessionsLoop f a st display tab ids = some (d1, st1) ∧
        st1.OneContainer c (tabs ++ triples.map (fun x => x.1)) ∧
        triples.map (fun x => some x.2.2) = ids.map f ∧
        (∀ x ∈ triples, st1.mtdOf x.1 = some (.Leaf x.2.1 x.2.2) ∧
          st1.sessionMap.find? x.2.1 = some (some x.2.2)) ∧
        st.nextPtr ≤ st1.nextPtr ∧ st1.defaultProfile = st.defaultProfile ∧
        (∀ w tr, st.mtdOf w = some tr → st1.mtdOf w = some tr) ∧
        (∀ k, k < st.nextPtr → st1.sessionMap.find? k = st.sessionMap.find? k) ∧
        (∀ x ∈ st1.sessionMap.entries.map Prod.snd,
          x ∈ st.sessionMap.entries.map Prod.snd ∨ x ∈ ids.map f) := by
  induction ids with
  | nil =>
    intro st tabs display tab h _
    refine ⟨st, display, [], rfl, by simpa using h, rfl, by simp, Nat.le_refl _, rfl,
      fun _ _ h => h, fun _ _ => rfl, fun x hx => Or.inl hx⟩
  | cons id rest ih =>
    intro st tabs display tab h hall
    obtain ⟨s, hs⟩ := Option.isSome_iff_exists.mp (hall id (List.mem_cons_self _ _))
    obtain ⟨sa, h1, hone, hmap, htrees, hn, hdp⟩ := createView_one h s
    obtain ⟨r, hr⟩ := runIfNotRunning_eq sa s
    have hone2 : (sa.runIfNotRunning s).OneContainer c (tabs ++ [st.nextPtr + 1]) := by
      rw [hr]; exact hone
    obtain ⟨d2, hd2⟩ := restoreDisplay_one hone2 tab a display
    obtain ⟨st1, d1, triples, h2, hone1, hsess, hfacts, hn1, hdp1, hpres, hfind, hvals⟩ :=
      ih (sa.runIfNotRunning s) (tabs ++ [st.nextPtr + 1]) d2 (tab + 1) hone2
        (fun x hx => hall x (List.mem_cons_of_mem _ hx))
    have hkeys : ∀ e ∈ st.mtdTrees, e.1 < st.nextPtr := by
      obtain ⟨_, _, _, _, _, _, _, _, _, htr, _⟩ := h
      exact htr
    have hna : (sa.runIfNotRunning s).nextPtr = st.nextPtr + 3 := by rw [hr]; exact hn
    have hmt : ∀ w, (sa.runIfNotRunning s).mtdOf w
        = List.lookup w (st.mtdTrees ++ [(st.nextPtr + 1, .Leaf st.nextPtr s)]) := by
      intro w
      rw [hr]
      show List.lookup w sa.mtdTrees = _
      rw [htrees]
    have hsm : (sa.runIfNotRunning s).sessionMap = st.sessionMap.insert st.nextPtr (some s) := by
      rw [hr]; exact hmap
    refine ⟨st1, d1, (st.nextPtr + 1, st.nextPtr, s) :: triples, ?_, ?_, ?_, ?_,
      by rw [hna] at hn1; omega, ?_, ?_, ?_, ?_⟩
    · simp only [restoreSessionsLoop, hs, h1, Option.bind_eq_bind, Option.some_bind, hd2]
      exact h2
    · simpa [List.append_assoc] using hone1
    · simp only [List.map_cons, hs, hsess]
    · intro x hx
      rcases List.mem_cons.mp hx with rfl | hx
      · constructor
        · apply hpres
          show (sa.runIfNotRunning s).mtdOf (st.nextPtr + 1) = _
          rw [hmt]
          apply lookup_append_of_fresh
          intro e he
          have := hkeys e he
          omega
        · show st1.sessionMap.find? st.nextPtr = some (some s)
          rw [hfind st.nextPtr (by rw [hna]; omega), hsm, SessionMap.find?_insert, if_pos rfl]
      · exact hfacts x hx
    · rw [hdp1, hr]; exact hdp
    · intro w tr hw
      apply hpres
      rw [hmt]
      exact lookup_append_left _ _ _ _ hw
    · intro k hk
      rw [hfind k (by rw [hna]; omega), hsm, SessionMap.find?_insert, if_neg (by omega)]
    · intro x hx
      rcases hvals x hx with hx | hx
      · rw [hsm] at hx
        rcases mem_values_insert hx with rfl | hx
        · right; simp [hs]
        · exact Or.inl hx
      · right
        exact List.mem_cons_of_mem _ hx

/-- In a window of one empty container, `restoreSessions` of a non-empty list
of IDs that all resolve returns and leaves in the container one tab per ID, in
order, each the leaf of a new view of the session of its ID. -/
theorem restoreSessions_one (f : Int → Option Nat) {st : ViewManager} {c : Nat}
    (h : st.OneContainer c []) (ids : List Int) (hne : ids ≠ [])
    (hall : ∀ id ∈ ids, (f id).isSome = true) (active : Option Int) :
    ∃ (st2 : ViewManager) (sp2 : ViewSplitter) (cont2 : ViewContainer)
      (triples : List (Nat × Nat × Nat)),
      st.restoreSessions f ⟨some ids, active⟩ = some st2 ∧
      st2.viewSplitter = some sp2 ∧ sp2.activeContainer = some c ∧
      st2.findContainer c = some cont2 ∧
      cont2.views = triples.map (fun x => x.1) ∧
      triples.map (fun x => some x.2.2) = ids.map f ∧
      (∀ x ∈ triples, st2.mtdOf x.1 = some (.Leaf x.2.1 x.2.2) ∧
        st2.sessionMap.find? x.2.1 = some (some x.2.2)) ∧
      (∀ x ∈ st2.sessionMap.entries.map Prod.snd,
        x ∈ st.sessionMap.entries.map Prod.snd ∨ x ∈ ids.map f) := by
  obtain ⟨st1, d1, triples, h1, hone1, hsess, hfacts, _, _, _, _, hvals⟩ :=
    restoreSessionsLoop_one f (active.getD 0) c ids st [] none 1 h hall
  obtain ⟨sp, cont, hsp, hcs, hac, hcont, hviews, _⟩ := hone1
  have hempty : ids.isEmpty = false := by
    cases ids with
    | nil => exact absurd rfl hne
    | cons _ _ => rfl
  unfold restoreSessions
  simp only [Option.getD_some, Option.bind_eq_bind, h1, Option.some_bind]
  cases d1 with
  | none =>
    refine ⟨st1, sp, cont, triples, ?_, hsp, hac, hcont, by simpa using hviews, hsess, hfacts,
      hvals⟩
    simp only [restoreActiveView, Option.some_bind, restoreDefaultSession, hempty,
      Bool.false_eq_true, if_false]
  | some d =>
    have hptr := findContainer_ptr hcont
    refine ⟨{ st1.modifyContainer c (fun x => x.setActiveView d) with focus := some d }, sp,
      cont.setActiveView d, triples, ?_, hsp, hac, ?_, ?_, hsess, hfacts, hvals⟩
    · simp only [restoreActiveView, hsp, hac, hcont, Option.bind_eq_bind, Option.some_bind,
        restoreDefaultSession, hempty, Bool.false_eq_true, if_false]
    · show (st1.modifyContainer c (fun x => x.setActiveView d)).findContainer c = _
      rw [findContainer_modifyContainer st1 c (fun x => x.setActiveView d)
        (fun x => setActiveView_ptr x d) c, hcont]
      simp [hptr]
    · rw [setActiveView_views]
      simpa using hviews

/-- The displays of tabs that are single leaves. -/
theorem flatMap_tabDisplays (st : ViewManager) : ∀ (triples : List (Nat × Nat × Nat)),
    (∀ x ∈ triples, st.mtdOf x.1 = some (.Leaf x.2.1 x.2.2)) →
    (triples.map (fun x => x.1)).flatMap st.tabDisplays = triples.map (fun x => x.2.1)
  | [], _ => rfl
  | x :: rest, h => by
    have hx := h x (List.mem_cons_self _ _)
    have ih := flatMap_tabDisplays st rest (fun y hy => h y (List.mem_cons_of_mem _ hy))
    simp only [List.map_cons, List.flatMap_cons, ih]
    simp [tabDisplays, hx, PaneTreeNode.leaves]

/-- On a manager without containers `createView` first makes the default
container. -/
theorem createView_new (ed : Bool) (dp n : Nat) (s : Option Nat) :
    (ViewManager.new ed dp n).createView s
      = ViewManager.createView
          { ViewManager.new ed dp n with
            viewSplitter := some { containers := [n], activeContainerIndex := 0,
                                   focusProxy := none }
            containers := [⟨n, [], none⟩]
            nextPtr := n + 1 } s := by
  simp [createView, ViewManager.new, createContainer, ViewSplitter.addContainer]

/-- The state of a new manager with its default container is a window of one
empty container. -/
theorem new_oneContainer (ed : Bool) (dp n : Nat) :
    ViewManager.OneContainer
      { ViewManager.new ed dp n with
        viewSplitter := some { containers := [n], activeContainerIndex := 0,
                               focusProxy := none }
        containers := [⟨n, [], none⟩]
        nextPtr := n + 1 } n [] := by
  refine ⟨{ containers := [n], activeContainerIndex := 0, focusProxy := none },
    ⟨n, [], none⟩, rfl, rfl, rfl, ?_, rfl, List.nodup_nil, by simp, ?_, ?_, Or.inl rfl⟩
  · simp [findContainer]
  · intro e he; simp [ViewManager.new] at he
  · intro k hk; simp [ViewManager.new, SessionMap.keys] at hk

end ViewManager

/-- State `exampleDetached` is reached from a new manager by `createView` and
`detachView` of the tab. -/
theorem exampleDetached_reachable :
    run (ViewManager.new true 0 1) [.createView (some 50), .detachView 1 (some 3)]
      = some exampleDetached := rfl

/-- State `exampleAfterCurrent` has never handed out a pointer twice. -/
theorem exampleAfterCurrent_fresh : exampleAfterCurrent.Fresh := by
  unfold ViewManager.Fresh
  decide

/-- C27: in a window whose splitter holds one container, without tabs, and
for IDs that all resolve to a session, `restoreSessions` returns, and
afterwards the j-th tab of the container is a single pane whose display is
registered for the session of the j-th ID, for every j; when the list is not
empty the container has exactly as many tabs as there are IDs. No hypothesis
is made on the new-tab behaviour, so this holds under `PutNewTabAtTheEnd`
and under `PutNewTabAfterCurrentTab`. -/
theorem restoreSessions_tabs_in_order (st : ViewManager) (f : Int → Option Nat)
    (ids : List Int) (active : Option Int) (sp : ViewSplitter) (c : Nat) (cont : ViewContainer)
    (hsp : st.viewSplitter = some sp) (hcs : sp.containers = [c])
    (hac : sp.activeContainer = some c) (hcont : st.findContainer c = some cont)
    (hempty : cont.views = []) (hfresh : st.Fresh)
    (hall : ∀ id ∈ ids, (f id).isSome = true) :
    ∃ (st1 : ViewManager) (tabs : List Nat),
      st.restoreSessions f ⟨some ids, active⟩ = some st1 ∧
      st1.viewsOf c = tabs ∧
      (ids ≠ [] → tabs.length = ids.length) ∧
      ∀ (j : Nat) (id : Int), ids[j]? = some id →
        ∃ (t d s : Nat), tabs[j]? = some t ∧ f id = some s ∧
          st1.mtdOf t = some (.Leaf d s) ∧
          st1.sessionMap.find? d = some (some s) := by
  by_cases hne : ids = []
  · subst hne
    obtain ⟨st1, c1, d, t, h1, _⟩ :=
      ViewManager.createView_single (st.createSession st.defaultProfile).2
        (st.createSession st.defaultProfile).1 sp hsp (by rw [hcs]; simp)
        (by
          intro x hx
          rw [hcs] at hx
          simp only [List.mem_singleton] at hx
          subst hx
          show (st.findContainer x).isSome = true
          rw [hcont]; rfl)
        (by
          intro x hx
          rw [hcs] at hx
          simp only [List.mem_singleton] at hx
          subst hx
          show st.viewsOf x = []
          simp [ViewManager.viewsOf, hcont, hempty])
        (ViewManager.createSession_fresh st _ hfresh)
    refine ⟨st1.runIfNotRunning (st.createSession st.defaultProfile).1, _, ?_, rfl,
      fun h => absurd rfl h, fun j id hj => by simp at hj⟩
    simp only [ViewManager.restoreSessions, Option.getD_some, ViewManager.restoreSessionsLoop,
      Option.bind_eq_bind, Option.some_bind, ViewManager.restoreActiveView,
      ViewManager.restoreDefaultSession, List.isEmpty_nil, if_true]
    rw [h1]
    rfl
  · have hone : st.OneContainer c [] :=
      ⟨sp, cont, hsp, hcs, hac, hcont, hempty, List.nodup_nil, by simp,
        fun e he => (hfresh.2.2 e he).1, hfresh.1, Or.inl rfl⟩
    obtain ⟨st2, sp2, cont2, triples, h1, hsp2, hac2, hcont2, hviews2, hsess, hfacts, _⟩ :=
      ViewManager.restoreSessions_one f hone ids hne hall active
    have hlen : triples.length = ids.length := by
      have := congrArg List.length hsess
      simpa using this
    refine ⟨st2, triples.map (fun x => x.1), h1, ?_, fun _ => by simp [hlen], ?_⟩
    · simp [ViewManager.viewsOf, hcont2, hviews2]
    · intro j id hj
      have hj2 : (triples.map (fun x => some x.2.2))[j]? = some (f id) := by
        rw [hsess, List.getElem?_map, hj]; rfl
      rw [List.getElem?_map] at hj2
      cases hx : triples[j]? with
      | none => rw [hx] at hj2; simp at hj2
      | some x =>
        rw [hx] at hj2
        simp only [Option.map_some', Option.some.injEq] at hj2
        obtain ⟨hm, hfind⟩ := hfacts x (List.getElem?_mem hx)
        exact ⟨x.1, x.2.1, x.2.2, by rw [List.getElem?_map, hx]; rfl, hj2.symm, hm, hfind⟩

/-- C27 at `exampleAfterCurrent`, which puts new tabs after the current one,
with the IDs 51 and 50: the tabs show session 51 and then session 50. -/
theorem restoreSessions_tabs_in_order_witness :
    exampleAfterCurrent.newTabBehavior = .PutNewTabAfterCurrentTab ∧
    ∃ (st1 : ViewManager) (tabs : List Nat),
      exampleAfterCurrent.restoreSessions exampleLiveSessions ⟨some [51, 50], some 1⟩
        = some st1 ∧
      st1.viewsOf 1 = tabs ∧
      (([51, 50] : List Int) ≠ [] → tabs.length = ([51, 50] : List Int).length) ∧
      ∀ (j : Nat) (id : Int), ([51, 50] : List Int)[j]? = some id →
        ∃ (t d s : Nat), tabs[j]? = some t ∧ exampleLiveSessions id = some s ∧
          st1.mtdOf t = some (.Leaf d s) ∧
          st1.sessionMap.find? d = some (some s) :=
  ⟨rfl, restoreSessions_tabs_in_order exampleAfterCurrent exampleLiveSessions [51, 50] (some 1)
    ⟨[1], 0, some 2⟩ 1 ⟨1, [], none⟩ rfl rfl (by decide) (by decide) rfl
    exampleAfterCurrent_fresh (by decide)⟩

/-- C21 fails at `exampleDetached`, a window whose only tab was detached:
`saveSessions` writes the empty `Sessions` list, `restoreSessions` of that
group on a new manager opens a tab for a session of the default profile, and
`saveSessions` of the restored state writes the list of that one session. -/
theorem saveSessions_restore_counterexample :
    (exampleDetached.saveSessions exampleRestoreId ⟨none, none⟩).map (fun r => r.2)
      = some ⟨some [], none⟩ ∧
    (((ViewManager.new true 0 1).restoreSessions exampleIdToSession ⟨some [], none⟩).bind
        (fun st => st.saveSessions exampleRestoreId ⟨none, none⟩)).map (fun r => r.2.sessions)
      = some (some [1]) := by
  decide

/-- C21, amended: when `saveSessions` writes a `Sessions` list that is not
empty and each ID in it resolves to a session that has this restore ID,
then `restoreSessions` of the saved group on a new manager returns, and
`saveSessions` of the restored state returns and writes the same ordered
`Sessions` list. -/
theorem saveSessions_restore_same_sessions (st st1 : ViewManager) (gri : Option Nat → Int)
    (f : Int → Option Nat) (g0 g1 g : KConfigGroup) (ids : List Int)
    (enableDetaching : Bool) (defaultProfile n : Nat)
    (hsave : st.saveSessions gri g0 = some (st1, g1))
    (hids : g1.sessions = some ids) (hne : ids ≠ [])
    (hlive : ∀ id ∈ ids, ∃ s, f id = some s ∧ gri (some s) = id) :
    ∃ (st2 st3 : ViewManager) (g2 : KConfigGroup),
      (ViewManager.new enableDetaching defaultProfile n).restoreSessions f g1 = some st2 ∧
      st2.saveSessions gri g = some (st3, g2) ∧
      g2.sessions = some ids := by
  have hall : ∀ id ∈ ids, (f id).isSome = true := by
    intro id hid
    obtain ⟨s, hs, _⟩ := hlive id hid
    rw [hs]; rfl
  obtain ⟨st2, sp2, cont2, triples, h1, hsp2, hac2, hcont2, hviews2, hsess, hfacts, hvals⟩ :=
    ViewManager.restoreSessions_one f
      (ViewManager.new_oneContainer enableDetaching defaultProfile n) ids hne hall g1.active
  have hg1 : g1 = ⟨some ids, g1.active⟩ := by
    cases g1; simp only at hids; subst hids; rfl
  have hrestore :
      (ViewManager.new enableDetaching defaultProfile n).restoreSessions f g1 = some st2 := by
    rw [← h1, hg1]
    cases ids with
    | nil => exact absurd rfl hne
    | cons id0 rest =>
      simp only [ViewManager.restoreSessions, Option.getD_some, ViewManager.restoreSessionsLoop,
        ViewManager.createView_new]
  have htds : st2.getTerminalDisplays = triples.map (fun x => x.2.1) := by
    simp only [ViewManager.getTerminalDisplays, hsp2, Option.some_bind, hac2,
      ViewManager.viewsOf, hcont2, hviews2]
    exact ViewManager.flatMap_tabDisplays st2 triples (fun x hx => (hfacts x hx).1)
  have hcontains : ∀ v ∈ triples.map (fun x => x.2.1), st2.sessionMap.contains v = true := by
    intro v hv
    obtain ⟨x, hx, rfl⟩ := List.mem_map.mp hv
    simp [SessionMap.contains, (hfacts x hx).2]
  have hvalue : (triples.map (fun x => x.2.1)).map (fun v => st2.sessionMap.value v)
      = ids.map f := by
    rw [← hsess, List.map_map]
    apply List.map_congr_left
    intro x hx
    simp [SessionMap.value, (hfacts x hx).2]
  have hgri : (ids.map f).map gri = ids := by
    rw [List.map_map]
    conv_rhs => rw [← List.map_id ids]
    apply List.map_congr_left
    intro id hid
    obtain ⟨s, hs, hg⟩ := hlive id hid
    simp [hs, hg]
  obtain ⟨g3, hviews, _⟩ := ViewManager.saveSessionsViews_spec gri
    (cont2.activeView.filter (fun w => decide (w ∈ st2.terminalDisplays))) st2.sessionMap
    (triples.map (fun x => x.2.1)) hcontains [] [] g 1
  obtain ⟨others, hothers, _, hmem⟩ := ViewManager.saveSessionsOthers_spec gri
    (st2.sessionMap.entries.map Prod.snd)
    ([] ++ (triples.map (fun x => x.2.1)).map (fun v => gri (st2.sessionMap.value v)))
    ([] ++ (triples.map (fun x => x.2.1)).map (fun v => st2.sessionMap.value v))
  have hnone : others = [] := by
    apply List.eq_nil_iff_forall_not_mem.mpr
    intro s hs
    obtain ⟨hin, hnot⟩ := (hmem s).mp hs
    apply hnot
    rw [List.nil_append, hvalue]
    rcases hvals s hin with h | h
    · simp [ViewManager.new] at h
    · exact h
  have hsave2 : ∃ (st3 : ViewManager) (g2 : KConfigGroup),
      st2.saveSessions gri g = some (st3, g2) ∧ g2.sessions = some ids := by
    simp only [ViewManager.saveSessions, ViewManager.saveSessionsWith, hsp2, hac2, hcont2,
      Option.bind_eq_bind, Option.some_bind, htds]
    refine ⟨_, _, rfl, ?_⟩
    show some _ = some ids
    rw [hviews]
    simp only
    rw [hothers, hnone]
    have : (triples.map (fun x => x.2.1)).map (fun v => gri (st2.sessionMap.value v))
        = ids := by
      rw [← hgri, ← hvalue]
      simp only [List.map_map, Function.comp_def]
    simp [this]
  obtain ⟨st3, g2, hs2, hg2⟩ := hsave2
  exact ⟨st2, st3, g2, hrestore, hs2, hg2⟩

/-- C21, amended, at `exampleWindow`, whose tabs show sessions 50 and 51:
the saved list is 50, 51, and after restoring it on a new manager the list
saved is 50, 51 again. -/
theorem saveSessions_restore_same_sessions_witness :
    exampleWindow.saveSessions exampleRestoreId ⟨none, none⟩
      = some (exampleWindow, ⟨some [50, 51], none⟩) ∧
    ∃ (st2 st3 : ViewManager) (g2 : KConfigGroup),
      (ViewManager.new true 0 1).restoreSessions exampleLiveSessions ⟨some [50, 51], none⟩
        = some st2 ∧
      st2.saveSessions exampleRestoreId ⟨none, none⟩ = some (st3, g2) ∧
      g2.sessions = some [50, 51] :=
  ⟨rfl, saveSessions_restore_same_sessions exampleWindow exampleWindow exampleRestoreId
    exampleLiveSessions ⟨none, none⟩ ⟨some [50, 51], none⟩ ⟨none, none⟩ [50, 51] true 0 1
    rfl rfl (by decide) (by decide)⟩

end Konsole
